import Mathlib

/-!
docker-vrouter: route, FDB and peer-table reconcilers.

A shallow embedding of the Go sources

* `router/pkg/config/config.go`, `router/pkg/routing/manager.go`,
  `router/pkg/fdb/manager.go`, `router/pkg/discovery/watcher.go`,
  `router/pkg/vxlan/interface.go`, `router/cmd/main.go` (router daemon),
* `discovery/pkg/types/peer.go`, `discovery/pkg/storage/file.go`,
  `discovery/pkg/multicast/discovery.go`, `discovery/pkg/vxlan/manager.go`,
  `discovery/cmd/main.go` (discovery daemon),

followed by theorems about them.

Modelling conventions.

* A Go `map[string]V` is a `GoMap V`: a finite association list with unique keys.
  Go leaves the order of `range` over a map unspecified, so every `range` loop takes a
  `RangeOrder`, an arbitrary permutation of the keys; theorems quantify over all of them.
* `exec.Command(argv...).Run()` is a call to a `Kernel` oracle.  The oracle sees the
  commands (and outcomes) issued so far in the current call and the argv of the new
  command and answers whether `Run` returns `nil`.  Every command is appended, with its
  outcome, to a `Log`.
* `cmd.Output()` is a call to the same oracle for the exit status and to a `Stdout` oracle
  for the captured text.
* `log.Printf` has no effect on the modelled state and is left out; `log.Fatal` ends the
  function with `none`.
* Mutexes serialise the operations; each operation is modelled as one atomic step.  The
  exception is `WriteDiscoveryFile`, which holds the read lock only: its file operations
  (`writeOps`) can interleave with those of a second call, and `os.FileOp.run` gives the
  files after each operation.
* A Go `string` is a sequence of bytes, a `GoString`.  A string that is valid UTF-8 by
  construction (a literal, a value stored by `json.Unmarshal`, the text of an IP address,
  an argument of a command) is a Lean `String`, and `GoString.ofText` gives its bytes.  The
  stack id of the discovery daemon, which is the value of `STACK_ID` as it is, and the
  strings of a message handed to `json.Marshal` are `GoString`s.
* A Go `int` is an integer; where the 64-bit range matters it is a hypothesis
  (`json.isInt64`).
* `encoding/json` is modelled on the text: `Marshal` and `Encoder.Encode` render the struct
  by its tags with Go's string escaping (a byte of a Go string that starts no valid UTF-8
  sequence is written as `\ufffd`), `Unmarshal` parses the text (objects of scalars
  and of arrays of flat objects, which covers both wire formats) and stores the members
  into the struct, matching keys without regard to case.  Bytes are UTF-8.
* RFC 3339 time text is a `time.Layout`: a formatter and an acceptance test such that
  every formatted time is accepted.
* `strings.Split`, `strings.Fields` and `strings.Contains` work on the characters of the
  text; the environment is an `os.Env`; `int64` products wrap (`time.wrap`).
* The files of the data directory are an `os.FileSystem`; `os.Create`, `Write` and
  `os.Rename` may each fail as an `os.Faults` says, and every operation is recorded with
  its outcome and the file system right after it.
-/

/-- Go `map[string]V`: finite map with unique `string` keys. -/
abbrev GoMap (V : Type) := AList (fun _ : String => V)

/-- One resolution of Go's unspecified map iteration order: a permutation of the keys. -/
structure RangeOrder where
  pick : List String → List String
  isPerm : ∀ ks, (pick ks).Perm ks

/-- Iterate in the order in which the model happens to store the keys. -/
def RangeOrder.stored : RangeOrder := ⟨id, fun _ => List.Perm.refl _⟩

/-- Iterate in the opposite order. -/
def RangeOrder.reversed : RangeOrder := ⟨List.reverse, fun ks => List.reverse_perm ks⟩

/-- The key/value pairs produced by `for k, v := range m` under the order `o`. -/
def GoMap.range {V : Type} (o : RangeOrder) (m : GoMap V) : List (String × V) :=
  (o.pick m.keys).filterMap (fun k => (m.lookup k).map (fun v => (k, v)))

/-- The argv of an external command, e.g. `["ip", "route", "del", s, "dev", ifname]`. -/
abbrev Cmd := List String

/-- Commands issued so far, each with its outcome (`true`: `Run()` returned `nil`). -/
abbrev Log := List (Cmd × Bool)

/-- Outcome of `cmd.Run()` given the commands already issued in this call. -/
abbrev Kernel := Log → Cmd → Bool

/-- A kernel on which every command succeeds. -/
def Kernel.allOk : Kernel := fun _ _ => true

/-- A kernel on which every command fails. -/
def Kernel.allFail : Kernel := fun _ _ => false

/-- Go `error`: `none` is `nil`. -/
abbrev GoError := Option String

/-- A Go `string` as a value in memory: a sequence of bytes, which need not be valid UTF-8
(the value of an environment variable, for example). -/
abbrev GoString := List UInt8

namespace config

/-- `config.StackConfig`. -/
structure StackConfig where
  VXLANIP : String
  ContainerSubnet : String
deriving DecidableEq, Repr

/-- `config.Config`. -/
structure Config where
  Version : Int
  StackID : String
  VNI : Int
  VXLANSubnet : String
  LocalVXLANIP : String
  ContainerSubnet : String
  StackMappings : GoMap StackConfig

/-- `Config.GetStackConfig`: the comma-ok map read `c.StackMappings[stackID]`. -/
def Config.GetStackConfig (c : Config) (stackID : String) : StackConfig × Bool :=
  match c.StackMappings.lookup stackID with
  | some stackConfig => (stackConfig, true)
  | none => (⟨"", ""⟩, false)

end config

namespace discovery

/-- Router-side `discovery.Peer` (`router/pkg/discovery/watcher.go`). -/
structure Peer where
  StackID : String
  HostIP : String
  VXLANEndpoint : String
  VNI : Int
  LastSeen : String
  Status : String
deriving DecidableEq, Repr

end discovery

namespace routing

/-- `routing.Manager`. -/
structure Manager where
  interfaceName : String
  config : config.Config
  routes : GoMap String

/-- `NewManager`. -/
def NewManager (interfaceName : String) (config : config.Config) : Manager :=
  { interfaceName := interfaceName, config := config, routes := ∅ }

/-- The argv built by `addRouteUnsafe`. -/
def Manager.addCmd (m : Manager) (subnet nextHop : String) : Cmd :=
  ["ip", "route", "add", subnet, "via", nextHop, "dev", m.interfaceName]

/-- The argv built by `removeRouteUnsafe`. -/
def Manager.delCmd (m : Manager) (subnet : String) : Cmd :=
  ["ip", "route", "del", subnet, "dev", m.interfaceName]

/-- `Manager.addRouteUnsafe`: run `ip route add`; record the route only on success. -/
def Manager.addRouteUnsafe (k : Kernel) (s : Manager × Log) (subnet nextHop : String) :
    (Manager × Log) × GoError :=
  let cmd := s.1.addCmd subnet nextHop
  if k s.2 cmd then
    (({ s.1 with routes := s.1.routes.insert subnet nextHop }, s.2 ++ [(cmd, true)]), none)
  else
    ((s.1, s.2 ++ [(cmd, false)]),
      some ("failed to add route " ++ subnet ++ " via " ++ nextHop))

/-- `Manager.removeRouteUnsafe`: run `ip route del`; forget the route whatever the outcome. -/
def Manager.removeRouteUnsafe (k : Kernel) (s : Manager × Log) (subnet : String) :
    (Manager × Log) × GoError :=
  let cmd := s.1.delCmd subnet
  (({ s.1 with routes := s.1.routes.erase subnet }, s.2 ++ [(cmd, k s.2 cmd)]), none)

/-- Body of the first loop of `UpdateRoutes` (lines 38-57). -/
def Manager.planStep (m : Manager) (newRoutes : GoMap String) (peer : discovery.Peer) :
    GoMap String :=
  if peer.StackID = m.config.StackID then newRoutes
  else
    match m.config.GetStackConfig peer.StackID with
    | (_, false) => newRoutes
    | (stackConfig, true) => newRoutes.insert stackConfig.ContainerSubnet stackConfig.VXLANIP

/-- First loop of `UpdateRoutes` (lines 36-57): the desired map `newRoutes`. -/
def Manager.newRoutes (m : Manager) (peers : List discovery.Peer) : GoMap String :=
  peers.foldl m.planStep ∅

/-- The route set of the convergence property, in the spec's words: the pairs
`(stack_mappings[p.stack_id].container_subnet, stack_mappings[p.stack_id].vxlan_ip)` of the
peers `p` in `peers` that are not the local stack and have an entry in `stack_mappings`. -/
abbrev Manager.specRoute (m : Manager) (peers : List discovery.Peer)
    (subnet nextHop : String) : Prop :=
  ∃ p ∈ peers, p.StackID ≠ m.config.StackID ∧
    (m.config.GetStackConfig p.StackID).2 = true ∧
    (m.config.GetStackConfig p.StackID).1.ContainerSubnet = subnet ∧
    (m.config.GetStackConfig p.StackID).1.VXLANIP = nextHop

/-- Body of the second loop of `UpdateRoutes` (lines 60-67). -/
def Manager.removeStep (k : Kernel) (newRoutes : GoMap String) (s : Manager × Log)
    (kv : String × String) : Manager × Log :=
  match newRoutes.lookup kv.1 with
  | none => (Manager.removeRouteUnsafe k s kv.1).1
  | some _ => s

/-- Body of the third loop of `UpdateRoutes` (lines 70-77). -/
def Manager.addStep (k : Kernel) (s : Manager × Log) (kv : String × String) : Manager × Log :=
  match s.1.routes.lookup kv.1 with
  | none => (Manager.addRouteUnsafe k s kv.1 kv.2).1
  | some existingNextHop =>
    if existingNextHop ≠ kv.2 then (Manager.addRouteUnsafe k s kv.1 kv.2).1 else s

/-- `Manager.UpdateRoutes`.  `o₁` orders `range m.routes`, `o₂` orders `range newRoutes`.
Returns the manager, the commands issued by this call and the returned `error`. -/
def Manager.UpdateRoutes (k : Kernel) (o₁ o₂ : RangeOrder) (m : Manager)
    (peers : List discovery.Peer) : (Manager × Log) × GoError :=
  let newRoutes := m.newRoutes peers
  let s₁ := (GoMap.range o₁ m.routes).foldl (Manager.removeStep k newRoutes) (m, [])
  let s₂ := (GoMap.range o₂ newRoutes).foldl (Manager.addStep k) s₁
  (s₂, none)

end routing

namespace fdb

/-- `fdb.Manager`. -/
structure Manager where
  interfaceName : String
  entries : GoMap String

/-- `NewManager`. -/
def NewManager (interfaceName : String) : Manager :=
  { interfaceName := interfaceName, entries := ∅ }

/-- The argv built by `addEntryUnsafe`. -/
def Manager.appendCmd (m : Manager) (hostIP : String) : Cmd :=
  ["bridge", "fdb", "append", "00:00:00:00:00:00", "dev", m.interfaceName, "dst", hostIP]

/-- The argv built by `removeEntryUnsafe`. -/
def Manager.delCmd (m : Manager) (hostIP : String) : Cmd :=
  ["bridge", "fdb", "del", "00:00:00:00:00:00", "dev", m.interfaceName, "dst", hostIP]

/-- `Manager.addEntryUnsafe`. -/
def Manager.addEntryUnsafe (k : Kernel) (s : Manager × Log) (hostIP : String) :
    (Manager × Log) × GoError :=
  let cmd := s.1.appendCmd hostIP
  if k s.2 cmd then
    (({ s.1 with entries := s.1.entries.insert hostIP hostIP }, s.2 ++ [(cmd, true)]), none)
  else
    ((s.1, s.2 ++ [(cmd, false)]), some ("failed to add FDB entry for " ++ hostIP))

/-- `Manager.removeEntryUnsafe`. -/
def Manager.removeEntryUnsafe (k : Kernel) (s : Manager × Log) (hostIP : String) :
    (Manager × Log) × GoError :=
  let cmd := s.1.delCmd hostIP
  (({ s.1 with entries := s.1.entries.erase hostIP }, s.2 ++ [(cmd, k s.2 cmd)]), none)

/-- First loop of `UpdateEntries` (lines 84-87 of `fdb/manager.go`): the set `currentHosts`. -/
def currentHosts (hostIPs : List String) : GoMap Bool :=
  hostIPs.foldl (fun currentHosts hostIP => currentHosts.insert hostIP true) ∅

/-- Body of the second loop of `UpdateEntries` (lines 90-95).  `currentHosts[hostIP]`
reads `false` for a missing key; the value returned by `removeEntryUnsafe` is dropped. -/
def Manager.removeStep (k : Kernel) (currentHosts : GoMap Bool) (s : Manager × Log)
    (kv : String × String) : Manager × Log :=
  if !((currentHosts.lookup kv.1).getD false) then (Manager.removeEntryUnsafe k s kv.1).1
  else s

/-- Body of the third loop of `UpdateEntries` (lines 98-103); the value returned by
`addEntryUnsafe` is dropped. -/
def Manager.addStep (k : Kernel) (s : Manager × Log) (kv : String × Bool) : Manager × Log :=
  match s.1.entries.lookup kv.1 with
  | none => (Manager.addEntryUnsafe k s kv.1).1
  | some _ => s

/-- `Manager.UpdateEntries`.  `o₁` orders `range m.entries`, `o₂` orders
`range currentHosts`. -/
def Manager.UpdateEntries (k : Kernel) (o₁ o₂ : RangeOrder) (m : Manager)
    (hostIPs : List String) : (Manager × Log) × GoError :=
  let cur := currentHosts hostIPs
  let s₁ := (GoMap.range o₁ m.entries).foldl (Manager.removeStep k cur) (m, [])
  let s₂ := (GoMap.range o₂ cur).foldl (Manager.addStep k) s₁
  (s₂, none)

end fdb

/-! ## UTF-8 -/

namespace utf8

/-- Replacement character U+FFFD. -/
def replacement : Char := Char.ofNat 65533

/-- The UTF-8 encoding of one character. -/
def encodeChar (c : Char) : List UInt8 :=
  let v := c.toNat
  if v < 128 then [UInt8.ofNat v]
  else if v < 2048 then [UInt8.ofNat (192 + v / 64), UInt8.ofNat (128 + v % 64)]
  else if v < 65536 then
    [UInt8.ofNat (224 + v / 4096), UInt8.ofNat (128 + v / 64 % 64), UInt8.ofNat (128 + v % 64)]
  else
    [UInt8.ofNat (240 + v / 262144), UInt8.ofNat (128 + v / 4096 % 64),
      UInt8.ofNat (128 + v / 64 % 64), UInt8.ofNat (128 + v % 64)]

/-- The UTF-8 encoding of a text. -/
def encode (cs : List Char) : List UInt8 := cs.flatMap encodeChar

/-- Is `b` a continuation byte `10xxxxxx`? -/
def isCont (b : UInt8) : Bool := 128 ≤ b.toNat && b.toNat < 192

/-- Decode the character at the head of `bs` when the head is a well-formed UTF-8
sequence (shortest form, no surrogate, at most U+10FFFF); returns it with the rest. -/
def decodeChar : List UInt8 → Option (Char × List UInt8)
  | [] => none
  | b0 :: rest =>
    if b0.toNat < 128 then some (Char.ofNat b0.toNat, rest)
    else if b0.toNat < 192 then none
    else if b0.toNat < 224 then
      match rest with
      | b1 :: rest =>
        let v := (b0.toNat - 192) * 64 + (b1.toNat - 128)
        if isCont b1 && 128 ≤ v then some (Char.ofNat v, rest) else none
      | _ => none
    else if b0.toNat < 240 then
      match rest with
      | b1 :: b2 :: rest =>
        let v := (b0.toNat - 224) * 4096 + (b1.toNat - 128) * 64 + (b2.toNat - 128)
        if isCont b1 && isCont b2 && 2048 ≤ v && !(55296 ≤ v && v < 57344) then
          some (Char.ofNat v, rest)
        else none
      | _ => none
    else if b0.toNat < 248 then
      match rest with
      | b1 :: b2 :: b3 :: rest =>
        let v := (b0.toNat - 240) * 262144 + (b1.toNat - 128) * 4096 +
          (b2.toNat - 128) * 64 + (b3.toNat - 128)
        if isCont b1 && isCont b2 && isCont b3 && 65536 ≤ v && v < 1114112 then
          some (Char.ofNat v, rest)
        else none
      | _ => none
    else none

/-- Decoding with `fuel` steps; a byte that starts no well-formed sequence decodes to
U+FFFD, as in Go. -/
def decodeFuel : Nat → List UInt8 → List Char
  | 0, _ => []
  | _, [] => []
  | fuel + 1, b :: rest =>
    match decodeChar (b :: rest) with
    | some (c, rest') => c :: decodeFuel fuel rest'
    | none => replacement :: decodeFuel fuel rest

/-- The text of a byte sequence (each step consumes at least one byte). -/
def decode (bs : List UInt8) : List Char := decodeFuel bs.length bs

/-- `utf8.Valid` with `fuel` steps: the bytes are consumed by well-formed sequences
alone. -/
def validFuel : Nat → List UInt8 → Bool
  | _, [] => true
  | 0, _ :: _ => false
  | fuel + 1, b :: rest =>
    match decodeChar (b :: rest) with
    | some (_, rest') => validFuel fuel rest'
    | none => false

/-- `utf8.Valid`: do the bytes consist of well-formed UTF-8 sequences only? -/
def Valid (bs : List UInt8) : Bool := validFuel bs.length bs

end utf8

namespace GoString

/-- The Go string of a text: its UTF-8 encoding.  The strings that `json.Unmarshal` stores
are of this form, since it replaces every invalid byte by U+FFFD. -/
def ofText (s : String) : GoString := utf8.encode s.data

/-- The text that Go reads from a string when it decodes it rune by rune: every byte that
starts no valid encoding reads as U+FFFD. -/
def toText (s : GoString) : String := String.mk (utf8.decode s)

/-- `utf8.ValidString(s)`. -/
def valid (s : GoString) : Bool := utf8.Valid s

end GoString

namespace time

/-- A `time.Time` returned by `time.Now()`: its monotonic clock reading, in nanoseconds
since process start (a non-negative `int64`).  `Time.Sub` of two such values uses the
monotonic readings alone. -/
abbrev Time := Fin 9223372036854775808

/-- `time.Duration`: nanoseconds. -/
abbrev Duration := Int

/-- `maxDuration`. -/
def maxDuration : Duration := 9223372036854775807

/-- `minDuration`. -/
def minDuration : Duration := -9223372036854775808

/-- `Time.Sub`: the difference `t - u`, saturated to the range of `Duration`. -/
def Sub (t u : Time) : Duration :=
  let d : Int := (t.val : Int) - (u.val : Int)
  if d > maxDuration then maxDuration else if d < minDuration then minDuration else d

end time

namespace types

/-- `types.Peer` (`discovery/pkg/types/peer.go`). -/
structure Peer where
  StackID : String
  HostIP : String
  VXLANEndpoint : String
  VNI : Int
  LastSeen : time.Time
  Status : String
deriving DecidableEq, Repr

/-- `types.MulticastMessage` as `json.Unmarshal` fills it; the field `Type` is spelled
`Type_`.  `Unmarshal` stores valid UTF-8 only, so the strings of a decoded message are
text. -/
structure MulticastMessage where
  Type_ : String
  Version : Int
  StackID : String
  HostIP : String
  VNI : Int
  Timestamp : Int
deriving DecidableEq, Repr

/-- `types.MulticastMessage` as a value built in memory and handed to `json.Marshal`: its
strings are Go strings, any bytes.  `sendAnnouncement` and `handleQuery` put the daemon's
own stack id into `StackID`, which is the value of `STACK_ID` as it is. -/
structure RawMessage where
  Type_ : GoString
  Version : Int
  StackID : GoString
  HostIP : GoString
  VNI : Int
  Timestamp : Int
deriving DecidableEq, Repr

/-- A decoded message as a value in memory. -/
def MulticastMessage.toRaw (m : MulticastMessage) : RawMessage :=
  { Type_ := GoString.ofText m.Type_, Version := m.Version,
    StackID := GoString.ofText m.StackID, HostIP := GoString.ofText m.HostIP,
    VNI := m.VNI, Timestamp := m.Timestamp }

/-- Message type `ANNOUNCE`. -/
def MessageTypeAnnounce : String := "ANNOUNCE"
/-- Message type `QUERY`. -/
def MessageTypeQuery : String := "QUERY"
/-- Message type `RESPONSE`. -/
def MessageTypeResponse : String := "RESPONSE"
/-- Peer status `active`. -/
def PeerStatusActive : String := "active"
/-- Peer status `stale`. -/
def PeerStatusStale : String := "stale"

end types

namespace storage

/-- `storage.FileStorage`: the in-memory peer table and the data directory. -/
structure FileStorage where
  dataDir : String
  peers : GoMap types.Peer

/-- `DefaultDataDir`. -/
def DefaultDataDir : String := "/var/lib/docker-router"

/-- `NewFileStorage`. -/
def NewFileStorage (dataDir : String) : FileStorage :=
  { dataDir := if dataDir = "" then DefaultDataDir else dataDir, peers := ∅ }

/-- `FileStorage.AddPeer`; `now` is the value of `time.Now()`. -/
def FileStorage.AddPeer (now : time.Time) (fs : FileStorage) (peer : types.Peer) :
    FileStorage :=
  let peer := { peer with LastSeen := now, Status := types.PeerStatusActive }
  { fs with peers := fs.peers.insert peer.StackID peer }

/-- Body of the loop of `CleanupStale`. -/
def FileStorage.cleanupStep (now : time.Time) (timeout : time.Duration) (fs : FileStorage)
    (kv : String × types.Peer) : FileStorage :=
  if time.Sub now kv.2.LastSeen > timeout then { fs with peers := fs.peers.erase kv.1 }
  else fs

/-- `FileStorage.CleanupStale`; `now` is the value of `time.Now()`, `o` orders
`range fs.peers`. -/
def FileStorage.CleanupStale (o : RangeOrder) (now : time.Time) (fs : FileStorage)
    (timeout : time.Duration) : FileStorage :=
  (GoMap.range o fs.peers).foldl (FileStorage.cleanupStep now timeout) fs

end storage

namespace multicast

/-- `net.UDPAddr`. -/
structure UDPAddr where
  IP : String
  Port : Int
deriving DecidableEq, Repr

/-- The package `encoding/json` as used on `types.MulticastMessage`: `Unmarshal` returns
`none` when `json.Unmarshal` returns an error, `Marshal` likewise. -/
structure Json where
  Unmarshal : List UInt8 → Option types.MulticastMessage
  Marshal : types.RawMessage → Option (List UInt8)

/-- What a handler does besides changing the peer table. -/
inductive Effect where
  /-- A call of `storage.WriteDiscoveryFile` while the peer table is `peers`. -/
  | WriteDiscoveryFile (peers : GoMap types.Peer)
  /-- A call of `conn.WriteToUDP(data, addr)`. -/
  | WriteToUDP (data : List UInt8) (addr : UDPAddr)

/-- `multicast.Discovery` (socket and goroutine fields left out).  `stackID` is the value
of `STACK_ID`, a Go string; `hostIP` is the text that `detectHostIP` gets from
`net.IP.String`. -/
structure Discovery where
  stackID : GoString
  hostIP : String
  vni : Int
  multicastGroup : String
  port : Int
  announceInterval : time.Duration
  peerTimeout : time.Duration
  storage : storage.FileStorage

/-- `DefaultMulticastGroup`. -/
def DefaultMulticastGroup : String := "239.1.1.1"
/-- `DefaultPort`. -/
def DefaultPort : Int := 4790
/-- `DefaultAnnounceInterval`: 30 s. -/
def DefaultAnnounceInterval : time.Duration := 30 * 1000000000
/-- `DefaultPeerTimeout`: 90 s. -/
def DefaultPeerTimeout : time.Duration := 90 * 1000000000

/-- `NewDiscovery`. -/
def NewDiscovery (stackID : GoString) (vni : Int) (storage : storage.FileStorage) :
    Discovery :=
  { stackID := stackID, hostIP := "", vni := vni, multicastGroup := DefaultMulticastGroup,
    port := DefaultPort, announceInterval := DefaultAnnounceInterval,
    peerTimeout := DefaultPeerTimeout, storage := storage }

/-- `Discovery.handleAnnouncement`; `now` is the value of `time.Now()` read by `AddPeer`. -/
def Discovery.handleAnnouncement (now : time.Time) (d : Discovery)
    (message : types.MulticastMessage) (_addr : UDPAddr) : Discovery × List Effect :=
  let peer : types.Peer :=
    { StackID := message.StackID, HostIP := message.HostIP,
      VXLANEndpoint := message.HostIP ++ ":4789", VNI := message.VNI,
      LastSeen := 0, Status := "" }
  let storage := d.storage.AddPeer now peer
  ({ d with storage := storage }, [Effect.WriteDiscoveryFile storage.peers])

/-- `Discovery.handleQuery`; `unix` is the value of `time.Now().Unix()`. -/
def Discovery.handleQuery (json : Json) (unix : Int) (d : Discovery)
    (_message : types.MulticastMessage) (addr : UDPAddr) : Discovery × List Effect :=
  let response : types.RawMessage :=
    { Type_ := GoString.ofText types.MessageTypeResponse, Version := 1,
      StackID := d.stackID, HostIP := GoString.ofText d.hostIP, VNI := d.vni,
      Timestamp := unix }
  match json.Marshal response with
  | none => (d, [])
  | some data => (d, [Effect.WriteToUDP data addr])

/-- `Discovery.handleResponse`. -/
def Discovery.handleResponse (now : time.Time) (d : Discovery)
    (message : types.MulticastMessage) (addr : UDPAddr) : Discovery × List Effect :=
  d.handleAnnouncement now message addr

/-- `Discovery.handleMessage`.  The test `message.StackID == d.stackID` compares the bytes
of the two strings. -/
def Discovery.handleMessage (json : Json) (now : time.Time) (unix : Int) (d : Discovery)
    (data : List UInt8) (addr : UDPAddr) : Discovery × List Effect :=
  match json.Unmarshal data with
  | none => (d, [])
  | some message =>
    if GoString.ofText message.StackID = d.stackID then (d, [])
    else if message.Type_ = types.MessageTypeAnnounce then d.handleAnnouncement now message addr
    else if message.Type_ = types.MessageTypeQuery then d.handleQuery json unix message addr
    else if message.Type_ = types.MessageTypeResponse then d.handleResponse now message addr
    else (d, [])

/-- What the listen loop and the cleanup loop react to. -/
inductive Event where
  /-- `listenLoop` read `data` (the bytes `buffer[:n]`) from `addr`; `now`, `unix`: the
  clock. -/
  | datagram (data : List UInt8) (addr : UDPAddr) (now : time.Time) (unix : Int)
  /-- The ticker of `cleanupLoop` fired at `now`; `o` orders the `range` of `CleanupStale`. -/
  | cleanupTick (o : RangeOrder) (now : time.Time)

/-- One iteration of `listenLoop` (a datagram was read) or of `cleanupLoop` (a tick). -/
def Discovery.step (json : Json) (d : Discovery) : Event → Discovery × List Effect
  | Event.datagram data addr now unix => d.handleMessage json now unix data addr
  | Event.cleanupTick o now =>
    let storage := d.storage.CleanupStale o now d.peerTimeout
    ({ d with storage := storage }, [Effect.WriteDiscoveryFile storage.peers])

/-- The daemon after a sequence of events (effects dropped). -/
def Discovery.run (json : Json) (d : Discovery) (events : List Event) : Discovery :=
  events.foldl (fun d e => (d.step json e).1) d

/-- No entry of the peer table is keyed by, or carries, the local stack id. -/
def Discovery.noSelf (d : Discovery) : Prop :=
  ∀ key p, d.storage.peers.lookup key = some p →
    GoString.ofText key ≠ d.stackID ∧ GoString.ofText p.StackID ≠ d.stackID

end multicast

/-! ## Router callback -/

namespace router

/-- `Router` of `router/cmd/main.go` (the VXLAN manager and the watcher left out). -/
structure Router where
  config : config.Config
  fdbManager : fdb.Manager
  routeManager : routing.Manager

/-- `NewRouter`, from the loaded configuration: the interface is `vxlan<VNI>`. -/
def NewRouter (cfg : config.Config) : Router :=
  let interfaceName := "vxlan" ++ toString cfg.VNI
  { config := cfg, fdbManager := fdb.NewManager interfaceName,
    routeManager := routing.NewManager interfaceName cfg }

/-- `Router.onPeersUpdated`: `UpdateEntries` on the peers' host IPs, then `UpdateRoutes`.
The kernel sees the commands of the whole callback; the returned log lists them in order. -/
def Router.onPeersUpdated (k : Kernel) (o₁ o₂ o₃ o₄ : RangeOrder) (r : Router)
    (peers : List discovery.Peer) : Router × Log :=
  let hostIPs := peers.map (fun peer => peer.HostIP)
  let f := r.fdbManager.UpdateEntries k o₁ o₂ hostIPs
  let g := r.routeManager.UpdateRoutes (fun log cmd => k (f.1.2 ++ log) cmd) o₃ o₄ peers
  ({ r with fdbManager := f.1.1, routeManager := g.1.1 }, f.1.2 ++ g.1.2)

end router

/-! ## JSON text -/

namespace json

/-- `"`. -/
def cQuote : Char := Char.ofNat 34
/-- Reverse solidus. -/
def cBackslash : Char := Char.ofNat 92
/-- Left brace. -/
def cLBrace : Char := Char.ofNat 123
/-- Right brace. -/
def cRBrace : Char := Char.ofNat 125
/-- Left bracket. -/
def cLBracket : Char := Char.ofNat 91
/-- Right bracket. -/
def cRBracket : Char := Char.ofNat 93
/-- Comma. -/
def cComma : Char := Char.ofNat 44
/-- Colon. -/
def cColon : Char := Char.ofNat 58
/-- Minus sign. -/
def cMinus : Char := Char.ofNat 45
/-- Space. -/
def cSpace : Char := Char.ofNat 32
/-- Line feed. -/
def cLF : Char := Char.ofNat 10
/-- Carriage return. -/
def cCR : Char := Char.ofNat 13
/-- Horizontal tab. -/
def cTab : Char := Char.ofNat 9

/-- JSON whitespace. -/
def isWs (c : Char) : Bool := c = cSpace || c = cLF || c = cCR || c = cTab

/-- Drop leading whitespace. -/
def skipWs : List Char → List Char
  | [] => []
  | c :: cs => if isWs c then skipWs cs else c :: cs

/-- Decimal digit `0`..`9`. -/
def isDigit (c : Char) : Bool := 48 ≤ c.toNat && c.toNat ≤ 57

/-- The character of the digit `d`. -/
def digitChar (d : Nat) : Char := Char.ofNat (48 + d)

/-- Decimal digits of `n`, most significant first; `fuel` bounds the number of digits. -/
def renderNatFuel : Nat → Nat → List Char
  | 0, n => [digitChar (n % 10)]
  | fuel + 1, n =>
    if n < 10 then [digitChar n] else renderNatFuel fuel (n / 10) ++ [digitChar (n % 10)]

/-- Decimal text of a natural number, as `strconv` prints it. -/
def renderNat (n : Nat) : List Char := renderNatFuel n n

/-- Decimal text of an integer. -/
def renderInt (i : Int) : List Char :=
  if i < 0 then cMinus :: renderNat i.natAbs else renderNat i.toNat

/-- Read digits into the accumulator. -/
def parseDigits : Nat → List Char → Nat × List Char
  | acc, [] => (acc, [])
  | acc, c :: cs =>
    if isDigit c then parseDigits (acc * 10 + (c.toNat - 48)) cs else (acc, c :: cs)

/-- Does the text after the digits continue a JSON number (fraction or exponent)?  Such a
number is not an integer literal and `Unmarshal` refuses it for an `int` field. -/
def continuesNumber : List Char → Bool
  | [] => false
  | c :: _ => c = Char.ofNat 46 || c = Char.ofNat 101 || c = Char.ofNat 69

/-- A non-empty run of digits that is not followed by a fraction or exponent. -/
def parseNat : List Char → Option (Nat × List Char)
  | [] => none
  | c :: cs =>
    if isDigit c then
      let r := parseDigits (c.toNat - 48) cs
      if continuesNumber r.2 then none else some r
    else none

/-- An integer literal. -/
def parseInt : List Char → Option (Int × List Char)
  | [] => none
  | c :: cs =>
    if c = cMinus then (parseNat cs).map (fun r => (-(r.1 : Int), r.2))
    else (parseNat (c :: cs)).map (fun r => ((r.1 : Int), r.2))

/-- Lower-case hexadecimal digit of `d < 16`. -/
def hexDigit (d : Nat) : Char := if d < 10 then Char.ofNat (48 + d) else Char.ofNat (87 + d)

/-- Value of a hexadecimal digit (either case). -/
def hexVal (c : Char) : Option Nat :=
  if 48 ≤ c.toNat ∧ c.toNat ≤ 57 then some (c.toNat - 48)
  else if 97 ≤ c.toNat ∧ c.toNat ≤ 102 then some (c.toNat - 87)
  else if 65 ≤ c.toNat ∧ c.toNat ≤ 70 then some (c.toNat - 55)
  else none

/-- Must `encoding/json` write `c` as `\u00XX`?  Control characters (other than line feed,
carriage return and tab, which have two-character escapes), the HTML characters `<`, `>`,
`&`, and the separators U+2028 and U+2029. -/
def needsUnicodeEscape (c : Char) : Bool :=
  c.toNat < 32 || c = Char.ofNat 60 || c = Char.ofNat 62 || c = Char.ofNat 38 ||
    c = Char.ofNat 8232 || c = Char.ofNat 8233

/-- How `encoding/json` writes one character inside a string literal. -/
def escapeChar (c : Char) : List Char :=
  if c = cQuote then [cBackslash, cQuote]
  else if c = cBackslash then [cBackslash, cBackslash]
  else if c = cLF then [cBackslash, Char.ofNat 110]
  else if c = cCR then [cBackslash, Char.ofNat 114]
  else if c = cTab then [cBackslash, Char.ofNat 116]
  else if needsUnicodeEscape c then
    [cBackslash, Char.ofNat 117, hexDigit (c.toNat / 4096), hexDigit (c.toNat / 256 % 16),
      hexDigit (c.toNat / 16 % 16), hexDigit (c.toNat % 16)]
  else [c]

/-- The escaped content of a string literal. -/
def escape (s : String) : List Char := s.data.flatMap escapeChar

/-- A string literal: the escaped content between quotes. -/
def quote (s : String) : List Char := cQuote :: (escape s ++ [cQuote])

/-- How `encoding/json` writes the bytes of a Go string inside a string literal: it decodes
rune by rune, writes a valid rune as `escapeChar` does and writes `\ufffd` for every byte
that starts no valid encoding.  `fuel` bounds the number of steps. -/
def escapeGoFuel : Nat → List UInt8 → List Char
  | 0, _ => []
  | _, [] => []
  | fuel + 1, b :: rest =>
    match utf8.decodeChar (b :: rest) with
    | some (c, rest') => escapeChar c ++ escapeGoFuel fuel rest'
    | none =>
      [cBackslash, Char.ofNat 117, Char.ofNat 102, Char.ofNat 102, Char.ofNat 102,
        Char.ofNat 100] ++ escapeGoFuel fuel rest

/-- The escaped content of the string literal of a Go string. -/
def escapeGo (s : GoString) : List Char := escapeGoFuel s.length s

/-- The string literal of a Go string. -/
def quoteGo (s : GoString) : List Char := cQuote :: (escapeGo s ++ [cQuote])

/-- The character denoted by the two-character escape `\e`. -/
def unescape (e : Char) : Option Char :=
  if e = cQuote then some cQuote
  else if e = cBackslash then some cBackslash
  else if e = Char.ofNat 47 then some (Char.ofNat 47)
  else if e = Char.ofNat 98 then some (Char.ofNat 8)
  else if e = Char.ofNat 102 then some (Char.ofNat 12)
  else if e = Char.ofNat 110 then some cLF
  else if e = Char.ofNat 114 then some cCR
  else if e = Char.ofNat 116 then some cTab
  else none

/-- The character denoted by `\uXXXX` with value `v`; a surrogate code unit gives U+FFFD. -/
def unicodeChar (v : Nat) : Char :=
  if 55296 ≤ v ∧ v < 57344 then utf8.replacement else Char.ofNat v

/-- The content of a string literal after the opening quote, up to the closing quote. -/
def parseStrBody : List Char → List Char → Option (List Char × List Char)
  | _, [] => none
  | acc, c :: cs =>
    if c = cQuote then some (acc.reverse, cs)
    else if c = cBackslash then
      match cs with
      | [] => none
      | e :: cs1 =>
        if e = Char.ofNat 117 then
          match cs1 with
          | h1 :: h2 :: h3 :: h4 :: cs2 =>
            match hexVal h1, hexVal h2, hexVal h3, hexVal h4 with
            | some a, some b, some c, some d =>
              parseStrBody (unicodeChar (a * 4096 + b * 256 + c * 16 + d) :: acc) cs2
            | _, _, _, _ => none
          | _ => none
        else
          match unescape e with
          | some x => parseStrBody (x :: acc) cs1
          | none => none
    else if c.toNat < 32 then none
    else parseStrBody (c :: acc) cs

/-- A string literal. -/
def parseString : List Char → Option (String × List Char)
  | [] => none
  | c :: cs =>
    if c = cQuote then (parseStrBody [] cs).map (fun r => (String.mk r.1, r.2)) else none

/-- May `rest` follow an integer literal: it starts neither with a digit nor with a
fraction or exponent. -/
def endsNumber : List Char → Bool
  | [] => true
  | c :: cs => !isDigit c && !continuesNumber (c :: cs)

/-- A JSON scalar; numbers are integer literals. -/
inductive Scalar where
  | null
  | bool (b : Bool)
  | num (n : Int)
  | str (s : String)
deriving DecidableEq, Repr

/-- A JSON object whose values are scalars. -/
abbrev Obj := List (String × Scalar)

/-- A value of a top-level member: a scalar or an array of flat objects. -/
inductive Val where
  | scalar (s : Scalar)
  | arr (xs : List Obj)
deriving DecidableEq, Repr

/-- A JSON document: an object whose values are scalars or arrays of flat objects.  These
are the shapes of the multicast message and of the discovery file. -/
abbrev Doc := List (String × Val)

/-- The literal `null`. -/
def litNull : List Char := [Char.ofNat 110, Char.ofNat 117, Char.ofNat 108, Char.ofNat 108]
/-- The literal `true`. -/
def litTrue : List Char := [Char.ofNat 116, Char.ofNat 114, Char.ofNat 117, Char.ofNat 101]
/-- The literal `false`. -/
def litFalse : List Char :=
  [Char.ofNat 102, Char.ofNat 97, Char.ofNat 108, Char.ofNat 115, Char.ofNat 101]

/-- Text of a scalar. -/
def renderScalar : Scalar → List Char
  | Scalar.null => litNull
  | Scalar.bool true => litTrue
  | Scalar.bool false => litFalse
  | Scalar.num n => renderInt n
  | Scalar.str s => quote s

/-- The value of a struct field handed to `Marshal`: an `int` or a Go string. -/
inductive GoScalar where
  | num (n : Int)
  | str (s : GoString)
deriving DecidableEq, Repr

/-- The text of a field value of a struct in memory. -/
def renderGoScalar : GoScalar → List Char
  | GoScalar.num n => renderInt n
  | GoScalar.str s => quoteGo s

/-- Members `"key":<colon>value` separated by `,<sep>`; `colon` and `sep` are the
whitespace that the chosen layout puts after the colon and after the comma. -/
def renderMembers {α : Type} (colon sep : List Char) (rv : α → List Char) :
    List (String × α) → List Char
  | [] => []
  | [kv] => quote kv.1 ++ cColon :: (colon ++ rv kv.2)
  | kv :: kv' :: rest =>
    quote kv.1 ++ cColon :: (colon ++ rv kv.2) ++
      cComma :: (sep ++ renderMembers colon sep rv (kv' :: rest))

/-- An object; `opn` and `cls` are the whitespace after `{` and before `}`.  The empty
object is `{}`. -/
def renderObject {α : Type} (opn cls colon sep : List Char) (rv : α → List Char)
    (ms : List (String × α)) : List Char :=
  match ms with
  | [] => [cLBrace, cRBrace]
  | _ :: _ => cLBrace :: (opn ++ renderMembers colon sep rv ms ++ cls ++ [cRBrace])

/-- Array elements separated by `,<sep>`. -/
def renderElems {β : Type} (sep : List Char) (re : β → List Char) : List β → List Char
  | [] => []
  | [x] => re x
  | x :: x' :: rest => re x ++ cComma :: (sep ++ renderElems sep re (x' :: rest))

/-- An array; the empty array is `[]`. -/
def renderArray {β : Type} (opn cls sep : List Char) (re : β → List Char) (xs : List β) :
    List Char :=
  match xs with
  | [] => [cLBracket, cRBracket]
  | _ :: _ => cLBracket :: (opn ++ renderElems sep re xs ++ cls ++ [cRBracket])

/-- `json.Marshal` layout of a flat object: no whitespace. -/
def renderCompact (o : Obj) : List Char := renderObject [] [] [] [] renderScalar o

/-- Line feed followed by `2 * depth` spaces: the line break of `SetIndent("", "  ")`. -/
def newline (depth : Nat) : List Char := cLF :: List.replicate (2 * depth) cSpace

/-- A flat object at nesting depth `depth` in the indented layout. -/
def renderObjIndent (depth : Nat) (o : Obj) : List Char :=
  renderObject (newline (depth + 1)) (newline depth) [cSpace] (newline (depth + 1))
    renderScalar o

/-- A member value at nesting depth `depth` in the indented layout. -/
def renderValIndent (depth : Nat) : Val → List Char
  | Val.scalar s => renderScalar s
  | Val.arr xs =>
    renderArray (newline (depth + 1)) (newline depth) (newline (depth + 1))
      (renderObjIndent (depth + 1)) xs

/-- `Encoder.SetIndent("", "  ")` layout of a document (without the final line feed). -/
def renderIndent (d : Doc) : List Char :=
  renderObject (newline 1) (newline 0) [cSpace] (newline 1) (renderValIndent 1) d

/-- Remove the literal `lit` from the head of the text. -/
def stripLit : List Char → List Char → Option (List Char)
  | [], cs => some cs
  | _ :: _, [] => none
  | l :: ls, c :: cs => if l = c then stripLit ls cs else none

/-- A scalar: a string literal, `null`, `true`, `false` or an integer literal. -/
def parseScalar (cs : List Char) : Option (Scalar × List Char) :=
  match cs with
  | [] => none
  | c :: _ =>
    if c = cQuote then (parseString cs).map (fun r => (Scalar.str r.1, r.2))
    else if c = Char.ofNat 110 then (stripLit litNull cs).map (fun r => (Scalar.null, r))
    else if c = Char.ofNat 116 then (stripLit litTrue cs).map (fun r => (Scalar.bool true, r))
    else if c = Char.ofNat 102 then
      (stripLit litFalse cs).map (fun r => (Scalar.bool false, r))
    else (parseInt cs).map (fun r => (Scalar.num r.1, r.2))

/-- The members of an object after `{` and whitespace, up to and including `}`.  `fuel`
bounds the number of members. -/
def parseMembers {α : Type} (pv : List Char → Option (α × List Char)) :
    Nat → List Char → Option (List (String × α) × List Char)
  | 0, _ => none
  | fuel + 1, cs =>
    match parseString cs with
    | none => none
    | some (k, r1) =>
      match skipWs r1 with
      | [] => none
      | c :: r2 =>
        if c = cColon then
          match pv (skipWs r2) with
          | none => none
          | some (v, r3) =>
            match skipWs r3 with
            | [] => none
            | c' :: r4 =>
              if c' = cComma then
                (parseMembers pv fuel (skipWs r4)).map (fun r => ((k, v) :: r.1, r.2))
              else if c' = cRBrace then some ([(k, v)], r4)
              else none
        else none

/-- An object. -/
def parseObject {α : Type} (pv : List Char → Option (α × List Char)) (fuel : Nat)
    (cs : List Char) : Option (List (String × α) × List Char) :=
  match cs with
  | [] => none
  | c :: r =>
    if c = cLBrace then
      match skipWs r with
      | [] => none
      | c' :: r' => if c' = cRBrace then some ([], r') else parseMembers pv fuel (c' :: r')
    else none

/-- The elements of an array after `[` and whitespace, up to and including `]`. -/
def parseElems {β : Type} (pe : List Char → Option (β × List Char)) :
    Nat → List Char → Option (List β × List Char)
  | 0, _ => none
  | fuel + 1, cs =>
    match pe cs with
    | none => none
    | some (x, r1) =>
      match skipWs r1 with
      | [] => none
      | c :: r2 =>
        if c = cComma then (parseElems pe fuel (skipWs r2)).map (fun r => (x :: r.1, r.2))
        else if c = cRBracket then some ([x], r2)
        else none

/-- An array. -/
def parseArray {β : Type} (pe : List Char → Option (β × List Char)) (fuel : Nat)
    (cs : List Char) : Option (List β × List Char) :=
  match cs with
  | [] => none
  | c :: r =>
    if c = cLBracket then
      match skipWs r with
      | [] => none
      | c' :: r' => if c' = cRBracket then some ([], r') else parseElems pe fuel (c' :: r')
    else none

/-- A member value: an array of flat objects when the text starts with `[`, else a
scalar. -/
def parseVal (fuel : Nat) (cs : List Char) : Option (Val × List Char) :=
  match cs with
  | [] => none
  | c :: _ =>
    if c = cLBracket then
      (parseArray (parseObject parseScalar fuel) fuel cs).map (fun r => (Val.arr r.1, r.2))
    else (parseScalar cs).map (fun r => (Val.scalar r.1, r.2))

/-- A whole text as a document: whitespace, one object, whitespace.  The top-level literal
`null` reads as the empty document (`Unmarshal` leaves the target untouched). -/
def parseDoc (text : List Char) : Option Doc :=
  let cs := skipWs text
  match stripLit litNull cs with
  | some rest => if skipWs rest = [] then some [] else none
  | none =>
    match parseObject (parseVal cs.length) cs.length cs with
    | none => none
    | some (d, rest) => if skipWs rest = [] then some d else none

/-- Every character of the text is whitespace. -/
def Ws (l : List Char) : Prop := ∀ c ∈ l, isWs c = true

/-- The text is not empty and does not start with whitespace. -/
def HeadNonWs (l : List Char) : Prop := ∃ c t, l = c :: t ∧ isWs c = false

/-- The fuel `fuel` suffices for the value `v`. -/
def Val.fits (fuel : Nat) : Val → Prop
  | Val.scalar _ => True
  | Val.arr xs => xs.length ≤ fuel ∧ ∀ o ∈ xs, o.length ≤ fuel

/-- The document of a flat object: every member is a scalar. -/
def Obj.toDoc (o : Obj) : Doc := o.map (fun kv => (kv.1, Val.scalar kv.2))

end json

/-! ## JSON on the structs, files -/

namespace json

/-- Does `n` fit a Go `int` (64 bits)? -/
def isInt64 (n : Int) : Bool := -9223372036854775808 ≤ n && n ≤ 9223372036854775807

/-- ASCII lower case of a character. -/
def lowerChar (c : Char) : Char :=
  if 65 ≤ c.toNat ∧ c.toNat ≤ 90 then Char.ofNat (c.toNat + 32) else c

/-- Does the member key `k` select the struct field tagged `name`?  `Unmarshal` matches
keys without regard to (ASCII) case. -/
def keyIs (k name : String) : Bool := k.data.map lowerChar = name.data

/-- `Unmarshal` of a value into a `string` field holding `old`: a string is stored, `null`
leaves the field, anything else is an error. -/
def intoString (old : String) : Scalar → Option String
  | Scalar.str s => some s
  | Scalar.null => some old
  | _ => none

/-- `Unmarshal` of a value into an `int` field holding `old`. -/
def intoInt (old : Int) : Scalar → Option Int
  | Scalar.num n => if isInt64 n then some n else none
  | Scalar.null => some old
  | _ => none

/-- The scalar of a member value; an array where a scalar field is expected is an
error. -/
def Val.asScalar : Val → Option Scalar
  | Val.scalar s => some s
  | Val.arr _ => none

end json

namespace time

/-- The RFC 3339 text of time values, as `Time.MarshalJSON` writes it and
`Time.UnmarshalJSON` accepts it: `format t` is the text of the wall-clock reading of `t`,
`parses s` tells whether `s` is accepted, and every text written is accepted. -/
structure Layout where
  format : Time → String
  parses : String → Bool
  format_parses : ∀ t, parses (format t) = true

end time

namespace types

/-- `types.DiscoveryData` (`discovery/pkg/types/peer.go`).  `Peers` is a Go slice: `none`
is the nil slice. -/
structure DiscoveryData where
  Version : Int
  LastUpdate : time.Time
  Peers : Option (List Peer)

/-- The JSON object of a `MulticastMessage`, by its struct tags. -/
def MulticastMessage.toJson (m : MulticastMessage) : json.Obj :=
  [("type", json.Scalar.str m.Type_), ("version", json.Scalar.num m.Version),
   ("stack_id", json.Scalar.str m.StackID), ("host_ip", json.Scalar.str m.HostIP),
   ("vni", json.Scalar.num m.VNI), ("timestamp", json.Scalar.num m.Timestamp)]

/-- The JSON object of a message in memory, by its struct tags. -/
def RawMessage.toJson (m : RawMessage) : List (String × json.GoScalar) :=
  [("type", json.GoScalar.str m.Type_), ("version", json.GoScalar.num m.Version),
   ("stack_id", json.GoScalar.str m.StackID), ("host_ip", json.GoScalar.str m.HostIP),
   ("vni", json.GoScalar.num m.VNI), ("timestamp", json.GoScalar.num m.Timestamp)]

/-- `Unmarshal` of one member into a `MulticastMessage`; unknown keys are skipped. -/
def MulticastMessage.setField (m : MulticastMessage) (kv : String × json.Val) :
    Option MulticastMessage :=
  if json.keyIs kv.1 "type" then
    (kv.2.asScalar.bind (json.intoString m.Type_)).map (fun s => { m with Type_ := s })
  else if json.keyIs kv.1 "version" then
    (kv.2.asScalar.bind (json.intoInt m.Version)).map (fun n => { m with Version := n })
  else if json.keyIs kv.1 "stack_id" then
    (kv.2.asScalar.bind (json.intoString m.StackID)).map (fun s => { m with StackID := s })
  else if json.keyIs kv.1 "host_ip" then
    (kv.2.asScalar.bind (json.intoString m.HostIP)).map (fun s => { m with HostIP := s })
  else if json.keyIs kv.1 "vni" then
    (kv.2.asScalar.bind (json.intoInt m.VNI)).map (fun n => { m with VNI := n })
  else if json.keyIs kv.1 "timestamp" then
    (kv.2.asScalar.bind (json.intoInt m.Timestamp)).map (fun n => { m with Timestamp := n })
  else some m

/-- `Unmarshal` of a document into a zero `MulticastMessage`. -/
def MulticastMessage.fromJson (d : json.Doc) : Option MulticastMessage :=
  d.foldlM MulticastMessage.setField
    { Type_ := "", Version := 0, StackID := "", HostIP := "", VNI := 0, Timestamp := 0 }

/-- The JSON object of a `Peer`, by its struct tags. -/
def Peer.toJson (layout : time.Layout) (p : Peer) : json.Obj :=
  [("stack_id", json.Scalar.str p.StackID), ("host_ip", json.Scalar.str p.HostIP),
   ("vxlan_endpoint", json.Scalar.str p.VXLANEndpoint), ("vni", json.Scalar.num p.VNI),
   ("last_seen", json.Scalar.str (layout.format p.LastSeen)),
   ("status", json.Scalar.str p.Status)]

/-- The JSON document of a `DiscoveryData`; a nil `Peers` slice is written as `null`. -/
def DiscoveryData.toJson (layout : time.Layout) (data : DiscoveryData) : json.Doc :=
  [("version", json.Val.scalar (json.Scalar.num data.Version)),
   ("last_update", json.Val.scalar (json.Scalar.str (layout.format data.LastUpdate))),
   ("peers", match data.Peers with
      | none => json.Val.scalar json.Scalar.null
      | some peers => json.Val.arr (peers.map (Peer.toJson layout)))]

end types

namespace multicast

/-- `json.Marshal` of a message in memory: the compact text of the object, in UTF-8; every
invalid byte of a string field is written as `\ufffd`. -/
def goMarshal (m : types.RawMessage) : List UInt8 :=
  utf8.encode (json.renderObject [] [] [] [] json.renderGoScalar m.toJson)

/-- `encoding/json` on `types.MulticastMessage`: `Marshal` is `goMarshal` (it cannot fail on
this struct); `Unmarshal` reads a document and stores its members into a zero message. -/
def goJson : Json :=
  { Marshal := fun m => some (goMarshal m),
    Unmarshal := fun data =>
      (json.parseDoc (utf8.decode data)).bind types.MulticastMessage.fromJson }

/-- `MaxMessageSize`. -/
def MaxMessageSize : Nat := 1024

/-- The address of the multicast group, `d.group`. -/
def Discovery.group (d : Discovery) : UDPAddr := { IP := d.multicastGroup, Port := d.port }

/-- `Discovery.sendAnnouncement`; `unix` is the value of `time.Now().Unix()`. -/
def Discovery.sendAnnouncement (json : Json) (unix : Int) (d : Discovery) : List Effect :=
  let message : types.RawMessage :=
    { Type_ := GoString.ofText types.MessageTypeAnnounce, Version := 1,
      StackID := d.stackID, HostIP := GoString.ofText d.hostIP, VNI := d.vni,
      Timestamp := unix }
  match json.Marshal message with
  | none => []
  | some data => [Effect.WriteToUDP data d.group]

/-- `Discovery.Start`.  `detect` is the outcome of `detectHostIP` (`none`: error), `setup`
that of `setupMulticast` (`false`: error).  On success `Start` launches `announceLoop`,
`listenLoop` and `cleanupLoop` as goroutines and returns `nil`; it sends nothing and writes
no file itself. -/
def Discovery.Start (detect : Option String) (setup : Bool) (d : Discovery) :
    Discovery × GoError :=
  match detect with
  | none => (d, some "failed to detect host IP")
  | some hostIP =>
    let d := { d with hostIP := hostIP }
    if setup then (d, none) else (d, some "failed to setup multicast")

/-- One iteration of `listenLoop` that read a datagram sent as `datagram`: `ReadFromUDP`
fills the buffer of `MaxMessageSize` bytes, the rest of a longer datagram is lost, and
`handleMessage` gets `buffer[:n]`. -/
def Discovery.receive (json : Json) (now : time.Time) (unix : Int) (d : Discovery)
    (datagram : List UInt8) (addr : UDPAddr) : Discovery × List Effect :=
  d.handleMessage json now unix (datagram.take MaxMessageSize) addr

/-- Is the effect a call of `WriteDiscoveryFile`? -/
def Effect.isPublish : Effect → Bool
  | Effect.WriteDiscoveryFile _ => true
  | Effect.WriteToUDP _ _ => false

end multicast

namespace os

/-- The files of the data directory: path to content. -/
abbrev FileSystem := String → Option (List UInt8)

/-- The file system with the content of `path` replaced. -/
def FileSystem.set (disk : FileSystem) (path : String) (content : Option (List UInt8)) :
    FileSystem :=
  fun p => if p = path then content else disk p

/-- The operations on files made by `WriteDiscoveryFile`. -/
inductive FileOp where
  /-- `os.Create(path)`. -/
  | Create (path : String)
  /-- `file.Write(data)` on the file created at `path`. -/
  | Write (path : String) (data : List UInt8)
  /-- `os.Rename(src, dst)`. -/
  | Rename (src dst : String)
deriving DecidableEq, Repr

/-- The files after a file operation that succeeded.  `os.Create` creates the file or
truncates the one that exists; the write hands the whole text to the file just created at
the path; `os.Rename` moves the content and removes the source path. -/
def FileOp.run (disk : FileSystem) : FileOp → FileSystem
  | FileOp.Create path => disk.set path (some [])
  | FileOp.Write path data => disk.set path (some data)
  | FileOp.Rename src dst => (disk.set dst (disk src)).set src none

/-- Does the operation succeed on `disk` when nothing else fails?  `os.Rename` needs its
source path to exist. -/
def FileOp.succeeds (disk : FileSystem) : FileOp → Bool
  | FileOp.Rename src _ => (disk src).isSome
  | _ => true

/-- The outcomes of a sequence of file operations made in this order on `disk`; an
operation that fails leaves the files as they are. -/
def FileOp.runAll (disk : FileSystem) : List FileOp → List Bool
  | [] => []
  | op :: rest =>
    if op.succeeds disk then true :: FileOp.runAll (op.run disk) rest
    else false :: FileOp.runAll disk rest

/-- The outcomes of the file operations of one call: does `os.Create` fail, does the write
fail (after how many bytes), does `os.Rename` fail. -/
structure Faults where
  create : Bool
  write : Option Nat
  rename : Bool

/-- No operation fails. -/
def Faults.none : Faults := { create := false, write := Option.none, rename := false }

end os

namespace filepath

/-- `filepath.Join(dir, name)` for a clean directory path and a file name. -/
def Join (dir name : String) : String := dir ++ "/" ++ name

end filepath

namespace storage

/-- `DiscoveryFile`. -/
def DiscoveryFile : String := "discovery.json"

/-- The path of the published file, `filepath.Join(fs.dataDir, DiscoveryFile)`. -/
def FileStorage.discoveryFile (fs : FileStorage) : String :=
  filepath.Join fs.dataDir DiscoveryFile

/-- The path of the temporary file, `filepath.Join(fs.dataDir, DiscoveryFile+".tmp")`. -/
def FileStorage.tempFile (fs : FileStorage) : String :=
  filepath.Join fs.dataDir (DiscoveryFile ++ ".tmp")

/-- The `DiscoveryData` built by `WriteDiscoveryFile` (lines 84-94): the peers in `range`
order; the slice stays nil when the table is empty. -/
def FileStorage.snapshot (o : RangeOrder) (now : time.Time) (fs : FileStorage) :
    types.DiscoveryData :=
  let peers := (GoMap.range o fs.peers).map Prod.snd
  { Version := 1, LastUpdate := now, Peers := if peers = [] then none else some peers }

/-- What `encoder.Encode(data)` writes with `SetIndent("", "  ")`: the indented document
and a line feed, in UTF-8. -/
def encodeDiscoveryData (layout : time.Layout) (data : types.DiscoveryData) : List UInt8 :=
  utf8.encode (json.renderIndent (data.toJson layout) ++ [json.cLF])

/-- The file operations of a call of `WriteDiscoveryFile` on which nothing fails, in
order.  The call holds `fs.mutex.RLock()` only, which a second call can hold at the same
time (`listenLoop` and `cleanupLoop` both call the function), so the operations of two
calls can interleave in any way that keeps the order of each call. -/
def FileStorage.writeOps (layout : time.Layout) (o : RangeOrder) (now : time.Time)
    (fs : FileStorage) : List os.FileOp :=
  [os.FileOp.Create fs.tempFile,
   os.FileOp.Write fs.tempFile (encodeDiscoveryData layout (fs.snapshot o now)),
   os.FileOp.Rename fs.tempFile fs.discoveryFile]

/-- `FileStorage.WriteDiscoveryFile` when no other call runs between its file operations.
Returns the file system after the call, the file operations made (each with its outcome and
the file system right after it) and the returned `error`.  `Encode` builds the whole text in
memory and hands it to the file in one `Write`.  For two calls running at the same time see
`writeOps` and `os.FileOp.run`. -/
def FileStorage.WriteDiscoveryFile (layout : time.Layout) (faults : os.Faults)
    (o : RangeOrder) (now : time.Time) (fs : FileStorage) (disk : os.FileSystem) :
    (os.FileSystem × List (os.FileOp × Bool × os.FileSystem)) × GoError :=
  let data := fs.snapshot o now
  let tempFile := fs.tempFile
  if faults.create then
    ((disk, [(os.FileOp.Create tempFile, false, disk)]), some "failed to create temp file")
  else
    let disk₁ := disk.set tempFile (some [])
    let bytes := encodeDiscoveryData layout data
    match faults.write with
    | some n =>
      let disk₂ := disk₁.set tempFile (some (bytes.take n))
      ((disk₂, [(os.FileOp.Create tempFile, true, disk₁),
        (os.FileOp.Write tempFile bytes, false, disk₂)]), some "failed to encode data")
    | none =>
      let disk₂ := disk₁.set tempFile (some bytes)
      let discoveryFile := fs.discoveryFile
      if faults.rename then
        ((disk₂, [(os.FileOp.Create tempFile, true, disk₁),
          (os.FileOp.Write tempFile bytes, true, disk₂),
          (os.FileOp.Rename tempFile discoveryFile, false, disk₂)]),
          some "failed to move temp file")
      else
        let disk₃ := (disk₂.set discoveryFile (disk₂ tempFile)).set tempFile none
        ((disk₃, [(os.FileOp.Create tempFile, true, disk₁),
          (os.FileOp.Write tempFile bytes, true, disk₂),
          (os.FileOp.Rename tempFile discoveryFile, true, disk₃)]), none)

end storage

namespace discovery

/-- Router-side `discovery.DiscoveryData` (`router/pkg/discovery/watcher.go`). -/
structure DiscoveryData where
  Version : Int
  LastUpdate : String
  Peers : List Peer
deriving DecidableEq, Repr

/-- `Unmarshal` of a value into a `time.Time` field whose text is `old`: a string must be
an RFC 3339 time. -/
def intoTime (layout : time.Layout) (old : String) : json.Scalar → Option String
  | json.Scalar.str s => if layout.parses s then some s else none
  | json.Scalar.null => some old
  | _ => none

/-- `Unmarshal` of one member into a `Peer`. -/
def Peer.setField (layout : time.Layout) (p : Peer) (kv : String × json.Scalar) :
    Option Peer :=
  if json.keyIs kv.1 "stack_id" then
    (json.intoString p.StackID kv.2).map (fun s => { p with StackID := s })
  else if json.keyIs kv.1 "host_ip" then
    (json.intoString p.HostIP kv.2).map (fun s => { p with HostIP := s })
  else if json.keyIs kv.1 "vxlan_endpoint" then
    (json.intoString p.VXLANEndpoint kv.2).map (fun s => { p with VXLANEndpoint := s })
  else if json.keyIs kv.1 "vni" then
    (json.intoInt p.VNI kv.2).map (fun n => { p with VNI := n })
  else if json.keyIs kv.1 "last_seen" then
    (intoTime layout p.LastSeen kv.2).map (fun s => { p with LastSeen := s })
  else if json.keyIs kv.1 "status" then
    (json.intoString p.Status kv.2).map (fun s => { p with Status := s })
  else some p

/-- `Unmarshal` of an object into a zero `Peer`. -/
def Peer.fromJson (layout : time.Layout) (o : json.Obj) : Option Peer :=
  o.foldlM (Peer.setField layout)
    { StackID := "", HostIP := "", VXLANEndpoint := "", VNI := 0, LastSeen := "",
      Status := "" }

/-- `Unmarshal` of one member into a `DiscoveryData`; `null` leaves the `Peers` slice. -/
def DiscoveryData.setField (layout : time.Layout) (data : DiscoveryData)
    (kv : String × json.Val) : Option DiscoveryData :=
  if json.keyIs kv.1 "version" then
    (kv.2.asScalar.bind (json.intoInt data.Version)).map (fun n => { data with Version := n })
  else if json.keyIs kv.1 "last_update" then
    (kv.2.asScalar.bind (json.intoString data.LastUpdate)).map
      (fun s => { data with LastUpdate := s })
  else if json.keyIs kv.1 "peers" then
    match kv.2 with
    | json.Val.arr xs => (xs.mapM (Peer.fromJson layout)).map (fun ps => { data with Peers := ps })
    | json.Val.scalar json.Scalar.null => some data
    | json.Val.scalar _ => none
  else some data

/-- `Unmarshal` of a document into a zero `DiscoveryData`. -/
def DiscoveryData.fromJson (layout : time.Layout) (d : json.Doc) : Option DiscoveryData :=
  d.foldlM (DiscoveryData.setField layout) { Version := 0, LastUpdate := "", Peers := [] }

/-- The loop of `Watcher.loadDiscoveryData` and of `LoadDiscoveryData` (lines 126-131 and
149-154): `activePeers` starts as the nil slice and each peer whose status is `active` is
appended to it. -/
def activePeers (peers : List Peer) : List Peer :=
  peers.foldl (fun activePeers peer =>
    if peer.Status = "active" then activePeers ++ [peer] else activePeers) []

/-- `LoadDiscoveryData`: read the file, parse it, keep the peers whose status is
`active`. -/
def LoadDiscoveryData (layout : time.Layout) (disk : os.FileSystem) (discoveryFile : String) :
    List Peer × GoError :=
  match disk discoveryFile with
  | none => ([], some "failed to read discovery file")
  | some data =>
    match (json.parseDoc (utf8.decode data)).bind (DiscoveryData.fromJson layout) with
    | none => ([], some "failed to parse discovery file")
    | some discoveryData => (activePeers discoveryData.Peers, none)

/-- `discovery.Watcher` (the fsnotify watcher and the callback left out). -/
structure Watcher where
  discoveryFile : String

/-- `Watcher.loadDiscoveryData`. -/
def Watcher.loadDiscoveryData (layout : time.Layout) (disk : os.FileSystem) (w : Watcher) :
    List Peer × GoError :=
  match disk w.discoveryFile with
  | none => ([], some "failed to read discovery file")
  | some data =>
    match (json.parseDoc (utf8.decode data)).bind (DiscoveryData.fromJson layout) with
    | none => ([], some "failed to parse discovery file")
    | some discoveryData => (activePeers discoveryData.Peers, none)

/-- The router-side `Peer` that the JSON object of a discovery-side peer is read as: the
same fields, `last_seen` kept as its text. -/
def Peer.ofTypes (layout : time.Layout) (p : types.Peer) : Peer :=
  { StackID := p.StackID, HostIP := p.HostIP, VXLANEndpoint := p.VXLANEndpoint, VNI := p.VNI,
    LastSeen := layout.format p.LastSeen, Status := p.Status }

end discovery

/-! ## Text processing, VXLAN interface -/

/-- What `cmd.Output()` captures from standard output, given the commands already issued in
this call and the argv of the command. -/
abbrev Stdout := Log → Cmd → String

namespace unicode

/-- `unicode.IsSpace`: the characters with the Unicode White_Space property. -/
def IsSpace (c : Char) : Bool :=
  (9 ≤ c.toNat && c.toNat ≤ 13) || c.toNat = 32 || c.toNat = 133 || c.toNat = 160 ||
    c.toNat = 5760 || (8192 ≤ c.toNat && c.toNat ≤ 8202) || c.toNat = 8232 ||
    c.toNat = 8233 || c.toNat = 8239 || c.toNat = 8287 || c.toNat = 12288

end unicode

namespace strings

/-- `strings.Contains(s, substr)`: does `substr` occur in `s`? -/
def Contains (s substr : String) : Bool := decide (substr.data <:+: s.data)

/-- `strings.Split(s, sep)` for a separator of one character, on the characters of `s`: the
pieces between the separators; the empty text gives one empty piece. -/
def splitChars (sep : Char) : List Char → List (List Char)
  | [] => [[]]
  | c :: cs =>
    if c = sep then [] :: splitChars sep cs
    else
      match splitChars sep cs with
      | [] => [[c]]
      | piece :: pieces => (c :: piece) :: pieces

/-- `strings.Split(s, sep)` for a separator of one character. -/
def Split (s : String) (sep : Char) : List String := (splitChars sep s.data).map String.mk

/-- `strings.Fields` on the characters of the text: `field` holds the characters of the
field being read. -/
def fieldsChars : List Char → List Char → List (List Char)
  | field, [] => if field = [] then [] else [field]
  | field, c :: cs =>
    if unicode.IsSpace c then
      if field = [] then fieldsChars [] cs else field :: fieldsChars [] cs
    else fieldsChars (field ++ [c]) cs

/-- `strings.Fields(s)`: the maximal runs of non-space characters of `s`. -/
def Fields (s : String) : List String := (fieldsChars [] s.data).map String.mk

end strings

namespace strconv

/-- `strconv.Itoa`. -/
def Itoa (i : Int) : String := toString i

end strconv

namespace vxlan

/-- Router-side `vxlan.Manager` (`router/pkg/vxlan/interface.go`). -/
structure Manager where
  interfaceName : String
  vni : Int
  localIP : String
  underlyingDev : String
  hostIP : String

/-- `NewManager`. -/
def NewManager (interfaceName : String) (vni : Int) (localIP underlyingDev hostIP : String) :
    Manager :=
  { interfaceName := interfaceName, vni := vni, localIP := localIP,
    underlyingDev := underlyingDev, hostIP := hostIP }

/-- `NewManager` of `discovery/pkg/vxlan/manager.go`: the interface is named after the VNI
and there is no underlying device.  `InterfaceExists` and `CreateInterface` of that file
have the bodies of the router-side functions. -/
def NewDiscoveryManager (vni : Int) (localIP hostIP : String) : Manager :=
  { interfaceName := "vxlan" ++ toString vni, vni := vni, localIP := localIP,
    underlyingDev := "", hostIP := hostIP }

/-- The argv of `InterfaceExists`. -/
def Manager.showCmd (m : Manager) : Cmd := ["ip", "link", "show", m.interfaceName]

/-- The argv of the address check of `CreateInterface` (line 43). -/
def Manager.checkCmd (m : Manager) : Cmd := ["ip", "addr", "show", "dev", m.interfaceName]

/-- The argv of the address assignment (lines 47 and 74). -/
def Manager.addrAddCmd (m : Manager) : Cmd :=
  ["ip", "addr", "add", m.localIP ++ "/24", "dev", m.interfaceName]

/-- The argv that brings the interface up (lines 54 and 80). -/
def Manager.linkUpCmd (m : Manager) : Cmd := ["ip", "link", "set", m.interfaceName, "up"]

/-- The argv that creates the interface (lines 64-68). -/
def Manager.linkAddCmd (m : Manager) : Cmd :=
  ["ip", "link", "add", m.interfaceName, "type", "vxlan", "id", strconv.Itoa m.vni,
   "dstport", "4789", "local", m.hostIP]

/-- `Manager.InterfaceExists`, as the first command of a call. -/
def Manager.InterfaceExists (k : Kernel) (m : Manager) : Bool := k [] m.showCmd

/-- `Manager.CreateInterface`.  Returns the commands issued, each with its outcome, and the
returned `error`. -/
def Manager.CreateInterface (k : Kernel) (out : Stdout) (m : Manager) : Log × GoError :=
  let isThere := m.InterfaceExists k
  let log₀ : Log := [(m.showCmd, isThere)]
  if isThere then
    let output := out log₀ m.checkCmd
    let log₁ := log₀ ++ [(m.checkCmd, k log₀ m.checkCmd)]
    let log₂ :=
      if !strings.Contains output m.localIP then log₁ ++ [(m.addrAddCmd, k log₁ m.addrAddCmd)]
      else log₁
    (log₂ ++ [(m.linkUpCmd, k log₂ m.linkUpCmd)], none)
  else if !k log₀ m.linkAddCmd then
    (log₀ ++ [(m.linkAddCmd, false)], some "failed to create VXLAN interface")
  else
    let log₁ := log₀ ++ [(m.linkAddCmd, true)]
    if !k log₁ m.addrAddCmd then
      (log₁ ++ [(m.addrAddCmd, false)], some "failed to assign IP to VXLAN interface")
    else
      let log₂ := log₁ ++ [(m.addrAddCmd, true)]
      if !k log₂ m.linkUpCmd then
        (log₂ ++ [(m.linkUpCmd, false)], some "failed to bring up VXLAN interface")
      else (log₂ ++ [(m.linkUpCmd, true)], none)

/-- The loop over the fields of one line in `DetectUnderlyingDevice` and `DetectHostIP`
(lines 135-139 and 160-164): the field after the first field equal to `key` that is not the
last field. -/
def fieldAfter (key : String) : List String → Option String
  | [] => none
  | [_] => none
  | part :: next :: parts =>
    if part = key then some next else fieldAfter key (next :: parts)

/-- The loop over the lines in `DetectUnderlyingDevice` and `DetectHostIP` (lines 132-141
and 157-166), which differ in the key alone. -/
def scanLines (key : String) : List String → Option String
  | [] => none
  | line :: lines =>
    if strings.Contains line (key ++ " ") then
      match fieldAfter key (strings.Fields line) with
      | some value => some value
      | none => scanLines key lines
    else scanLines key lines

/-- The addresses listed by `ip addr show`, in the spec's sense: on every line whose first
field is `inet` or `inet6`, the second field up to the `/` of the prefix length. -/
def specListedAddresses (output : String) : List String :=
  (strings.Split output (Char.ofNat 10)).filterMap (fun line =>
    match strings.Fields line with
    | family :: addr :: _ =>
      if family = "inet" ∨ family = "inet6" then
        some (String.mk (addr.data.takeWhile (fun c => c ≠ Char.ofNat 47)))
      else none
    | _ => none)

/-- `DetectUnderlyingDevice`. -/
def DetectUnderlyingDevice (k : Kernel) (out : Stdout) (destIP : String) :
    String × GoError :=
  let cmd := ["ip", "route", "get", destIP]
  if !k [] cmd then ("", some ("failed to get route for " ++ destIP))
  else
    match scanLines "dev" (strings.Split (out [] cmd) (Char.ofNat 10)) with
    | some value => (value, none)
    | none => ("", some ("could not detect underlying device for " ++ destIP))

/-- `DetectHostIP`. -/
def DetectHostIP (k : Kernel) (out : Stdout) (destIP : String) : String × GoError :=
  let cmd := ["ip", "route", "get", destIP]
  if !k [] cmd then ("", some ("failed to get route for " ++ destIP))
  else
    match scanLines "src" (strings.Split (out [] cmd) (Char.ofNat 10)) with
    | some value => (value, none)
    | none => ("", some ("could not detect host IP for route to " ++ destIP))

/-- Spec side: texts joined by the separator `sep`, on characters. -/
def joinChars (sep : Char) : List (List Char) → List Char
  | [] => []
  | [a] => a
  | a :: b :: rest => a ++ sep :: joinChars sep (b :: rest)

/-- Spec side: texts joined by the separator `sep`. -/
def specJoin (sep : Char) (parts : List String) : String :=
  String.mk (joinChars sep (parts.map String.data))

/-- Spec side: a field is a non-empty text without white space. -/
def specField (field : String) : Bool :=
  field.data ≠ [] && field.data.all (fun c => !unicode.IsSpace c)

/-- Spec side: an output "consisting of lines of single-space-separated fields": the
fields of each line joined by one space, the lines joined by line feeds. -/
def specOutput (lines : List (List String)) : String :=
  specJoin (Char.ofNat 10) (lines.map (specJoin (Char.ofNat 32)))

/-- Spec side: the field immediately following the first field equal to `key`. -/
def specValue (key : String) (fields : List String) : Option String :=
  match fields.dropWhile (fun field => field ≠ key) with
  | _ :: value :: _ => some value
  | _ => none

/-- Spec side: the value of the first line that has a field equal to `key` followed by
another field. -/
def specScan (key : String) (lines : List (List String)) : Option String :=
  (lines.filterMap (specValue key)).head?

end vxlan

/-! ## Provenance of peers -/

namespace multicast

/-- The entry `p` stored under `key` was taken from a datagram among `events` that decodes
to an `ANNOUNCE` or `RESPONSE` of the stack `key`, other than the local stack `stackID`:
`p` carries that message's stack id, host IP and VNI. -/
def Discovery.learnedFrom (json : Json) (stackID : GoString) (events : List Event)
    (key : String) (p : types.Peer) : Prop :=
  ∃ data addr now unix m, Event.datagram data addr now unix ∈ events ∧
    json.Unmarshal data = some m ∧
    (m.Type_ = types.MessageTypeAnnounce ∨ m.Type_ = types.MessageTypeResponse) ∧
    GoString.ofText m.StackID ≠ stackID ∧ m.StackID = key ∧
    p.StackID = m.StackID ∧ p.HostIP = m.HostIP ∧ p.VNI = m.VNI

end multicast

/-! ## Discovery daemon start-up -/

namespace os

/-- The environment of the process: `os.Getenv(key)`, empty for a variable that is not
set.  The values are taken to be text; a stack id of any bytes enters the model at
`multicast.NewDiscovery`. -/
abbrev Env := String → String

end os

namespace strconv

/-- `strconv.Atoi`: an optional sign and at least one decimal digit, within the range of a
Go `int` (64 bits); `none` is an error. -/
def Atoi (s : String) : Option Int :=
  let signed : Bool × List Char :=
    match s.data with
    | c :: cs =>
      if c = Char.ofNat 45 then (true, cs)
      else if c = Char.ofNat 43 then (false, cs)
      else (false, c :: cs)
    | [] => (false, [])
  if signed.2 = [] ∨ ¬ signed.2.all json.isDigit then none
  else
    let n : Nat := signed.2.foldl (fun n ch => n * 10 + (ch.toNat - 48)) 0
    let i : Int := if signed.1 then -(n : Int) else (n : Int)
    if json.isInt64 i then some i else none

end strconv

namespace time

/-- `time.Second`, in nanoseconds. -/
def Second : Duration := 1000000000

/-- The value of an integer expression in `int64` arithmetic (wrap-around). -/
def wrap (x : Int) : Duration :=
  (x + 9223372036854775808) % 18446744073709551616 - 9223372036854775808

/-- `time.NewTicker(d)`: `none` is the panic "non-positive interval for NewTicker". -/
def NewTicker (d : Duration) : Option Duration := if d ≤ 0 then none else some d

end time

namespace multicast

/-- `Discovery.SetMulticastGroup`. -/
def Discovery.SetMulticastGroup (d : Discovery) (group : String) : Discovery :=
  { d with multicastGroup := group }

/-- `Discovery.SetPort`. -/
def Discovery.SetPort (d : Discovery) (port : Int) : Discovery := { d with port := port }

/-- `Discovery.SetAnnounceInterval`. -/
def Discovery.SetAnnounceInterval (d : Discovery) (interval : time.Duration) : Discovery :=
  { d with announceInterval := interval }

/-- `Discovery.SetPeerTimeout`. -/
def Discovery.SetPeerTimeout (d : Discovery) (timeout : time.Duration) : Discovery :=
  { d with peerTimeout := timeout }

/-- The ticker of `announceLoop` (line 229): `time.NewTicker(d.announceInterval)`. -/
def Discovery.announceTicker (d : Discovery) : Option time.Duration :=
  time.NewTicker d.announceInterval

/-- The ticker of `cleanupLoop` (line 275): `time.NewTicker(d.peerTimeout / 3)`, with Go's
division that truncates toward zero. -/
def Discovery.cleanupTicker (d : Discovery) : Option time.Duration :=
  time.NewTicker (d.peerTimeout.tdiv 3)

/-- What `announceLoop` does from its launch to its first wait (lines 226-233): it creates
the ticker, which panics (`none`) for a non-positive interval, and then sends the initial
announcement. -/
def Discovery.announceLoopStart (json : Json) (unix : Int) (d : Discovery) :
    Option (List Effect) :=
  match d.announceTicker with
  | none => none
  | some _ => some (d.sendAnnouncement json unix)

/-- What `cleanupLoop` does from its launch to its first wait (lines 273-280): it creates
the ticker, which panics (`none`) for a non-positive period, and nothing else. -/
def Discovery.cleanupLoopStart (d : Discovery) : Option (List Effect) :=
  match d.cleanupTicker with
  | none => none
  | some _ => some []

end multicast

namespace discoverycmd

/-- `Config` of `discovery/cmd/main.go`. -/
structure Config where
  StackID : String
  VNI : Int
  DataDir : String
  MulticastGroup : String
  Port : Int
  AnnounceInterval : Int
  PeerTimeout : Int
deriving DecidableEq, Repr

/-- `getEnv`. -/
def getEnv (env : os.Env) (key defaultValue : String) : String :=
  if env key ≠ "" then env key else defaultValue

/-- `getEnvInt`. -/
def getEnvInt (env : os.Env) (key : String) (defaultValue : Int) : Int :=
  if env key ≠ "" then
    match strconv.Atoi (env key) with
    | some intValue => intValue
    | none => defaultValue
  else defaultValue

/-- `readConfig`; `none` is an exit through `log.Fatal`. -/
def readConfig (env : os.Env) : Option Config :=
  let config : Config :=
    { StackID := getEnv env "STACK_ID" "",
      VNI := 0,
      DataDir := getEnv env "DATA_DIR" "/var/lib/docker-router",
      MulticastGroup := getEnv env "MULTICAST_GROUP" "239.1.1.1",
      Port := getEnvInt env "DISCOVERY_PORT" 4790,
      AnnounceInterval := getEnvInt env "ANNOUNCE_INTERVAL" 30,
      PeerTimeout := getEnvInt env "PEER_TIMEOUT" 90 }
  let vniStr := getEnv env "VNI" ""
  if vniStr = "" then none
  else
    match strconv.Atoi vniStr with
    | none => none
    | some vni =>
      let config := { config with VNI := vni }
      if config.StackID = "" then none else some config

/-- Lines 25-45 of `main`: the discovery instance that `main` starts, built from the
configuration (the directory of the storage is taken to exist). -/
def newDiscovery (config : Config) : multicast.Discovery :=
  let storage := storage.NewFileStorage config.DataDir
  let discovery := multicast.NewDiscovery (GoString.ofText config.StackID) config.VNI storage
  let discovery :=
    if config.MulticastGroup ≠ "" then discovery.SetMulticastGroup config.MulticastGroup
    else discovery
  let discovery := if config.Port ≠ 0 then discovery.SetPort config.Port else discovery
  let discovery :=
    if config.AnnounceInterval ≠ 0 then
      discovery.SetAnnounceInterval (time.wrap (config.AnnounceInterval * time.Second))
    else discovery
  let discovery :=
    if config.PeerTimeout ≠ 0 then
      discovery.SetPeerTimeout (time.wrap (config.PeerTimeout * time.Second))
    else discovery
  discovery

end discoverycmd

/-! ## Concrete inputs -/

namespace sample

/-- A peer as the watcher delivers it: active, VNI 100. -/
def peer (stackID hostIP : String) : discovery.Peer :=
  { StackID := stackID, HostIP := hostIP, VXLANEndpoint := hostIP ++ ":4789", VNI := 100,
    LastSeen := "2024-01-01T00:00:00Z", Status := "active" }

/-- Stack `A` with two remote stacks on distinct container subnets. -/
def cfg : config.Config :=
  { Version := 1, StackID := "A", VNI := 100, VXLANSubnet := "10.200.0.0/24",
    LocalVXLANIP := "10.200.0.1", ContainerSubnet := "10.0.1.0/24",
    StackMappings := ((∅ : GoMap config.StackConfig).insert "B"
      ⟨"10.200.0.2", "10.0.2.0/24"⟩).insert "C" ⟨"10.200.0.3", "10.0.3.0/24"⟩ }

/-- Stack `A` whose `stack_mappings` give `B` and `C` the same container subnet behind
different overlay addresses. -/
def cfgShared : config.Config :=
  { Version := 1, StackID := "A", VNI := 100, VXLANSubnet := "10.200.0.0/24",
    LocalVXLANIP := "10.200.0.1", ContainerSubnet := "10.0.1.0/24",
    StackMappings := ((∅ : GoMap config.StackConfig).insert "B"
      ⟨"10.200.0.2", "10.0.2.0/24"⟩).insert "C" ⟨"10.200.0.3", "10.0.2.0/24"⟩ }

/-- Peers `B` and `C`. -/
def peersBC : List discovery.Peer := [peer "B" "192.168.1.20", peer "C" "192.168.1.30"]

/-- A route manager that tracks one route to a stack that is no longer a peer. -/
def routesOld : routing.Manager :=
  { interfaceName := "vxlan100", config := cfg,
    routes := (∅ : GoMap String).insert "10.0.9.0/24" "10.200.0.9" }

/-- The route manager of `cfgShared` after `UpdateRoutes([B])` with every command
succeeding: it tracks `10.0.2.0/24 via 10.200.0.2`. -/
def routesAfterB : routing.Manager :=
  ((routing.NewManager "vxlan100" cfgShared).UpdateRoutes Kernel.allOk RangeOrder.stored
    RangeOrder.stored [peer "B" "192.168.1.20"]).1.1

/-- An FDB manager that tracks one address that is no longer a peer and one that is. -/
def fdbOld : fdb.Manager :=
  { interfaceName := "vxlan100",
    entries := ((∅ : GoMap String).insert "192.168.1.99" "192.168.1.99").insert
      "192.168.1.20" "192.168.1.20" }

/-- Host IPs as `onPeersUpdated` extracts them, one of them twice. -/
def hostsDup : List String := ["192.168.1.20", "192.168.1.30", "192.168.1.20"]

/-- The discovery daemon of stack `A` (VNI 100) after `Start`, with an empty peer table. -/
def daemonA : multicast.Discovery :=
  { multicast.NewDiscovery (GoString.ofText "A") 100 (storage.NewFileStorage "") with
    hostIP := "192.168.1.10" }

/-- An `ANNOUNCE` of stack `B`. -/
def announceB : types.MulticastMessage :=
  { Type_ := types.MessageTypeAnnounce, Version := 1, StackID := "B",
    HostIP := "192.168.1.20", VNI := 100, Timestamp := 1700000000 }

/-- An `ANNOUNCE` bearing the stack id of `daemonA` itself (a self-echo). -/
def announceA : types.MulticastMessage :=
  { Type_ := types.MessageTypeAnnounce, Version := 1, StackID := "A",
    HostIP := "192.168.1.10", VNI := 100, Timestamp := 1700000000 }

/-- A decoder for the examples: the datagram `[1]` decodes to `announceB`, `[2]` to
`announceA`, every other datagram is a parse error. -/
def json : multicast.Json :=
  { Unmarshal := fun data =>
      if data = [1] then some announceB else if data = [2] then some announceA else none,
    Marshal := fun _ => some [] }

/-- The sender address used in the examples. -/
def addrB : multicast.UDPAddr := { IP := "192.168.1.20", Port := 4790 }

/-- A self-echo, an announcement of `B`, garbage, and a cleanup tick. -/
def trace : List multicast.Event :=
  [multicast.Event.datagram [2] addrB 10 1700000000,
   multicast.Event.datagram [1] addrB 20 1700000000,
   multicast.Event.datagram [7, 7] addrB 30 1700000000,
   multicast.Event.cleanupTick RangeOrder.stored 40]

/-- Peer `B`, last seen at 10 s of monotonic time. -/
def peerB : types.Peer :=
  { StackID := "B", HostIP := "192.168.1.20", VXLANEndpoint := "192.168.1.20:4789",
    VNI := 100, LastSeen := 10000000000, Status := "active" }

/-- Peer `C`, last seen at 9 s of monotonic time. -/
def peerC : types.Peer :=
  { StackID := "C", HostIP := "192.168.1.30", VXLANEndpoint := "192.168.1.30:4789",
    VNI := 100, LastSeen := 9000000000, Status := "active" }

/-- A peer table holding `peerB` and `peerC`. -/
def tableBC : storage.FileStorage :=
  { dataDir := storage.DefaultDataDir,
    peers := ((∅ : GoMap types.Peer).insert "B" peerB).insert "C" peerC }

/-- A stand-in for RFC 3339: the decimal text of the reading; every text is accepted. -/
def layout : time.Layout :=
  { format := fun t => String.mk (json.renderNat t.val), parses := fun _ => true,
    format_parses := fun _ => rfl }

/-- An `ANNOUNCE` of stack `B` whose `version` is 2. -/
def announceV2 : types.MulticastMessage :=
  { Type_ := types.MessageTypeAnnounce, Version := 2, StackID := "B",
    HostIP := "192.168.1.20", VNI := 100, Timestamp := 1700000000 }

/-- The datagram of `announceV2`: the compact JSON text with `"version":2`. -/
def datagramV2 : List UInt8 := utf8.encode (json.renderCompact announceV2.toJson)

/-- A `QUERY` of stack `B`. -/
def queryB : types.MulticastMessage :=
  { Type_ := types.MessageTypeQuery, Version := 1, StackID := "B", HostIP := "192.168.1.20",
    VNI := 100, Timestamp := 1700000000 }

/-- The datagram of `queryB`. -/
def datagramQuery : List UInt8 := utf8.encode (json.renderCompact queryB.toJson)

/-- A stack id of 1000 letters. -/
def longID : String := String.mk (List.replicate 1000 'x')

/-- The daemon of a stack named `longID`. -/
def daemonLong : multicast.Discovery :=
  { multicast.NewDiscovery (GoString.ofText longID) 100 (storage.NewFileStorage "") with
    hostIP := "192.168.1.10" }

/-- Stack `A` (VNI 100) whose `stack_mappings` know stack `B` alone: container subnet
`10.0.2.0/24` behind overlay address `10.200.0.2`. -/
def cfgB : config.Config :=
  { Version := 1, StackID := "A", VNI := 100, VXLANSubnet := "10.200.0.0/24",
    LocalVXLANIP := "10.200.0.1", ContainerSubnet := "10.0.1.0/24",
    StackMappings := (∅ : GoMap config.StackConfig).insert "B" ⟨"10.200.0.2", "10.0.2.0/24"⟩ }

/-- A file system without files. -/
def noFiles : os.FileSystem := fun _ => none

/-- A peer of stack `D` whose status is `stale`. -/
def peerStale : types.Peer :=
  { StackID := "D", HostIP := "192.168.1.40", VXLANEndpoint := "192.168.1.40:4789",
    VNI := 100, LastSeen := 1000000000, Status := "stale" }

/-- A peer table holding `peerB` and the stale `peerStale`. -/
def tableBD : storage.FileStorage :=
  { dataDir := storage.DefaultDataDir,
    peers := ((∅ : GoMap types.Peer).insert "B" peerB).insert "D" peerStale }

/-- A file system whose published file holds three bytes of an earlier snapshot. -/
def oldDisk : os.FileSystem :=
  noFiles.set "/var/lib/docker-router/discovery.json" (some [123, 125, 10])

/-- The daemon of stack `A` as `NewDiscovery` builds it, before `Start`. -/
def daemonNew : multicast.Discovery :=
  multicast.NewDiscovery (GoString.ofText "A") 100 (storage.NewFileStorage "")

/-- The VXLAN manager of stack `A`: interface `vxlan100`, overlay address `10.200.0.1`. -/
def vxlanA : vxlan.Manager := vxlan.NewManager "vxlan100" 100 "10.200.0.1" "eth0" "192.168.1.10"

/-- The same manager as the discovery-side `NewManager` builds it. -/
def vxlanA₂ : vxlan.Manager := vxlan.NewDiscoveryManager 100 "10.200.0.1" "192.168.1.10"

/-- What `ip addr show dev vxlan100` prints when the interface carries `10.200.0.10/24`
alone. -/
def addrShow : String :=
  "4: vxlan100: <BROADCAST,MULTICAST,UP,LOWER_UP> mtu 1450\n" ++
  "    link/ether 8a:3c:11:22:33:44\n" ++
  "    inet 10.200.0.10/24 scope global vxlan100\n"

/-- Every command prints `addrShow`. -/
def printsAddrShow : Stdout := fun _ _ => addrShow

/-- A kernel on which `ip link show` fails (the interface does not exist), `ip link add`
succeeds and `ip addr add` fails. -/
def kernelAddrFails : Kernel := fun _ cmd => cmd.take 3 = ["ip", "link", "add"]

/-- The lines of the `ip route get` output
`192.168.200.3 dev eth3 src 192.168.200.12 uid 1000`, ended by a line feed. -/
def routeGet : List (List String) :=
  [["192.168.200.3", "dev", "eth3", "src", "192.168.200.12", "uid", "1000"], []]

/-- Every command prints the text of `routeGet`. -/
def printsRouteGet : Stdout := fun _ _ => vxlan.specOutput routeGet

/-- An `ANNOUNCE` of stack `B` on VNI 200. -/
def announceVni200 : types.MulticastMessage :=
  { Type_ := types.MessageTypeAnnounce, Version := 1, StackID := "B",
    HostIP := "192.168.1.20", VNI := 200, Timestamp := 1700000000 }

/-- The datagram of `announceVni200`. -/
def datagramVni200 : List UInt8 := utf8.encode (json.renderCompact announceVni200.toJson)

/-- A peer of stack `E` whose status is empty. -/
def peerNoStatus : types.Peer :=
  { StackID := "E", HostIP := "192.168.1.50", VXLANEndpoint := "192.168.1.50:4789",
    VNI := 100, LastSeen := 8000000000, Status := "" }

/-- A discovery file listing, in this order, the active `B`, the stale `D`, `E` without
status and the active `C`. -/
def fileMixed : List UInt8 :=
  storage.encodeDiscoveryData layout
    { Version := 1, LastUpdate := 5, Peers := some [peerB, peerStale, peerNoStatus, peerC] }

/-- A data directory holding `fileMixed` as its discovery file. -/
def diskMixed : os.FileSystem := noFiles.set "/shared/discovery.json" (some fileMixed)

/-- The watcher of `/shared/discovery.json`. -/
def watcher : discovery.Watcher := { discoveryFile := "/shared/discovery.json" }

/-- An environment with `STACK_ID=A`, `VNI=100`, `ANNOUNCE_INTERVAL=-5` and
`PEER_TIMEOUT=-90`. -/
def envNegative : os.Env := fun key =>
  if key = "STACK_ID" then "A"
  else if key = "VNI" then "100"
  else if key = "ANNOUNCE_INTERVAL" then "-5"
  else if key = "PEER_TIMEOUT" then "-90"
  else ""

/-- An environment with `STACK_ID=A`, `VNI=100`, `ANNOUNCE_INTERVAL=0` and
`PEER_TIMEOUT=0`. -/
def envZero : os.Env := fun key =>
  if key = "STACK_ID" then "A"
  else if key = "VNI" then "100"
  else if key = "ANNOUNCE_INTERVAL" then "0"
  else if key = "PEER_TIMEOUT" then "0"
  else ""

/-- The daemon of a stack whose `STACK_ID` is the single byte `0xFF`, which is not UTF-8. -/
def daemonFF : multicast.Discovery :=
  { multicast.NewDiscovery [255] 100 (storage.NewFileStorage "") with
    hostIP := "192.168.1.10" }

/-- The file operations of two overlapping calls of `WriteDiscoveryFile` on `tableBC`, in
the order in which they reach the file system: call `A` (clock 5) creates and writes the
temp file, call `B` (clock 6) creates it again, call `A` renames it. -/
def overlap : List os.FileOp :=
  (tableBC.writeOps layout RangeOrder.stored 5).take 2 ++
    (tableBC.writeOps layout RangeOrder.reversed 6).take 1 ++
    (tableBC.writeOps layout RangeOrder.stored 5).drop 2

/-- An `ANNOUNCE` in memory whose stack id is the single byte `0xFF`. -/
def rawFF : types.RawMessage :=
  { Type_ := GoString.ofText types.MessageTypeAnnounce, Version := 1, StackID := [255],
    HostIP := GoString.ofText "192.168.1.20", VNI := 100, Timestamp := 1700000000 }

/-- A kernel on which `bridge fdb append` succeeds and every other command fails. -/
def kernelAppendOnly : Kernel := fun _ cmd => cmd.take 3 = ["bridge", "fdb", "append"]

end sample

/-! ## Map iteration -/

theorem GoMap.range_keys {V : Type} (o : RangeOrder) (m : GoMap V) :
    (GoMap.range o m).map Prod.fst = o.pick m.keys := by
  have key : ∀ l : List String, (∀ x ∈ l, x ∈ m.keys) →
      (l.filterMap (fun x => (m.lookup x).map (fun v => (x, v)))).map Prod.fst = l := by
    intro l
    induction l with
    | nil => intro _; rfl
    | cons a t ih =>
      intro h
      have ha : a ∈ m := AList.mem_keys.mpr (h a (List.mem_cons_self a t))
      obtain ⟨v, hv⟩ := Option.isSome_iff_exists.mp (AList.lookup_isSome.mpr ha)
      have ht := ih (fun x hx => h x (List.mem_cons_of_mem a hx))
      simp only [List.filterMap_cons, hv, Option.map_some', List.map_cons, ht]
  exact key _ (fun x hx => ((o.isPerm m.keys).mem_iff).mp hx)

theorem GoMap.range_nodup {V : Type} (o : RangeOrder) (m : GoMap V) :
    ((GoMap.range o m).map Prod.fst).Nodup := by
  rw [GoMap.range_keys]
  exact ((o.isPerm m.keys).nodup_iff).mpr m.keys_nodup

theorem GoMap.mem_range {V : Type} (o : RangeOrder) (m : GoMap V) (x : String) (v : V) :
    (x, v) ∈ GoMap.range o m ↔ m.lookup x = some v := by
  unfold GoMap.range
  simp only [List.mem_filterMap, Option.map_eq_some']
  constructor
  · rintro ⟨a, _, b, hb, hab⟩
    cases hab
    exact hb
  · intro h
    refine ⟨x, ?_, v, h, rfl⟩
    have hx : x ∈ m := AList.lookup_isSome.mp (by rw [h]; rfl)
    exact ((o.isPerm m.keys).mem_iff).mpr (AList.mem_keys.mp hx)

theorem GoMap.mem_range_keys {V : Type} (o : RangeOrder) (m : GoMap V) (x : String) :
    x ∈ (GoMap.range o m).map Prod.fst ↔ x ∈ m := by
  rw [GoMap.range_keys, (o.isPerm m.keys).mem_iff, AList.mem_keys]

theorem List.foldl_noop {α β : Type} (f : β → α → β) (l : List α) (s : β)
    (h : ∀ a ∈ l, f s a = s) : l.foldl f s = s := by
  induction l with
  | nil => rfl
  | cons a t ih =>
    rw [List.foldl_cons, h a (List.mem_cons_self a t)]
    exact ih (fun b hb => h b (List.mem_cons_of_mem a hb))

/-! ## Route reconciler -/

namespace routing

theorem Manager.removeStep_fold (k : Kernel) (new : GoMap String) :
    ∀ (l : List (String × String)) (s : Manager × Log),
      (l.foldl (Manager.removeStep k new) s).1.interfaceName = s.1.interfaceName ∧
      (l.foldl (Manager.removeStep k new) s).1.config = s.1.config ∧
      ∀ x, (l.foldl (Manager.removeStep k new) s).1.routes.lookup x =
        if x ∈ l.map Prod.fst ∧ new.lookup x = none then none else s.1.routes.lookup x := by
  intro l
  induction l with
  | nil => intro s; simp
  | cons a t ih =>
    intro s
    obtain ⟨h1, h2, h3⟩ := ih (Manager.removeStep k new s a)
    rw [List.foldl_cons]
    cases hnew : new.lookup a.1 with
    | none =>
      have hs : Manager.removeStep k new s a = (Manager.removeRouteUnsafe k s a.1).1 := by
        simp [Manager.removeStep, hnew]
      rw [hs] at h1 h2 h3 ⊢
      refine ⟨h1, h2, fun x => ?_⟩
      rw [h3 x]
      by_cases hx : x = a.1
      · subst hx
        simp [hnew, Manager.removeRouteUnsafe, AList.lookup_erase]
      · have hmem : (x ∈ a.1 :: List.map Prod.fst t) ↔ x ∈ List.map Prod.fst t := by
          rw [List.mem_cons]; exact or_iff_right hx
        simp only [Manager.removeRouteUnsafe, AList.lookup_erase_ne hx, List.map_cons, hmem]
    | some v =>
      have hs : Manager.removeStep k new s a = s := by
        simp [Manager.removeStep, hnew]
      rw [hs] at h1 h2 h3 ⊢
      refine ⟨h1, h2, fun x => ?_⟩
      rw [h3 x]
      by_cases hx : x = a.1
      · subst hx
        simp [hnew]
      · have hmem : (x ∈ a.1 :: List.map Prod.fst t) ↔ x ∈ List.map Prod.fst t := by
          rw [List.mem_cons]; exact or_iff_right hx
        simp only [List.map_cons, hmem]

theorem Manager.addRouteUnsafe_log (k : Kernel) (s : Manager × Log) (subnet nextHop : String) :
    s.2 ⊆ (Manager.addRouteUnsafe k s subnet nextHop).1.2 := by
  intro e he
  by_cases hk : k s.2 (s.1.addCmd subnet nextHop) = true <;>
    simp [Manager.addRouteUnsafe, hk, he]

theorem Manager.addStep_log (k : Kernel) (s : Manager × Log) (kv : String × String) :
    s.2 ⊆ (Manager.addStep k s kv).2 := by
  cases hl : s.1.routes.lookup kv.1 with
  | none =>
    simp only [Manager.addStep, hl]
    exact Manager.addRouteUnsafe_log k s kv.1 kv.2
  | some v =>
    by_cases hv : v = kv.2
    · simp [Manager.addStep, hl, hv]
    · simp only [Manager.addStep, hl, hv, ne_eq, not_false_eq_true, if_true]
      exact Manager.addRouteUnsafe_log k s kv.1 kv.2

theorem Manager.addStep_fold_log (k : Kernel) :
    ∀ (l : List (String × String)) (s : Manager × Log),
      s.2 ⊆ (l.foldl (Manager.addStep k) s).2 := by
  intro l
  induction l with
  | nil => intro s; exact fun _ h => h
  | cons a t ih =>
    intro s
    rw [List.foldl_cons]
    exact fun e he => ih _ (Manager.addStep_log k s a he)

/-- When the add executed by one step is logged as a success, the route is tracked. -/
theorem Manager.addStep_ok (k : Kernel) (s : Manager × Log) (kv : String × String)
    (hok : ∀ e ∈ (Manager.addStep k s kv).2, e.2 = true) :
    (Manager.addStep k s kv).1.interfaceName = s.1.interfaceName ∧
    (Manager.addStep k s kv).1.config = s.1.config ∧
    ∀ x, (Manager.addStep k s kv).1.routes.lookup x =
      if x = kv.1 then some kv.2 else s.1.routes.lookup x := by
  have hadd : (∀ e ∈ (Manager.addRouteUnsafe k s kv.1 kv.2).1.2, e.2 = true) →
      (Manager.addRouteUnsafe k s kv.1 kv.2).1.1.interfaceName = s.1.interfaceName ∧
      (Manager.addRouteUnsafe k s kv.1 kv.2).1.1.config = s.1.config ∧
      ∀ x, (Manager.addRouteUnsafe k s kv.1 kv.2).1.1.routes.lookup x =
        if x = kv.1 then some kv.2 else s.1.routes.lookup x := by
    intro h
    by_cases hk : k s.2 (s.1.addCmd kv.1 kv.2) = true
    · simp only [Manager.addRouteUnsafe, hk, if_true]
      refine ⟨trivial, trivial, fun x => ?_⟩
      by_cases hx : x = kv.1
      · subst hx; simp [AList.lookup_insert]
      · simp [AList.lookup_insert_ne hx, hx]
    · exfalso
      have := h (s.1.addCmd kv.1 kv.2, false) (by simp [Manager.addRouteUnsafe, hk])
      simp at this
  cases hl : s.1.routes.lookup kv.1 with
  | none =>
    have hs : Manager.addStep k s kv = (Manager.addRouteUnsafe k s kv.1 kv.2).1 := by
      simp [Manager.addStep, hl]
    rw [hs] at hok ⊢
    exact hadd hok
  | some v =>
    by_cases hv : v = kv.2
    · have hs : Manager.addStep k s kv = s := by
        simp [Manager.addStep, hl, hv]
      rw [hs]
      refine ⟨rfl, rfl, fun x => ?_⟩
      by_cases hx : x = kv.1
      · subst hx; simp [hl, hv]
      · simp [hx]
    · have hs : Manager.addStep k s kv = (Manager.addRouteUnsafe k s kv.1 kv.2).1 := by
        simp [Manager.addStep, hl, hv]
      rw [hs] at hok ⊢
      exact hadd hok

theorem Manager.addStep_fold_ok (k : Kernel) :
    ∀ (l : List (String × String)) (s : Manager × Log),
      (l.map Prod.fst).Nodup →
      (∀ e ∈ (l.foldl (Manager.addStep k) s).2, e.2 = true) →
      (l.foldl (Manager.addStep k) s).1.interfaceName = s.1.interfaceName ∧
      (l.foldl (Manager.addStep k) s).1.config = s.1.config ∧
      (∀ kv ∈ l, (l.foldl (Manager.addStep k) s).1.routes.lookup kv.1 = some kv.2) ∧
      (∀ x, x ∉ l.map Prod.fst →
        (l.foldl (Manager.addStep k) s).1.routes.lookup x = s.1.routes.lookup x) := by
  intro l
  induction l with
  | nil => intro s _ _; simp
  | cons a t ih =>
    intro s hnd hok
    rw [List.map_cons, List.nodup_cons] at hnd
    rw [List.foldl_cons] at hok ⊢
    obtain ⟨i1, i2, i3, i4⟩ := ih (Manager.addStep k s a) hnd.2 hok
    obtain ⟨a1, a2, a3⟩ := Manager.addStep_ok k s a
      (fun e he => hok e (Manager.addStep_fold_log k t _ he))
    refine ⟨i1.trans a1, i2.trans a2, ?_, ?_⟩
    · intro kv hkv
      rcases List.mem_cons.mp hkv with h | h
      · subst h
        rw [i4 _ hnd.1, a3]
        simp
      · exact i3 kv h
    · intro x hx
      rw [List.map_cons, List.mem_cons, not_or] at hx
      rw [i4 x hx.2, a3, if_neg hx.1]

/-- With every command of the call succeeding the tracked map is the desired map. -/
theorem Manager.UpdateRoutes_lookup (k : Kernel) (o₁ o₂ : RangeOrder) (m : Manager)
    (peers : List discovery.Peer)
    (hok : ∀ e ∈ (m.UpdateRoutes k o₁ o₂ peers).1.2, e.2 = true) :
    (m.UpdateRoutes k o₁ o₂ peers).1.1.interfaceName = m.interfaceName ∧
    (m.UpdateRoutes k o₁ o₂ peers).1.1.config = m.config ∧
    ∀ x, (m.UpdateRoutes k o₁ o₂ peers).1.1.routes.lookup x = (m.newRoutes peers).lookup x := by
  simp only [Manager.UpdateRoutes] at hok ⊢
  obtain ⟨r1, r2, r3⟩ := Manager.removeStep_fold k (m.newRoutes peers)
    (GoMap.range o₁ m.routes) (m, [])
  obtain ⟨a1, a2, a3, a4⟩ := Manager.addStep_fold_ok k (GoMap.range o₂ (m.newRoutes peers)) _
    (GoMap.range_nodup o₂ _) hok
  refine ⟨a1.trans r1, a2.trans r2, fun x => ?_⟩
  cases hx : (m.newRoutes peers).lookup x with
  | some h => exact a3 (x, h) ((GoMap.mem_range o₂ _ x h).mpr hx)
  | none =>
    have hnot : x ∉ (GoMap.range o₂ (m.newRoutes peers)).map Prod.fst := by
      rw [GoMap.mem_range_keys]
      exact AList.lookup_eq_none.mp hx
    rw [a4 x hnot, r3 x]
    by_cases hm : x ∈ m.routes
    · rw [if_pos ⟨(GoMap.mem_range_keys o₁ _ x).mpr hm, hx⟩]
    · rw [if_neg (fun h => hm ((GoMap.mem_range_keys o₁ _ x).mp h.1))]
      exact AList.lookup_eq_none.mpr hm

theorem Manager.planStep_lookup (m : Manager) (acc : GoMap String) (p : discovery.Peer)
    (x : String) :
    (m.planStep acc p).lookup x = acc.lookup x ∨
    (p.StackID ≠ m.config.StackID ∧ ∃ sc, m.config.StackMappings.lookup p.StackID = some sc ∧
      sc.ContainerSubnet = x ∧ (m.planStep acc p).lookup x = some sc.VXLANIP) := by
  unfold Manager.planStep config.Config.GetStackConfig
  by_cases hself : p.StackID = m.config.StackID
  · left; simp [hself]
  · cases hsc : m.config.StackMappings.lookup p.StackID with
    | none => left; simp [hself]
    | some sc =>
      by_cases hx : x = sc.ContainerSubnet
      · right
        subst hx
        exact ⟨hself, sc, rfl, rfl, by simp [hself, AList.lookup_insert]⟩
      · left
        simp [hself, AList.lookup_insert_ne hx]

theorem Manager.planStep_hit (m : Manager) (acc : GoMap String) (p : discovery.Peer)
    (sc : config.StackConfig) (hself : p.StackID ≠ m.config.StackID)
    (hsc : m.config.StackMappings.lookup p.StackID = some sc) :
    (m.planStep acc p).lookup sc.ContainerSubnet = some sc.VXLANIP := by
  unfold Manager.planStep config.Config.GetStackConfig
  simp [hself, hsc, AList.lookup_insert]

theorem Manager.specRoute_iff (m : Manager) (peers : List discovery.Peer) (x h : String) :
    m.specRoute peers x h ↔ ∃ p ∈ peers, p.StackID ≠ m.config.StackID ∧
      ∃ sc, m.config.StackMappings.lookup p.StackID = some sc ∧
        sc.ContainerSubnet = x ∧ sc.VXLANIP = h := by
  unfold Manager.specRoute config.Config.GetStackConfig
  constructor
  · rintro ⟨p, hp, hself, h2, h3, h4⟩
    refine ⟨p, hp, hself, ?_⟩
    cases hsc : m.config.StackMappings.lookup p.StackID with
    | none => simp [hsc] at h2
    | some sc =>
      simp only [hsc] at h3 h4
      exact ⟨sc, rfl, h3, h4⟩
  · rintro ⟨p, hp, hself, sc, hsc, h3, h4⟩
    refine ⟨p, hp, hself, ?_⟩
    simp only [hsc]
    exact ⟨trivial, h3, h4⟩

theorem Manager.newRoutes_sound (m : Manager) :
    ∀ (l : List discovery.Peer) (acc : GoMap String) (x h : String),
      (l.foldl m.planStep acc).lookup x = some h →
      acc.lookup x = some h ∨ ∃ p ∈ l, p.StackID ≠ m.config.StackID ∧
        ∃ sc, m.config.StackMappings.lookup p.StackID = some sc ∧
          sc.ContainerSubnet = x ∧ sc.VXLANIP = h := by
  intro l
  induction l with
  | nil => intro acc x h hl; exact Or.inl hl
  | cons p t ih =>
    intro acc x h hl
    rw [List.foldl_cons] at hl
    rcases ih _ x h hl with h1 | ⟨q, hq, hrest⟩
    · rcases Manager.planStep_lookup m acc p x with h2 | ⟨hself, sc, hsc, hsub, hv⟩
      · left; rw [← h2]; exact h1
      · right
        refine ⟨p, List.mem_cons_self p t, hself, sc, hsc, hsub, ?_⟩
        rw [hv] at h1
        exact Option.some.inj h1
    · right
      exact ⟨q, List.mem_cons_of_mem p hq, hrest⟩

theorem Manager.newRoutes_complete (m : Manager) :
    ∀ (l : List discovery.Peer) (acc : GoMap String) (x h : String),
      (∀ p ∈ l, p.StackID ≠ m.config.StackID →
        ∀ sc, m.config.StackMappings.lookup p.StackID = some sc →
          sc.ContainerSubnet = x → sc.VXLANIP = h) →
      (acc.lookup x = some h ∨ ∃ p ∈ l, p.StackID ≠ m.config.StackID ∧
        ∃ sc, m.config.StackMappings.lookup p.StackID = some sc ∧
          sc.ContainerSubnet = x ∧ sc.VXLANIP = h) →
      (l.foldl m.planStep acc).lookup x = some h := by
  intro l
  induction l with
  | nil =>
    intro acc x h _ hor
    rcases hor with h1 | ⟨q, hq, _⟩
    · exact h1
    · exact absurd hq (List.not_mem_nil q)
  | cons p t ih =>
    intro acc x h hcons hor
    rw [List.foldl_cons]
    apply ih _ x h (fun q hq => hcons q (List.mem_cons_of_mem p hq))
    rcases Manager.planStep_lookup m acc p x with h2 | ⟨hself, sc, hsc, hsub, hv⟩
    · rcases hor with h1 | ⟨q, hq, hqself, sc, hsc, hsub, hv⟩
      · left; rw [h2]; exact h1
      · rcases List.mem_cons.mp hq with hqp | hqt
        · subst hqp
          left
          rw [← hsub, ← hv]
          exact Manager.planStep_hit m acc q sc hqself hsc
        · right
          exact ⟨q, hqt, hqself, sc, hsc, hsub, hv⟩
    · left
      rw [hv, hcons p (List.mem_cons_self p t) hself sc hsc hsub]

theorem Manager.newRoutes_config (m m' : Manager) (h : m'.config = m.config)
    (peers : List discovery.Peer) : m'.newRoutes peers = m.newRoutes peers := by
  have hstep : m'.planStep = m.planStep := by
    funext acc p
    simp only [Manager.planStep, h]
  simp only [Manager.newRoutes, hstep]

end routing

/-! ## FDB reconciler -/

namespace fdb

theorem currentHosts_fold (l : List String) :
    ∀ (acc : GoMap Bool) (x : String),
      (l.foldl (fun currentHosts hostIP => currentHosts.insert hostIP true) acc).lookup x =
        if x ∈ l then some true else acc.lookup x := by
  induction l with
  | nil => intro acc x; simp
  | cons a t ih =>
    intro acc x
    rw [List.foldl_cons, ih]
    by_cases hx : x = a
    · subst hx
      by_cases ht : x ∈ t <;> simp [ht, AList.lookup_insert]
    · have hmem : (x ∈ a :: t) ↔ x ∈ t := by
        rw [List.mem_cons]; exact or_iff_right hx
      simp only [hmem, AList.lookup_insert_ne hx]

theorem currentHosts_lookup (hostIPs : List String) (x : String) :
    (currentHosts hostIPs).lookup x = if x ∈ hostIPs then some true else none := by
  unfold currentHosts
  rw [currentHosts_fold]
  simp

theorem mem_currentHosts (hostIPs : List String) (x : String) :
    x ∈ currentHosts hostIPs ↔ x ∈ hostIPs := by
  rw [← AList.lookup_isSome, currentHosts_lookup]
  by_cases h : x ∈ hostIPs <;> simp [h]

theorem Manager.appendCmd_inj (m : Manager) (x y : String)
    (h : m.appendCmd x = m.appendCmd y) : x = y := by
  simpa [Manager.appendCmd] using h

theorem Manager.fdbRemoveStep_fold (k : Kernel) (cur : GoMap Bool) :
    ∀ (l : List (String × String)) (s : Manager × Log),
      (l.foldl (Manager.removeStep k cur) s).1.interfaceName = s.1.interfaceName ∧
      (∀ x, (l.foldl (Manager.removeStep k cur) s).1.entries.lookup x =
        if x ∈ l.map Prod.fst ∧ (cur.lookup x).getD false = false then none
        else s.1.entries.lookup x) ∧
      (∀ e ∈ (l.foldl (Manager.removeStep k cur) s).2,
        e ∈ s.2 ∨ ∃ y, e.1 = s.1.delCmd y) := by
  intro l
  induction l with
  | nil => intro s; exact ⟨rfl, fun x => by simp, fun e he => Or.inl he⟩
  | cons a t ih =>
    intro s
    obtain ⟨h1, h2, h3⟩ := ih (Manager.removeStep k cur s a)
    rw [List.foldl_cons]
    by_cases hcur : (cur.lookup a.1).getD false = false
    · have hs : Manager.removeStep k cur s a = (Manager.removeEntryUnsafe k s a.1).1 := by
        simp [Manager.removeStep, hcur]
      rw [hs] at h1 h2 h3 ⊢
      refine ⟨h1, fun x => ?_, fun e he => ?_⟩
      · rw [h2 x]
        by_cases hx : x = a.1
        · subst hx
          simp [hcur, Manager.removeEntryUnsafe, AList.lookup_erase]
        · have hmem : (x ∈ a.1 :: List.map Prod.fst t) ↔ x ∈ List.map Prod.fst t := by
            rw [List.mem_cons]; exact or_iff_right hx
          simp only [Manager.removeEntryUnsafe, AList.lookup_erase_ne hx, List.map_cons, hmem]
      · rcases h3 e he with h | ⟨y, hy⟩
        · simp only [Manager.removeEntryUnsafe, List.mem_append, List.mem_singleton] at h
          rcases h with h | h
          · exact Or.inl h
          · exact Or.inr ⟨a.1, by rw [h]⟩
        · exact Or.inr ⟨y, hy⟩
    · have hs : Manager.removeStep k cur s a = s := by
        simp [Manager.removeStep, hcur]
      rw [hs] at h1 h2 h3 ⊢
      refine ⟨h1, fun x => ?_, h3⟩
      rw [h2 x]
      by_cases hx : x = a.1
      · subst hx
        simp [hcur]
      · have hmem : (x ∈ a.1 :: List.map Prod.fst t) ↔ x ∈ List.map Prod.fst t := by
          rw [List.mem_cons]; exact or_iff_right hx
        simp only [List.map_cons, hmem]

/-- One iteration of the add loop on a host that is not tracked: the append is issued
once, its outcome `b` is logged, and the host is recorded exactly when `b` is `true`. -/
theorem Manager.fdbAddStep_fresh (k : Kernel) (s : Manager × Log) (kv : String × Bool)
    (hl : s.1.entries.lookup kv.1 = none) :
    ∃ b, (Manager.addStep k s kv).2 = s.2 ++ [(s.1.appendCmd kv.1, b)] ∧
      (Manager.addStep k s kv).1.interfaceName = s.1.interfaceName ∧
      (Manager.addStep k s kv).1.entries.lookup kv.1 = (if b = true then some kv.1 else none) ∧
      ∀ x, x ≠ kv.1 → (Manager.addStep k s kv).1.entries.lookup x = s.1.entries.lookup x := by
  refine ⟨k s.2 (s.1.appendCmd kv.1), ?_⟩
  by_cases hk : k s.2 (s.1.appendCmd kv.1) = true
  · simp only [Manager.addStep, hl, Manager.addEntryUnsafe, hk, if_true]
    refine ⟨trivial, trivial, AList.lookup_insert _, fun x hx => AList.lookup_insert_ne hx⟩
  · simp only [Manager.addStep, hl, Manager.addEntryUnsafe, hk]
    simp only [Bool.not_eq_true] at hk
    simp [hk, hl]

theorem Manager.fdbAddStep_tracked (k : Kernel) (s : Manager × Log) (kv : String × Bool)
    (hl : s.1.entries.lookup kv.1 ≠ none) : Manager.addStep k s kv = s := by
  cases h : s.1.entries.lookup kv.1 with
  | none => exact absurd h hl
  | some v => simp [Manager.addStep, h]

theorem Manager.fdbAddStep_fold (k : Kernel) :
    ∀ (l : List (String × Bool)) (s : Manager × Log), (l.map Prod.fst).Nodup →
      (l.foldl (Manager.addStep k) s).1.interfaceName = s.1.interfaceName ∧
      ∀ x,
        ((x ∈ l.map Prod.fst ∧ s.1.entries.lookup x = none) →
          ∃ b, (l.foldl (Manager.addStep k) s).1.entries.lookup x =
              (if b = true then some x else none) ∧
            ∀ b', (s.1.appendCmd x, b') ∈ (l.foldl (Manager.addStep k) s).2 ↔
              ((s.1.appendCmd x, b') ∈ s.2 ∨ b' = b)) ∧
        (¬ (x ∈ l.map Prod.fst ∧ s.1.entries.lookup x = none) →
          (l.foldl (Manager.addStep k) s).1.entries.lookup x = s.1.entries.lookup x ∧
            ∀ b', (s.1.appendCmd x, b') ∈ (l.foldl (Manager.addStep k) s).2 ↔
              (s.1.appendCmd x, b') ∈ s.2) := by
  intro l
  induction l with
  | nil => intro s _; simp
  | cons a t ih =>
    intro s hnd
    rw [List.map_cons, List.nodup_cons] at hnd
    rw [List.foldl_cons]
    obtain ⟨i1, i2⟩ := ih (Manager.addStep k s a) hnd.2
    by_cases hl : s.1.entries.lookup a.1 = none
    · obtain ⟨b, hlog, hifn, hself, hother⟩ := Manager.fdbAddStep_fresh k s a hl
      have hcmd : (Manager.addStep k s a).1.appendCmd = s.1.appendCmd := by
        funext y; simp only [Manager.appendCmd, hifn]
      rw [hcmd] at i2
      refine ⟨i1.trans hifn, fun x => ?_⟩
      by_cases hx : x = a.1
      · subst hx
        have hnot : ¬ (a.1 ∈ t.map Prod.fst ∧
            (Manager.addStep k s a).1.entries.lookup a.1 = none) := fun h => hnd.1 h.1
        obtain ⟨j1, j2⟩ := (i2 a.1).2 hnot
        refine ⟨fun _ => ⟨b, j1.trans hself, fun b' => ?_⟩, fun h => ?_⟩
        · rw [j2 b', hlog]
          simp
        · exact absurd ⟨List.mem_cons_self _ _, hl⟩ h
      · have hmem : (x ∈ (a :: t).map Prod.fst) ↔ x ∈ t.map Prod.fst := by
          rw [List.map_cons, List.mem_cons]; exact or_iff_right hx
        have hlogx : ∀ b', (s.1.appendCmd x, b') ∈ (Manager.addStep k s a).2 ↔
            (s.1.appendCmd x, b') ∈ s.2 := by
          intro b'
          rw [hlog]
          simp only [List.mem_append, List.mem_singleton, Prod.mk.injEq]
          constructor
          · rintro (h | ⟨h, _⟩)
            · exact h
            · exact absurd (Manager.appendCmd_inj _ _ _ h) hx
          · exact Or.inl
        rw [hmem]
        have i2x := i2 x
        rw [hother x hx] at i2x
        simp only [hlogx] at i2x
        exact i2x
    · have hs := Manager.fdbAddStep_tracked k s a hl
      rw [hs] at i1 i2 ⊢
      refine ⟨i1, fun x => ?_⟩
      by_cases hx : x = a.1
      · subst hx
        have hnot : ¬ (a.1 ∈ t.map Prod.fst ∧ s.1.entries.lookup a.1 = none) :=
          fun h => hl h.2
        exact ⟨fun h => absurd h.2 hl, fun _ => (i2 a.1).2 hnot⟩
      · have hmem : (x ∈ (a :: t).map Prod.fst) ↔ x ∈ t.map Prod.fst := by
          rw [List.map_cons, List.mem_cons]; exact or_iff_right hx
        rw [hmem]
        exact i2 x

theorem Manager.appendCmd_ne_delCmd (m : Manager) (x y : String) :
    m.appendCmd x ≠ m.delCmd y := by
  simp [Manager.appendCmd, Manager.delCmd]

/-- What `UpdateEntries` does with one address `x`, for every kernel and iteration order. -/
theorem Manager.UpdateEntries_cases (k : Kernel) (o₁ o₂ : RangeOrder) (m : Manager)
    (hostIPs : List String) (x : String) :
    (m.UpdateEntries k o₁ o₂ hostIPs).1.1.interfaceName = m.interfaceName ∧
    (x ∈ hostIPs ∧ x ∉ m.entries →
      ∃ b, (m.UpdateEntries k o₁ o₂ hostIPs).1.1.entries.lookup x =
          (if b = true then some x else none) ∧
        ∀ b', (m.appendCmd x, b') ∈ (m.UpdateEntries k o₁ o₂ hostIPs).1.2 ↔ b' = b) ∧
    (x ∈ hostIPs ∧ x ∈ m.entries →
      (m.UpdateEntries k o₁ o₂ hostIPs).1.1.entries.lookup x = m.entries.lookup x ∧
        ∀ b', (m.appendCmd x, b') ∉ (m.UpdateEntries k o₁ o₂ hostIPs).1.2) ∧
    (x ∉ hostIPs →
      (m.UpdateEntries k o₁ o₂ hostIPs).1.1.entries.lookup x = none ∧
        ∀ b', (m.appendCmd x, b') ∉ (m.UpdateEntries k o₁ o₂ hostIPs).1.2) := by
  simp only [Manager.UpdateEntries]
  obtain ⟨r1, r2, r3⟩ := Manager.fdbRemoveStep_fold k (currentHosts hostIPs)
    (GoMap.range o₁ m.entries) (m, [])
  obtain ⟨a1, a2⟩ := Manager.fdbAddStep_fold k (GoMap.range o₂ (currentHosts hostIPs))
    ((GoMap.range o₁ m.entries).foldl (Manager.removeStep k (currentHosts hostIPs)) (m, []))
    (GoMap.range_nodup o₂ _)
  have hcmd : ((GoMap.range o₁ m.entries).foldl
      (Manager.removeStep k (currentHosts hostIPs)) (m, [])).1.appendCmd = m.appendCmd := by
    funext y; simp only [Manager.appendCmd, r1]
  rw [hcmd] at a2
  have hnolog : ∀ b', (m.appendCmd x, b') ∉ ((GoMap.range o₁ m.entries).foldl
      (Manager.removeStep k (currentHosts hostIPs)) (m, [])).2 := by
    intro b' hmem
    rcases r3 _ hmem with h | ⟨y, hy⟩
    · simp at h
    · exact Manager.appendCmd_ne_delCmd m x y hy
  have hkeys : x ∈ (GoMap.range o₂ (currentHosts hostIPs)).map Prod.fst ↔ x ∈ hostIPs := by
    rw [GoMap.mem_range_keys, mem_currentHosts]
  have hs₁ : x ∈ hostIPs → ((GoMap.range o₁ m.entries).foldl
      (Manager.removeStep k (currentHosts hostIPs)) (m, [])).1.entries.lookup x =
        m.entries.lookup x := by
    intro hx
    rw [r2 x, currentHosts_lookup, if_pos hx]
    simp
  obtain ⟨f1, f2⟩ := a2 x
  refine ⟨a1.trans r1, ?_, ?_, ?_⟩
  · rintro ⟨hx, hT⟩
    have hnone : m.entries.lookup x = none := AList.lookup_eq_none.mpr hT
    obtain ⟨b, hb1, hb2⟩ := f1 ⟨hkeys.mpr hx, (hs₁ hx).trans hnone⟩
    refine ⟨b, hb1, fun b' => ?_⟩
    rw [hb2 b']
    exact or_iff_right (hnolog b')
  · rintro ⟨hx, hT⟩
    have hsome : m.entries.lookup x ≠ none := fun h => (AList.lookup_eq_none.mp h) hT
    obtain ⟨g1, g2⟩ := f2 (fun h => hsome ((hs₁ hx).symm.trans h.2))
    refine ⟨g1.trans (hs₁ hx), fun b' hmem => hnolog b' ((g2 b').mp hmem)⟩
  · intro hx
    obtain ⟨g1, g2⟩ := f2 (fun h => hx (hkeys.mp h.1))
    refine ⟨?_, fun b' hmem => hnolog b' ((g2 b').mp hmem)⟩
    rw [g1, r2 x, currentHosts_lookup, if_neg hx]
    by_cases hT : x ∈ m.entries
    · rw [if_pos ⟨(GoMap.mem_range_keys o₁ _ x).mpr hT, rfl⟩]
    · rw [if_neg (fun h => hT ((GoMap.mem_range_keys o₁ _ x).mp h.1))]
      exact AList.lookup_eq_none.mpr hT

/-- After a call whose commands all succeeded the tracked set is the set of `hostIPs`. -/
theorem Manager.UpdateEntries_ok_mem (k : Kernel) (o₁ o₂ : RangeOrder) (m : Manager)
    (hostIPs : List String)
    (hok : ∀ e ∈ (m.UpdateEntries k o₁ o₂ hostIPs).1.2, e.2 = true) (x : String) :
    x ∈ (m.UpdateEntries k o₁ o₂ hostIPs).1.1.entries ↔ x ∈ hostIPs := by
  obtain ⟨_, c1, c2, c3⟩ := Manager.UpdateEntries_cases k o₁ o₂ m hostIPs x
  rw [← AList.lookup_isSome]
  by_cases hx : x ∈ hostIPs
  · by_cases hT : x ∈ m.entries
    · rw [(c2 ⟨hx, hT⟩).1, AList.lookup_isSome]
      exact iff_of_true hT hx
    · obtain ⟨b, hb1, hb2⟩ := c1 ⟨hx, hT⟩
      have hb : b = true := hok (m.appendCmd x, b) ((hb2 b).mpr rfl)
      rw [hb1, if_pos hb]
      exact iff_of_true rfl hx
  · rw [(c3 hx).1]
    exact iff_of_false (by simp) hx

end fdb

/-! ## Peer table -/

namespace time

/-- Two monotonic readings never differ by more than a `Duration` can hold, so `Sub` is
the exact difference. -/
theorem Sub_exact (t u : Time) : Sub t u = (t.val : Int) - (u.val : Int) := by
  have ht : (t.val : Int) < 9223372036854775808 := by exact_mod_cast t.isLt
  have hu : (u.val : Int) < 9223372036854775808 := by exact_mod_cast u.isLt
  have ht0 : (0 : Int) ≤ (t.val : Int) := Int.ofNat_nonneg _
  have hu0 : (0 : Int) ≤ (u.val : Int) := Int.ofNat_nonneg _
  have h1 : ¬ ((t.val : Int) - (u.val : Int) > maxDuration) := by
    unfold maxDuration; omega
  have h2 : ¬ ((t.val : Int) - (u.val : Int) < minDuration) := by
    unfold minDuration; omega
  show (if (t.val : Int) - (u.val : Int) > maxDuration then maxDuration
    else if (t.val : Int) - (u.val : Int) < minDuration then minDuration
    else (t.val : Int) - (u.val : Int)) = _
  rw [if_neg h1, if_neg h2]

end time

namespace storage

theorem FileStorage.cleanupStep_fold (now : time.Time) (timeout : time.Duration) :
    ∀ (l : List (String × types.Peer)) (fs : FileStorage),
      (l.foldl (FileStorage.cleanupStep now timeout) fs).dataDir = fs.dataDir ∧
      (∀ x p, (x, p) ∈ l → time.Sub now p.LastSeen > timeout →
        (l.foldl (FileStorage.cleanupStep now timeout) fs).peers.lookup x = none) ∧
      (∀ x, (∀ p, (x, p) ∈ l → ¬ time.Sub now p.LastSeen > timeout) →
        (l.foldl (FileStorage.cleanupStep now timeout) fs).peers.lookup x =
          fs.peers.lookup x) := by
  intro l
  induction l with
  | nil =>
    intro fs
    exact ⟨rfl, fun x p h => absurd h (List.not_mem_nil _), fun x _ => rfl⟩
  | cons a t ih =>
    intro fs
    rw [List.foldl_cons]
    obtain ⟨i1, i2, i3⟩ := ih (FileStorage.cleanupStep now timeout fs a)
    have hdir : (FileStorage.cleanupStep now timeout fs a).dataDir = fs.dataDir := by
      unfold FileStorage.cleanupStep
      split_ifs <;> rfl
    have hkeep : ∀ x, (x ≠ a.1 ∨ ¬ time.Sub now a.2.LastSeen > timeout) →
        (FileStorage.cleanupStep now timeout fs a).peers.lookup x = fs.peers.lookup x := by
      intro x hx
      unfold FileStorage.cleanupStep
      split_ifs with hexp
      · rcases hx with hx | hx
        · exact AList.lookup_erase_ne hx
        · exact absurd hexp hx
      · rfl
    have hdrop : time.Sub now a.2.LastSeen > timeout →
        (FileStorage.cleanupStep now timeout fs a).peers.lookup a.1 = none := by
      intro hexp
      unfold FileStorage.cleanupStep
      rw [if_pos hexp]
      exact AList.lookup_erase _ _
    refine ⟨i1.trans hdir, ?_, ?_⟩
    · intro x p hmem hexp
      by_cases hlater : ∃ q, (x, q) ∈ t ∧ time.Sub now q.LastSeen > timeout
      · obtain ⟨q, hq, hqexp⟩ := hlater
        exact i2 x q hq hqexp
      · have hnone : ∀ q, (x, q) ∈ t → ¬ time.Sub now q.LastSeen > timeout :=
          fun q hq hqexp => hlater ⟨q, hq, hqexp⟩
        rw [i3 x hnone]
        rcases List.mem_cons.mp hmem with h | h
        · have hx : x = a.1 := by rw [← h]
          have hp : p = a.2 := by rw [← h]
          subst hx
          exact hdrop (hp ▸ hexp)
        · exact absurd hexp (hnone p h)
    · intro x hall
      rw [i3 x (fun p hp => hall p (List.mem_cons_of_mem a hp))]
      apply hkeep
      by_cases hx : x = a.1
      · right
        apply hall a.2
        rw [hx]
        exact List.mem_cons_self _ _
      · exact Or.inl hx

/-- `CleanupStale` keeps an entry exactly when its age does not exceed the timeout. -/
theorem FileStorage.CleanupStale_lookup (o : RangeOrder) (now : time.Time) (fs : FileStorage)
    (timeout : time.Duration) (x : String) :
    (fs.CleanupStale o now timeout).peers.lookup x =
      (fs.peers.lookup x).filter
        (fun p => decide ((now.val : Int) - (p.LastSeen.val : Int) ≤ timeout)) := by
  obtain ⟨_, h2, h3⟩ := FileStorage.cleanupStep_fold now timeout (GoMap.range o fs.peers) fs
  unfold FileStorage.CleanupStale
  cases hx : fs.peers.lookup x with
  | none =>
    rw [h3 x (fun p hp => ?_), hx]
    · rfl
    · rw [GoMap.mem_range, hx] at hp
      exact absurd hp (by simp)
  | some p =>
    by_cases hexp : time.Sub now p.LastSeen > timeout
    · rw [h2 x p ((GoMap.mem_range o _ x p).mpr hx) hexp]
      rw [time.Sub_exact] at hexp
      simp [Option.filter, not_le.mpr hexp]
    · rw [h3 x (fun q hq => ?_), hx]
      · rw [time.Sub_exact] at hexp
        simp [Option.filter, not_lt.mp hexp]
      · rw [GoMap.mem_range, hx] at hq
        rw [← Option.some.inj hq]
        exact hexp

theorem FileStorage.CleanupStale_dataDir (o : RangeOrder) (now : time.Time)
    (fs : FileStorage) (timeout : time.Duration) :
    (fs.CleanupStale o now timeout).dataDir = fs.dataDir :=
  (FileStorage.cleanupStep_fold now timeout (GoMap.range o fs.peers) fs).1

end storage

namespace multicast

theorem Discovery.handleAnnouncement_table (now : time.Time) (d : Discovery)
    (message : types.MulticastMessage) (addr : UDPAddr) :
    (d.handleAnnouncement now message addr).1.stackID = d.stackID ∧
    (d.handleAnnouncement now message addr).1.storage.peers.lookup message.StackID =
      some { StackID := message.StackID, HostIP := message.HostIP,
             VXLANEndpoint := message.HostIP ++ ":4789", VNI := message.VNI,
             LastSeen := now, Status := types.PeerStatusActive } ∧
    ∀ key, key ≠ message.StackID →
      (d.handleAnnouncement now message addr).1.storage.peers.lookup key =
        d.storage.peers.lookup key := by
  refine ⟨rfl, ?_, fun key hkey => ?_⟩
  · simp [Discovery.handleAnnouncement, storage.FileStorage.AddPeer, AList.lookup_insert]
  · simp [Discovery.handleAnnouncement, storage.FileStorage.AddPeer,
      AList.lookup_insert_ne hkey]

theorem Discovery.handleQuery_state (json : Json) (unix : Int) (d : Discovery)
    (message : types.MulticastMessage) (addr : UDPAddr) :
    (d.handleQuery json unix message addr).1 = d := by
  simp only [Discovery.handleQuery]
  split <;> rfl

/-- `handleMessage` either leaves the daemon as it is or upserts a non-local message. -/
theorem Discovery.handleMessage_cases (json : Json) (now : time.Time) (unix : Int)
    (d : Discovery) (data : List UInt8) (addr : UDPAddr) :
    (d.handleMessage json now unix data addr).1 = d ∨
    ∃ message, json.Unmarshal data = some message ∧
      GoString.ofText message.StackID ≠ d.stackID ∧
      (message.Type_ = types.MessageTypeAnnounce ∨
        message.Type_ = types.MessageTypeResponse) ∧
      (d.handleMessage json now unix data addr).1 =
        (d.handleAnnouncement now message addr).1 := by
  unfold Discovery.handleMessage
  cases hm : json.Unmarshal data with
  | none => exact Or.inl rfl
  | some message =>
    dsimp only
    by_cases hself : GoString.ofText message.StackID = d.stackID
    · left; rw [if_pos hself]
    · by_cases ha : message.Type_ = types.MessageTypeAnnounce
      · right
        refine ⟨message, rfl, hself, Or.inl ha, ?_⟩
        rw [if_neg hself, if_pos ha]
      · by_cases hq : message.Type_ = types.MessageTypeQuery
        · left
          rw [if_neg hself, if_neg ha, if_pos hq]
          exact Discovery.handleQuery_state json unix d message addr
        · by_cases hr : message.Type_ = types.MessageTypeResponse
          · right
            refine ⟨message, rfl, hself, Or.inr hr, ?_⟩
            rw [if_neg hself, if_neg ha, if_neg hq, if_pos hr]
            rfl
          · left
            rw [if_neg hself, if_neg ha, if_neg hq, if_neg hr]

theorem Discovery.step_noSelf (json : Json) (d : Discovery) (e : Event) (h : d.noSelf) :
    (d.step json e).1.stackID = d.stackID ∧ (d.step json e).1.noSelf := by
  cases e with
  | datagram data addr now unix =>
    simp only [Discovery.step]
    rcases Discovery.handleMessage_cases json now unix d data addr with h0 | ⟨m, _, hself, _, h1⟩
    · rw [h0]; exact ⟨rfl, h⟩
    · rw [h1]
      obtain ⟨a1, a2, a3⟩ := Discovery.handleAnnouncement_table now d m addr
      refine ⟨a1, fun key p hl => ?_⟩
      rw [a1]
      by_cases hkey : key = m.StackID
      · subst hkey
        rw [a2] at hl
        rw [← Option.some.inj hl]
        exact ⟨hself, hself⟩
      · rw [a3 key hkey] at hl
        exact h key p hl
  | cleanupTick o now =>
    refine ⟨rfl, fun key p hl => ?_⟩
    simp only [Discovery.step, storage.FileStorage.CleanupStale_lookup] at hl
    obtain ⟨hp, _⟩ := Option.filter_eq_some.mp hl
    exact h key p hp

theorem Discovery.run_noSelf (json : Json) (events : List Event) :
    ∀ d : Discovery, d.noSelf →
      (d.run json events).stackID = d.stackID ∧ (d.run json events).noSelf := by
  induction events with
  | nil => intro d h; exact ⟨rfl, h⟩
  | cons e t ih =>
    intro d h
    obtain ⟨s1, s2⟩ := Discovery.step_noSelf json d e h
    obtain ⟨r1, r2⟩ := ih _ s2
    simp only [Discovery.run, List.foldl_cons] at r1 r2 ⊢
    exact ⟨r1.trans s1, r2⟩

end multicast

/-! ## Router callback: lemmas -/

namespace routing

theorem Manager.planStep_unmapped (m : Manager) (acc : GoMap String) (q : discovery.Peer)
    (hq : q.StackID ∉ m.config.StackMappings) : m.planStep acc q = acc := by
  unfold Manager.planStep config.Config.GetStackConfig
  rw [AList.lookup_eq_none.mpr hq]
  split <;> rfl

theorem Manager.removeStep_fold_log (k : Kernel) (new : GoMap String) :
    ∀ (l : List (String × String)) (s : Manager × Log),
      ∀ e ∈ (l.foldl (Manager.removeStep k new) s).2, e ∈ s.2 ∨ ∃ y, e.1 = s.1.delCmd y := by
  intro l
  induction l with
  | nil => intro s e he; exact Or.inl he
  | cons a t ih =>
    intro s e he
    rw [List.foldl_cons] at he
    rcases ih _ e he with h | ⟨y, hy⟩
    · cases hnew : new.lookup a.1 with
      | none =>
        simp only [Manager.removeStep, hnew, Manager.removeRouteUnsafe, List.mem_append,
          List.mem_singleton] at h
        rcases h with h | h
        · exact Or.inl h
        · exact Or.inr ⟨a.1, by rw [h]⟩
      | some v =>
        simp only [Manager.removeStep, hnew] at h
        exact Or.inl h
    · right
      refine ⟨y, ?_⟩
      rw [hy]
      cases hnew : new.lookup a.1 with
      | none => simp [Manager.removeStep, hnew, Manager.removeRouteUnsafe, Manager.delCmd]
      | some v => simp [Manager.removeStep, hnew]

theorem Manager.addCmd_ne_delCmd (m : Manager) (s h y : String) :
    m.addCmd s h ≠ m.delCmd y := by
  simp [Manager.addCmd, Manager.delCmd]

end routing

namespace fdb

theorem Manager.fdbAddStep_log_sub (k : Kernel) (s : Manager × Log) (kv : String × Bool) :
    s.2 ⊆ (Manager.addStep k s kv).2 := by
  cases hl : s.1.entries.lookup kv.1 with
  | none =>
    obtain ⟨b, hlog, _⟩ := Manager.fdbAddStep_fresh k s kv hl
    rw [hlog]
    exact List.subset_append_left _ _
  | some v =>
    rw [Manager.fdbAddStep_tracked k s kv (by rw [hl]; simp)]
    exact fun _ h => h

theorem Manager.fdbAddStep_fold_log_sub (k : Kernel) :
    ∀ (l : List (String × Bool)) (s : Manager × Log),
      s.2 ⊆ (l.foldl (Manager.addStep k) s).2 := by
  intro l
  induction l with
  | nil => intro s; exact fun _ h => h
  | cons a t ih =>
    intro s
    rw [List.foldl_cons]
    exact fun e he => ih _ (Manager.fdbAddStep_log_sub k s a he)

/-- The add loop over untracked, pairwise distinct hosts, every append succeeding: one
append per host, in iteration order. -/
theorem Manager.fdbAddStep_fold_trace (k : Kernel) :
    ∀ (l : List (String × Bool)) (s : Manager × Log), (l.map Prod.fst).Nodup →
      (∀ kv ∈ l, s.1.entries.lookup kv.1 = none) →
      (∀ e ∈ (l.foldl (Manager.addStep k) s).2, e.2 = true) →
      (l.foldl (Manager.addStep k) s).2 =
        s.2 ++ l.map (fun kv => (s.1.appendCmd kv.1, true)) := by
  intro l
  induction l with
  | nil => intro s _ _ _; simp
  | cons a t ih =>
    intro s hnd hfresh hok
    rw [List.map_cons, List.nodup_cons] at hnd
    rw [List.foldl_cons] at hok ⊢
    obtain ⟨b, hlog, hifn, _, hother⟩ :=
      Manager.fdbAddStep_fresh k s a (hfresh a (List.mem_cons_self a t))
    have hb : b = true := by
      have hmem : (s.1.appendCmd a.1, b) ∈ (Manager.addStep k s a).2 := by
        rw [hlog]; simp
      exact hok _ (Manager.fdbAddStep_fold_log_sub k t _ hmem)
    have hcmd : (Manager.addStep k s a).1.appendCmd = s.1.appendCmd := by
      funext y; simp only [Manager.appendCmd, hifn]
    have hfresh' : ∀ kv ∈ t, (Manager.addStep k s a).1.entries.lookup kv.1 = none := by
      intro kv hkv
      have hne : kv.1 ≠ a.1 := fun h => hnd.1 (h ▸ List.mem_map_of_mem Prod.fst hkv)
      rw [hother kv.1 hne]
      exact hfresh kv (List.mem_cons_of_mem a hkv)
    rw [ih _ hnd.2 hfresh' hok, hlog, hcmd, hb]
    simp

theorem currentHosts_keys_perm (hostIPs : List String) :
    (currentHosts hostIPs).keys.Perm hostIPs.dedup := by
  apply (List.perm_ext_iff_of_nodup (currentHosts hostIPs).keys_nodup
    (List.nodup_dedup hostIPs)).mpr
  intro x
  rw [← AList.mem_keys, mem_currentHosts, List.mem_dedup]

end fdb

theorem GoMap.range_empty {V : Type} (o : RangeOrder) : GoMap.range o (∅ : GoMap V) = [] := by
  have := GoMap.range_keys o (∅ : GoMap V)
  rw [AList.keys_empty, List.Perm.eq_nil (o.isPerm [])] at this
  exact List.map_eq_nil_iff.mp this

namespace routing

/-- The add loop over untracked, pairwise distinct subnets, every add succeeding: one add
per subnet, in iteration order. -/
theorem Manager.addStep_fold_trace (k : Kernel) :
    ∀ (l : List (String × String)) (s : Manager × Log), (l.map Prod.fst).Nodup →
      (∀ kv ∈ l, s.1.routes.lookup kv.1 = none) →
      (∀ e ∈ (l.foldl (Manager.addStep k) s).2, e.2 = true) →
      (l.foldl (Manager.addStep k) s).2 =
        s.2 ++ l.map (fun kv => (s.1.addCmd kv.1 kv.2, true)) := by
  intro l
  induction l with
  | nil => intro s _ _ _; simp
  | cons a t ih =>
    intro s hnd hfresh hok
    rw [List.map_cons, List.nodup_cons] at hnd
    rw [List.foldl_cons] at hok ⊢
    have hl := hfresh a (List.mem_cons_self a t)
    have hstep : Manager.addStep k s a = (Manager.addRouteUnsafe k s a.1 a.2).1 := by
      simp [Manager.addStep, hl]
    have hk : k s.2 (s.1.addCmd a.1 a.2) = true := by
      by_contra hk
      have hmem : (s.1.addCmd a.1 a.2, false) ∈ (Manager.addStep k s a).2 := by
        rw [hstep]; simp [Manager.addRouteUnsafe, hk]
      have := hok _ (Manager.addStep_fold_log k t _ hmem)
      simp at this
    have hs' : Manager.addStep k s a =
        ({ s.1 with routes := s.1.routes.insert a.1 a.2 }, s.2 ++ [(s.1.addCmd a.1 a.2, true)]) := by
      rw [hstep]; simp [Manager.addRouteUnsafe, hk]
    rw [hs'] at hok ⊢
    have hfresh' : ∀ kv ∈ t,
        ({ s.1 with routes := s.1.routes.insert a.1 a.2 } : Manager).routes.lookup kv.1 = none := by
      intro kv hkv
      have hne : kv.1 ≠ a.1 := fun h => hnd.1 (h ▸ List.mem_map_of_mem Prod.fst hkv)
      show (s.1.routes.insert a.1 a.2).lookup kv.1 = none
      rw [AList.lookup_insert_ne hne]
      exact hfresh kv (List.mem_cons_of_mem a hkv)
    rw [ih _ hnd.2 hfresh' hok]
    simp [Manager.addCmd]

theorem Manager.planStep_mem (m : Manager) (acc : GoMap String) (p : discovery.Peer)
    (x : String) (hx : x ∈ acc) : x ∈ m.planStep acc p := by
  rcases Manager.planStep_lookup m acc p x with h | ⟨_, sc, _, _, h⟩
  · rw [← AList.lookup_isSome, h, AList.lookup_isSome]; exact hx
  · rw [← AList.lookup_isSome, h]; rfl

theorem Manager.newRoutes_mem (m : Manager) :
    ∀ (l : List discovery.Peer) (acc : GoMap String) (x : String),
      (x ∈ acc ∨ ∃ p ∈ l, p.StackID ≠ m.config.StackID ∧
        ∃ sc, m.config.StackMappings.lookup p.StackID = some sc ∧ sc.ContainerSubnet = x) →
      x ∈ l.foldl m.planStep acc := by
  intro l
  induction l with
  | nil =>
    intro acc x h
    rcases h with h | ⟨p, hp, _⟩
    · exact h
    · exact absurd hp (List.not_mem_nil p)
  | cons p t ih =>
    intro acc x h
    rw [List.foldl_cons]
    apply ih
    rcases h with h | ⟨q, hq, hself, sc, hsc, hsub⟩
    · exact Or.inl (Manager.planStep_mem m acc p x h)
    · rcases List.mem_cons.mp hq with hqp | hqt
      · subst hqp
        left
        rw [← AList.lookup_isSome, ← hsub, Manager.planStep_hit m acc q sc hself hsc]
        rfl
      · exact Or.inr ⟨q, hqt, hself, sc, hsc, hsub⟩

end routing

/-! ## UTF-8: lemmas -/

namespace utf8

theorem encodeChar_length_pos (c : Char) : 0 < (encodeChar c).length := by
  unfold encodeChar
  simp only
  split_ifs <;> simp

theorem encodeChar_length_le (c : Char) : (encodeChar c).length ≤ 4 := by
  unfold encodeChar
  simp only
  split_ifs <;> simp

theorem encodeChar_length_ascii (c : Char) (h : c.toNat < 128) : (encodeChar c).length = 1 := by
  unfold encodeChar
  simp [h]

theorem char_range (c : Char) : c.toNat < 55296 ∨ (57343 < c.toNat ∧ c.toNat < 1114112) := by
  have h := c.valid
  simp only [UInt32.isValidChar, Nat.isValidChar] at h
  exact h

theorem decodeChar_encodeChar (c : Char) (rest : List UInt8) :
    decodeChar (encodeChar c ++ rest) = some (c, rest) := by
  have hr := char_range c
  have hsz : UInt8.size = 256 := rfl
  unfold encodeChar
  simp only
  split_ifs with h1 h2 h3
  · have e0 : (UInt8.ofNat c.toNat).toNat = c.toNat :=
      UInt8.toNat_ofNat_of_lt (by omega)
    simp only [List.singleton_append, decodeChar, e0, h1, if_true, Char.ofNat_toNat]
  · have e0 : (UInt8.ofNat (192 + c.toNat / 64)).toNat = 192 + c.toNat / 64 :=
      UInt8.toNat_ofNat_of_lt (by omega)
    have e1 : (UInt8.ofNat (128 + c.toNat % 64)).toNat = 128 + c.toNat % 64 :=
      UInt8.toNat_ofNat_of_lt (by omega)
    have hv : c.toNat / 64 * 64 + c.toNat % 64 = c.toNat := by omega
    have c0 : ¬ (192 + c.toNat / 64 < 128) := by omega
    have c1 : ¬ (192 + c.toNat / 64 < 192) := by omega
    have c2 : 192 + c.toNat / 64 < 224 := by omega
    have k1 : isCont (UInt8.ofNat (128 + c.toNat % 64)) = true := by
      simp only [isCont, e1, Bool.and_eq_true, decide_eq_true_eq]; omega
    have k2 : 128 ≤ c.toNat := by omega
    simp [decodeChar, e0, e1, c0, c1, c2, hv, k1, k2]
  · have e0 : (UInt8.ofNat (224 + c.toNat / 4096)).toNat = 224 + c.toNat / 4096 :=
      UInt8.toNat_ofNat_of_lt (by omega)
    have e1 : (UInt8.ofNat (128 + c.toNat / 64 % 64)).toNat = 128 + c.toNat / 64 % 64 :=
      UInt8.toNat_ofNat_of_lt (by omega)
    have e2 : (UInt8.ofNat (128 + c.toNat % 64)).toNat = 128 + c.toNat % 64 :=
      UInt8.toNat_ofNat_of_lt (by omega)
    have hv : c.toNat / 4096 * 4096 + c.toNat / 64 % 64 * 64 + c.toNat % 64 = c.toNat := by
      omega
    have c0 : ¬ (224 + c.toNat / 4096 < 128) := by omega
    have c1 : ¬ (224 + c.toNat / 4096 < 192) := by omega
    have c2 : ¬ (224 + c.toNat / 4096 < 224) := by omega
    have c3 : 224 + c.toNat / 4096 < 240 := by omega
    have k1 : isCont (UInt8.ofNat (128 + c.toNat / 64 % 64)) = true := by
      simp only [isCont, e1, Bool.and_eq_true, decide_eq_true_eq]; omega
    have k2 : isCont (UInt8.ofNat (128 + c.toNat % 64)) = true := by
      simp only [isCont, e2, Bool.and_eq_true, decide_eq_true_eq]; omega
    have k3 : 2048 ≤ c.toNat := by omega
    have k4 : ¬ (55296 ≤ c.toNat ∧ c.toNat < 57344) := by omega
    simp [decodeChar, e0, e1, e2, c0, c1, c2, c3, hv, k1, k2, k3, k4]
  · have e0 : (UInt8.ofNat (240 + c.toNat / 262144)).toNat = 240 + c.toNat / 262144 :=
      UInt8.toNat_ofNat_of_lt (by omega)
    have e1 : (UInt8.ofNat (128 + c.toNat / 4096 % 64)).toNat = 128 + c.toNat / 4096 % 64 :=
      UInt8.toNat_ofNat_of_lt (by omega)
    have e2 : (UInt8.ofNat (128 + c.toNat / 64 % 64)).toNat = 128 + c.toNat / 64 % 64 :=
      UInt8.toNat_ofNat_of_lt (by omega)
    have e3 : (UInt8.ofNat (128 + c.toNat % 64)).toNat = 128 + c.toNat % 64 :=
      UInt8.toNat_ofNat_of_lt (by omega)
    have hv : c.toNat / 262144 * 262144 + c.toNat / 4096 % 64 * 4096 +
        c.toNat / 64 % 64 * 64 + c.toNat % 64 = c.toNat := by omega
    have c0 : ¬ (240 + c.toNat / 262144 < 128) := by omega
    have c1 : ¬ (240 + c.toNat / 262144 < 192) := by omega
    have c2 : ¬ (240 + c.toNat / 262144 < 224) := by omega
    have c3 : ¬ (240 + c.toNat / 262144 < 240) := by omega
    have c4 : 240 + c.toNat / 262144 < 248 := by omega
    have k1 : isCont (UInt8.ofNat (128 + c.toNat / 4096 % 64)) = true := by
      simp only [isCont, e1, Bool.and_eq_true, decide_eq_true_eq]; omega
    have k2 : isCont (UInt8.ofNat (128 + c.toNat / 64 % 64)) = true := by
      simp only [isCont, e2, Bool.and_eq_true, decide_eq_true_eq]; omega
    have k3 : isCont (UInt8.ofNat (128 + c.toNat % 64)) = true := by
      simp only [isCont, e3, Bool.and_eq_true, decide_eq_true_eq]; omega
    have k4 : 65536 ≤ c.toNat := by omega
    have k5 : c.toNat < 1114112 := by omega
    simp [decodeChar, e0, e1, e2, e3, c0, c1, c2, c3, c4, hv, k1, k2, k3, k4, k5]

theorem decodeFuel_encode (cs : List Char) :
    ∀ fuel, (encode cs).length ≤ fuel → decodeFuel fuel (encode cs) = cs := by
  induction cs with
  | nil => intro fuel _; cases fuel <;> rfl
  | cons c t ih =>
    intro fuel hfuel
    have henc : encode (c :: t) = encodeChar c ++ encode t := by
      simp [encode, List.flatMap_cons]
    rw [henc] at hfuel ⊢
    have hpos := encodeChar_length_pos c
    rw [List.length_append] at hfuel
    cases fuel with
    | zero => omega
    | succ n =>
      have hne : encodeChar c ++ encode t ≠ [] := by
        intro h
        have := congrArg List.length h
        rw [List.length_append, List.length_nil] at this
        omega
      obtain ⟨b, rest, hbr⟩ := List.exists_cons_of_ne_nil hne
      have hdec := decodeChar_encodeChar c (encode t)
      rw [hbr] at hdec ⊢
      rw [decodeFuel, hdec]
      simp only
      rw [ih n (by omega)]

/-- Decoding inverts encoding. -/
theorem decode_encode (cs : List Char) : decode (encode cs) = cs :=
  decodeFuel_encode cs _ (le_refl _)

end utf8

/-! ## JSON text: numbers and strings -/

namespace json

theorem isDigit_digitChar (d : Nat) (h : d < 10) :
    isDigit (digitChar d) = true ∧ (digitChar d).toNat - 48 = d := by
  interval_cases d <;> decide

theorem parseDigits_renderNatFuel :
    ∀ (fuel n : Nat), n ≤ fuel → ∃ p, ∀ acc rest,
      parseDigits acc (renderNatFuel fuel n ++ rest) = parseDigits (acc * p + n) rest := by
  intro fuel
  induction fuel with
  | zero =>
    intro n hn
    have hn0 : n = 0 := by omega
    subst hn0
    refine ⟨10, fun acc rest => ?_⟩
    obtain ⟨h1, h2⟩ := isDigit_digitChar 0 (by omega)
    simp only [renderNatFuel, Nat.zero_mod, List.singleton_append, parseDigits, h1, h2,
      if_true]
    rfl
  | succ f ih =>
    intro n hn
    by_cases hlt : n < 10
    · refine ⟨10, fun acc rest => ?_⟩
      obtain ⟨h1, h2⟩ := isDigit_digitChar n hlt
      simp only [renderNatFuel, hlt, if_true, List.singleton_append, parseDigits, h1, h2]
    · obtain ⟨p, hp⟩ := ih (n / 10) (by omega)
      refine ⟨p * 10, fun acc rest => ?_⟩
      obtain ⟨h1, h2⟩ := isDigit_digitChar (n % 10) (Nat.mod_lt _ (by omega))
      simp only [renderNatFuel, hlt, if_false, List.append_assoc, hp, List.singleton_append,
        parseDigits, h1, h2, if_true]
      congr 1
      have := Nat.div_add_mod n 10
      calc (acc * p + n / 10) * 10 + n % 10
          = acc * (p * 10) + (10 * (n / 10) + n % 10) := by ring
        _ = acc * (p * 10) + n := by rw [this]

theorem renderNatFuel_head (fuel n : Nat) :
    ∃ c t, renderNatFuel fuel n = c :: t ∧ isDigit c = true := by
  induction fuel generalizing n with
  | zero =>
    exact ⟨_, [], rfl, (isDigit_digitChar (n % 10) (Nat.mod_lt _ (by omega))).1⟩
  | succ f ih =>
    by_cases hlt : n < 10
    · exact ⟨_, [], by simp [renderNatFuel, hlt], (isDigit_digitChar n hlt).1⟩
    · obtain ⟨c, t, hct, hc⟩ := ih (n / 10)
      exact ⟨c, t ++ [digitChar (n % 10)], by simp [renderNatFuel, hlt, hct], hc⟩

theorem parseDigits_end (acc : Nat) (rest : List Char) (h : endsNumber rest = true) :
    parseDigits acc rest = (acc, rest) := by
  cases rest with
  | nil => rfl
  | cons c cs =>
    simp only [endsNumber, Bool.and_eq_true, Bool.not_eq_true'] at h
    simp [parseDigits, h.1]

theorem endsNumber_continues (rest : List Char) (h : endsNumber rest = true) :
    continuesNumber rest = false := by
  cases rest with
  | nil => rfl
  | cons c cs =>
    simp only [endsNumber, Bool.and_eq_true, Bool.not_eq_true'] at h
    exact h.2

theorem parseNat_renderNat (n : Nat) (rest : List Char) (h : endsNumber rest = true) :
    parseNat (renderNat n ++ rest) = some (n, rest) := by
  obtain ⟨c, t, hct, hc⟩ := renderNatFuel_head n n
  obtain ⟨p, hp⟩ := parseDigits_renderNatFuel n n (le_refl n)
  have h0 := hp 0 rest
  rw [parseDigits_end _ _ h] at h0
  simp only [Nat.zero_mul, Nat.zero_add] at h0
  unfold renderNat at *
  rw [hct] at h0 ⊢
  have hstep : parseDigits 0 (c :: t ++ rest) = parseDigits (c.toNat - 48) (t ++ rest) := by
    simp [parseDigits, hc]
  rw [hstep] at h0
  simp only [List.cons_append, parseNat, hc, if_true, h0, endsNumber_continues rest h]
  rfl

theorem renderNat_head_ne_minus (n : Nat) :
    ∃ c t, renderNat n = c :: t ∧ c ≠ cMinus := by
  obtain ⟨c, t, hct, hc⟩ := renderNatFuel_head n n
  refine ⟨c, t, hct, ?_⟩
  intro h
  rw [h] at hc
  revert hc
  decide

theorem parseInt_renderInt (i : Int) (rest : List Char) (h : endsNumber rest = true) :
    parseInt (renderInt i ++ rest) = some (i, rest) := by
  unfold renderInt
  by_cases hneg : i < 0
  · simp only [hneg, if_true, List.cons_append, parseInt, parseNat_renderNat _ _ h,
      Option.map_some']
    congr 2
    omega
  · obtain ⟨c, t, hct, hc⟩ := renderNat_head_ne_minus i.toNat
    have hp := parseNat_renderNat i.toNat rest h
    simp only [hneg, if_false]
    rw [hct] at hp ⊢
    simp only [List.cons_append, parseInt, hc, if_false] at hp ⊢
    rw [hp]
    simp only [Option.map_some']
    congr 2
    omega

theorem hexVal_hexDigit (d : Nat) (h : d < 16) : hexVal (hexDigit d) = some d := by
  interval_cases d <;> decide

theorem parseStrBody_plain (c : Char) (acc rest : List Char) (h1 : c ≠ cQuote)
    (h2 : c ≠ cBackslash) (h3 : ¬ c.toNat < 32) :
    parseStrBody acc (c :: rest) = parseStrBody (c :: acc) rest := by
  rw [parseStrBody.eq_def]
  simp only [h1, h2, h3, if_false]

theorem parseStrBody_close (acc rest : List Char) :
    parseStrBody acc (cQuote :: rest) = some (acc.reverse, rest) := by
  rw [parseStrBody.eq_def]
  simp only [if_true]

theorem parseStrBody_esc2 (e x : Char) (acc rest : List Char) (hu : e ≠ Char.ofNat 117)
    (hx : unescape e = some x) :
    parseStrBody acc (cBackslash :: e :: rest) = parseStrBody (x :: acc) rest := by
  have hbq : cBackslash ≠ cQuote := by decide
  rw [parseStrBody.eq_def]
  simp only [hbq, hu, hx, if_false, if_true]

theorem parseStrBody_esc6 (a b c d : Nat) (acc rest : List Char) (ha : a < 16) (hb : b < 16)
    (hc : c < 16) (hd : d < 16) :
    parseStrBody acc (cBackslash :: Char.ofNat 117 :: hexDigit a :: hexDigit b ::
      hexDigit c :: hexDigit d :: rest) =
      parseStrBody (unicodeChar (a * 4096 + b * 256 + c * 16 + d) :: acc) rest := by
  have hbq : cBackslash ≠ cQuote := by decide
  rw [parseStrBody.eq_def]
  simp only [hbq, if_false, if_true, hexVal_hexDigit a ha, hexVal_hexDigit b hb,
    hexVal_hexDigit c hc, hexVal_hexDigit d hd]

theorem parseStrBody_escapeChar (c : Char) (acc rest : List Char) :
    parseStrBody acc (escapeChar c ++ rest) = parseStrBody (c :: acc) rest := by
  unfold escapeChar
  split_ifs with h1 h2 h3 h4 h5 h6
  · subst h1
    exact parseStrBody_esc2 _ _ acc rest (by decide) (by decide)
  · subst h2
    exact parseStrBody_esc2 _ _ acc rest (by decide) (by decide)
  · subst h3
    exact parseStrBody_esc2 _ _ acc rest (by decide) (by decide)
  · subst h4
    exact parseStrBody_esc2 _ _ acc rest (by decide) (by decide)
  · subst h5
    exact parseStrBody_esc2 _ _ acc rest (by decide) (by decide)
  · have hlt : c.toNat < 8234 := by
      simp only [needsUnicodeEscape, Bool.or_eq_true, decide_eq_true_eq] at h6
      rcases h6 with ((((h | h) | h) | h) | h) | h
      · omega
      all_goals (rw [h]; decide)
    have hv : c.toNat / 4096 * 4096 + c.toNat / 256 % 16 * 256 + c.toNat / 16 % 16 * 16 +
        c.toNat % 16 = c.toNat := by omega
    have hu : unicodeChar c.toNat = c := by
      unfold unicodeChar
      rw [if_neg (by omega)]
      exact Char.ofNat_toNat c
    have := parseStrBody_esc6 (c.toNat / 4096) (c.toNat / 256 % 16) (c.toNat / 16 % 16)
      (c.toNat % 16) acc rest (by omega) (Nat.mod_lt _ (by omega)) (Nat.mod_lt _ (by omega))
      (Nat.mod_lt _ (by omega))
    rw [hv, hu] at this
    exact this
  · have hge : ¬ c.toNat < 32 := by
      simp only [needsUnicodeEscape, Bool.or_eq_true, decide_eq_true_eq, not_or] at h6
      exact h6.1.1.1.1.1
    exact parseStrBody_plain c acc rest h1 h2 hge

theorem parseStrBody_escape (cs acc rest : List Char) :
    parseStrBody acc (cs.flatMap escapeChar ++ cQuote :: rest) =
      some (acc.reverse ++ cs, rest) := by
  induction cs generalizing acc with
  | nil => simp [parseStrBody_close]
  | cons c t ih =>
    rw [List.flatMap_cons, List.append_assoc, parseStrBody_escapeChar, ih]
    simp

/-- A string literal reads back as the string. -/
theorem parseString_quote (s : String) (rest : List Char) :
    parseString (quote s ++ rest) = some (s, rest) := by
  unfold quote escape
  simp only [List.cons_append, List.append_assoc, List.singleton_append, parseString, if_true,
    parseStrBody_escape, List.reverse_nil, List.nil_append, Option.map_some']

end json

/-! ## JSON text: documents -/

namespace json

theorem skipWs_cons_nonws (c : Char) (t : List Char) (h : isWs c = false) :
    skipWs (c :: t) = c :: t := by
  simp [skipWs, h]

theorem skipWs_headNonWs (l : List Char) (h : HeadNonWs l) : skipWs l = l := by
  obtain ⟨c, t, rfl, hc⟩ := h
  exact skipWs_cons_nonws c t hc

theorem skipWs_ws_append (w rest : List Char) (hw : Ws w) : skipWs (w ++ rest) = skipWs rest := by
  induction w with
  | nil => rfl
  | cons c t ih =>
    have hc : isWs c = true := hw c (List.mem_cons_self c t)
    simp only [List.cons_append, skipWs, hc, if_true]
    exact ih (fun x hx => hw x (List.mem_cons_of_mem c hx))

theorem headNonWs_append (l rest : List Char) (h : HeadNonWs l) : HeadNonWs (l ++ rest) := by
  obtain ⟨c, t, rfl, hc⟩ := h
  exact ⟨c, t ++ rest, rfl, hc⟩

theorem ws_newline (depth : Nat) : Ws (newline depth) := by
  intro c hc
  simp only [newline, List.mem_cons, List.mem_replicate] at hc
  rcases hc with h | ⟨_, h⟩ <;> (rw [h]; decide)

theorem ws_nil : Ws [] := fun _ h => absurd h (List.not_mem_nil _)

theorem ws_space : Ws [cSpace] := by
  intro c hc
  rw [List.mem_singleton] at hc
  rw [hc]; decide

theorem endsNumber_ws (c : Char) (t : List Char) (h : isWs c = true) :
    endsNumber (c :: t) = true := by
  simp only [isWs, Bool.or_eq_true, decide_eq_true_eq] at h
  rcases h with ((h | h) | h) | h <;> (subst h; simp [endsNumber, continuesNumber]; decide)

theorem endsNumber_ws_append (w : List Char) (c : Char) (t : List Char) (hw : Ws w)
    (h : endsNumber (c :: t) = true) : endsNumber (w ++ c :: t) = true := by
  cases w with
  | nil => exact h
  | cons x xs => exact endsNumber_ws x _ (hw x (List.mem_cons_self x xs))

theorem endsNumber_comma (t : List Char) : endsNumber (cComma :: t) = true := by
  simp [endsNumber, continuesNumber]; decide

theorem endsNumber_rbrace (t : List Char) : endsNumber (cRBrace :: t) = true := by
  simp [endsNumber, continuesNumber]; decide

theorem endsNumber_rbracket (t : List Char) : endsNumber (cRBracket :: t) = true := by
  simp [endsNumber, continuesNumber]; decide

theorem stripLit_append (lit rest : List Char) : stripLit lit (lit ++ rest) = some rest := by
  induction lit with
  | nil => cases rest <;> rfl
  | cons l ls ih => simp [stripLit, ih]

theorem renderInt_head (i : Int) :
    ∃ c t, renderInt i = c :: t ∧ (isDigit c = true ∨ c = cMinus) := by
  unfold renderInt
  split_ifs
  · exact ⟨cMinus, _, rfl, Or.inr rfl⟩
  · obtain ⟨c, t, hct, hc⟩ := renderNatFuel_head i.toNat i.toNat
    exact ⟨c, t, hct, Or.inl hc⟩

theorem isDigit_facts (c : Char) (h : isDigit c = true ∨ c = cMinus) :
    c ≠ cQuote ∧ c ≠ Char.ofNat 110 ∧ c ≠ Char.ofNat 116 ∧ c ≠ Char.ofNat 102 ∧
      c ≠ cLBracket ∧ isWs c = false := by
  rcases h with h | h
  · simp only [isDigit, Bool.and_eq_true, decide_eq_true_eq] at h
    have hne : ∀ x : Char, (x.toNat < 48 ∨ 57 < x.toNat) → c ≠ x := by
      intro x hx hcx
      rw [hcx] at h
      omega
    refine ⟨hne _ (by decide), hne _ (by decide), hne _ (by decide), hne _ (by decide),
      hne _ (by decide), ?_⟩
    simp only [isWs, Bool.or_eq_false_iff, decide_eq_false_iff_not]
    exact ⟨⟨⟨hne _ (by decide), hne _ (by decide)⟩, hne _ (by decide)⟩, hne _ (by decide)⟩
  · subst h
    decide

theorem renderScalar_head (s : Scalar) :
    ∃ c t, renderScalar s = c :: t ∧ isWs c = false ∧ c ≠ cLBracket := by
  cases s with
  | null => exact ⟨_, _, rfl, by decide, by decide⟩
  | bool b => cases b <;> exact ⟨_, _, rfl, by decide, by decide⟩
  | num n =>
    obtain ⟨c, t, hct, hc⟩ := renderInt_head n
    obtain ⟨_, _, _, _, h5, h6⟩ := isDigit_facts c hc
    exact ⟨c, t, hct, h6, h5⟩
  | str s => exact ⟨cQuote, _, rfl, by decide, by decide⟩

/-- A scalar reads back, whatever follows it that cannot continue a number. -/
theorem parseScalar_render (s : Scalar) (rest : List Char) (h : endsNumber rest = true) :
    parseScalar (renderScalar s ++ rest) = some (s, rest) := by
  cases s with
  | null =>
    have h1 := stripLit_append litNull rest
    simp only [renderScalar, litNull, List.cons_append, List.nil_append, parseScalar,
      if_true] at h1 ⊢
    rw [h1]
    rfl
  | bool b =>
    cases b with
    | true =>
      have h1 := stripLit_append litTrue rest
      simp only [renderScalar, litTrue, List.cons_append, List.nil_append, parseScalar,
        if_true] at h1 ⊢
      rw [h1]
      rfl
    | false =>
      have h1 := stripLit_append litFalse rest
      simp only [renderScalar, litFalse, List.cons_append, List.nil_append, parseScalar,
        if_true] at h1 ⊢
      rw [h1]
      rfl
  | num n =>
    obtain ⟨c, t, hct, hc⟩ := renderInt_head n
    obtain ⟨h1, h2, h3, h4, _, _⟩ := isDigit_facts c hc
    have hp := parseInt_renderInt n rest h
    simp only [renderScalar] at hp ⊢
    rw [hct] at hp ⊢
    simp only [List.cons_append, parseScalar, h1, h2, h3, h4, if_false] at hp ⊢
    rw [hp]
    rfl
  | str s =>
    have hp := parseString_quote s rest
    simp only [renderScalar, quote, List.cons_append, parseScalar, if_true] at hp ⊢
    rw [hp]
    rfl

theorem quote_headNonWs (k : String) (rest : List Char) : HeadNonWs (quote k ++ rest) :=
  ⟨cQuote, _, rfl, by decide⟩

/-- The members of a non-empty object read back. -/
theorem parseMembers_render {α : Type} (pv : List Char → Option (α × List Char))
    (rv : α → List Char) (colon sep cls : List Char) (hcolon : Ws colon) (hsep : Ws sep)
    (hcls : Ws cls) :
    ∀ (ms : List (String × α)) (fuel : Nat) (rest : List Char), ms ≠ [] → ms.length ≤ fuel →
      (∀ kv ∈ ms, HeadNonWs (rv kv.2)) →
      (∀ kv ∈ ms, ∀ rest', endsNumber rest' = true → pv (rv kv.2 ++ rest') = some (kv.2, rest')) →
      parseMembers pv fuel (renderMembers colon sep rv ms ++ (cls ++ cRBrace :: rest)) =
        some (ms, rest) := by
  intro ms
  induction ms with
  | nil => intro fuel rest hne; exact absurd rfl hne
  | cons kv t ih =>
    intro fuel rest _ hfuel hhead hpv
    cases fuel with
    | zero => simp at hfuel
    | succ f =>
      have hkv := List.mem_cons_self kv t
      -- the text after the value
      have step : ∀ (after : List Char), endsNumber after = true →
          parseMembers pv (f + 1) (quote kv.1 ++ cColon :: (colon ++ (rv kv.2 ++ after))) =
            match skipWs after with
            | [] => none
            | c' :: r4 =>
              if c' = cComma then
                (parseMembers pv f (skipWs r4)).map (fun r => (kv :: r.1, r.2))
              else if c' = cRBrace then some ([kv], r4)
              else none := by
        intro after hafter
        rw [parseMembers, parseString_quote]
        simp only
        rw [skipWs_cons_nonws cColon _ (by decide)]
        simp only [if_true]
        rw [skipWs_ws_append colon _ hcolon,
          skipWs_headNonWs _ (headNonWs_append _ after (hhead kv hkv)),
          hpv kv hkv after hafter]
      cases t with
      | nil =>
        have htext : renderMembers colon sep rv [kv] ++ (cls ++ cRBrace :: rest) =
            quote kv.1 ++ cColon :: (colon ++ (rv kv.2 ++ (cls ++ cRBrace :: rest))) := by
          simp only [renderMembers, List.append_assoc, List.cons_append]
        rw [htext, step _ (endsNumber_ws_append cls cRBrace rest hcls (endsNumber_rbrace rest)),
          skipWs_ws_append cls _ hcls, skipWs_cons_nonws cRBrace _ (by decide)]
        rfl
      | cons kv' t' =>
        have htext : renderMembers colon sep rv (kv :: kv' :: t') ++ (cls ++ cRBrace :: rest) =
            quote kv.1 ++ cColon :: (colon ++ (rv kv.2 ++ (cComma :: (sep ++
              (renderMembers colon sep rv (kv' :: t') ++ (cls ++ cRBrace :: rest)))))) := by
          simp only [renderMembers, List.append_assoc, List.cons_append]
        have hnext : HeadNonWs (renderMembers colon sep rv (kv' :: t') ++
            (cls ++ cRBrace :: rest)) := by
          cases t' with
          | nil =>
            simp only [renderMembers, List.append_assoc]
            exact quote_headNonWs _ _
          | cons kv'' t'' =>
            simp only [renderMembers, List.append_assoc]
            exact quote_headNonWs _ _
        rw [htext, step _ (endsNumber_comma _), skipWs_cons_nonws cComma _ (by decide)]
        simp only [if_true]
        rw [skipWs_ws_append sep _ hsep, skipWs_headNonWs _ hnext,
          ih f rest (by simp) (by simpa using hfuel)
            (fun x hx => hhead x (List.mem_cons_of_mem kv hx))
            (fun x hx => hpv x (List.mem_cons_of_mem kv hx))]
        rfl

theorem renderMembers_head {α : Type} (colon sep : List Char) (rv : α → List Char)
    (ms : List (String × α)) (h : ms ≠ []) :
    ∃ t, renderMembers colon sep rv ms = cQuote :: t := by
  cases ms with
  | nil => exact absurd rfl h
  | cons kv t =>
    cases t with
    | nil => exact ⟨_, by simp only [renderMembers, quote, List.cons_append]; rfl⟩
    | cons kv' t' => exact ⟨_, by simp only [renderMembers, quote, List.cons_append]; rfl⟩

/-- An object reads back. -/
theorem parseObject_render {α : Type} (pv : List Char → Option (α × List Char))
    (rv : α → List Char) (opn cls colon sep : List Char) (hopn : Ws opn) (hcls : Ws cls)
    (hcolon : Ws colon) (hsep : Ws sep) (ms : List (String × α)) (fuel : Nat)
    (rest : List Char) (hfuel : ms.length ≤ fuel)
    (hhead : ∀ kv ∈ ms, HeadNonWs (rv kv.2))
    (hpv : ∀ kv ∈ ms, ∀ rest', endsNumber rest' = true →
      pv (rv kv.2 ++ rest') = some (kv.2, rest')) :
    parseObject pv fuel (renderObject opn cls colon sep rv ms ++ rest) = some (ms, rest) := by
  cases ms with
  | nil =>
    simp only [renderObject, List.cons_append, List.nil_append, parseObject, if_true]
    rw [skipWs_cons_nonws cRBrace _ (by decide)]
    rfl
  | cons kv t =>
    obtain ⟨t', ht'⟩ := renderMembers_head colon sep rv (kv :: t) (by simp)
    have hm := parseMembers_render pv rv colon sep cls hcolon hsep hcls (kv :: t) fuel rest
      (by simp) hfuel hhead hpv
    have htext : renderObject opn cls colon sep rv (kv :: t) ++ rest =
        cLBrace :: (opn ++ (renderMembers colon sep rv (kv :: t) ++ (cls ++ cRBrace :: rest))) := by
      simp only [renderObject, List.append_assoc, List.cons_append, List.nil_append]
    rw [htext]
    simp only [parseObject, if_true]
    rw [skipWs_ws_append opn _ hopn]
    rw [ht'] at hm ⊢
    rw [List.cons_append] at hm ⊢
    rw [skipWs_cons_nonws cQuote _ (by decide)]
    simp only
    rw [if_neg (by decide)]
    exact hm

theorem renderObject_headNonWs {α : Type} (opn cls colon sep : List Char) (rv : α → List Char)
    (ms : List (String × α)) : HeadNonWs (renderObject opn cls colon sep rv ms) := by
  cases ms with
  | nil => exact ⟨cLBrace, _, rfl, by decide⟩
  | cons kv t => exact ⟨cLBrace, _, rfl, by decide⟩

/-- The elements of a non-empty array read back. -/
theorem parseElems_render {β : Type} (pe : List Char → Option (β × List Char))
    (re : β → List Char) (sep cls : List Char) (hsep : Ws sep) (hcls : Ws cls) :
    ∀ (xs : List β) (fuel : Nat) (rest : List Char), xs ≠ [] → xs.length ≤ fuel →
      (∀ x ∈ xs, HeadNonWs (re x)) →
      (∀ x ∈ xs, ∀ rest', pe (re x ++ rest') = some (x, rest')) →
      parseElems pe fuel (renderElems sep re xs ++ (cls ++ cRBracket :: rest)) =
        some (xs, rest) := by
  intro xs
  induction xs with
  | nil => intro fuel rest hne; exact absurd rfl hne
  | cons x t ih =>
    intro fuel rest _ hfuel hhead hpe
    cases fuel with
    | zero => simp at hfuel
    | succ f =>
      have hx := List.mem_cons_self x t
      cases t with
      | nil =>
        have htext : renderElems sep re [x] ++ (cls ++ cRBracket :: rest) =
            re x ++ (cls ++ cRBracket :: rest) := by
          simp only [renderElems]
        rw [htext, parseElems, hpe x hx]
        simp only
        rw [skipWs_ws_append cls _ hcls, skipWs_cons_nonws cRBracket _ (by decide)]
        rfl
      | cons x' t' =>
        have htext : renderElems sep re (x :: x' :: t') ++ (cls ++ cRBracket :: rest) =
            re x ++ (cComma :: (sep ++ (renderElems sep re (x' :: t') ++
              (cls ++ cRBracket :: rest)))) := by
          simp only [renderElems, List.append_assoc, List.cons_append]
        have hnext : HeadNonWs (renderElems sep re (x' :: t') ++ (cls ++ cRBracket :: rest)) := by
          have hx' := hhead x' (List.mem_cons_of_mem x (List.mem_cons_self x' t'))
          cases t' with
          | nil =>
            simp only [renderElems]
            exact headNonWs_append _ _ hx'
          | cons x'' t'' =>
            simp only [renderElems, List.append_assoc]
            exact headNonWs_append _ _ hx'
        rw [htext, parseElems, hpe x hx]
        simp only
        rw [skipWs_cons_nonws cComma _ (by decide)]
        simp only [if_true]
        rw [skipWs_ws_append sep _ hsep, skipWs_headNonWs _ hnext,
          ih f rest (by simp) (by simpa using hfuel)
            (fun y hy => hhead y (List.mem_cons_of_mem x hy))
            (fun y hy => hpe y (List.mem_cons_of_mem x hy))]
        rfl

/-- An array reads back. -/
theorem parseArray_render {β : Type} (pe : List Char → Option (β × List Char))
    (re : β → List Char) (opn cls sep : List Char) (hopn : Ws opn) (hcls : Ws cls)
    (hsep : Ws sep) (xs : List β) (fuel : Nat) (rest : List Char) (hfuel : xs.length ≤ fuel)
    (hhead : ∀ x ∈ xs, HeadNonWs (re x) ∧ ∃ t, re x = cLBrace :: t)
    (hpe : ∀ x ∈ xs, ∀ rest', pe (re x ++ rest') = some (x, rest')) :
    parseArray pe fuel (renderArray opn cls sep re xs ++ rest) = some (xs, rest) := by
  cases xs with
  | nil =>
    simp only [renderArray, List.cons_append, List.nil_append, parseArray, if_true]
    rw [skipWs_cons_nonws cRBracket _ (by decide)]
    rfl
  | cons x t =>
    have hm := parseElems_render pe re sep cls hsep hcls (x :: t) fuel rest (by simp) hfuel
      (fun y hy => (hhead y hy).1) hpe
    obtain ⟨tx, htx⟩ := (hhead x (List.mem_cons_self x t)).2
    have hstart : ∃ t', renderElems sep re (x :: t) = cLBrace :: t' := by
      cases t with
      | nil => exact ⟨tx, by simp only [renderElems, htx]⟩
      | cons x' t' => exact ⟨_, by simp only [renderElems, htx, List.cons_append]; rfl⟩
    obtain ⟨t', ht'⟩ := hstart
    have htext : renderArray opn cls sep re (x :: t) ++ rest =
        cLBracket :: (opn ++ (renderElems sep re (x :: t) ++ (cls ++ cRBracket :: rest))) := by
      simp only [renderArray, List.append_assoc, List.cons_append, List.nil_append]
    rw [htext]
    simp only [parseArray, if_true]
    rw [skipWs_ws_append opn _ hopn]
    rw [ht'] at hm ⊢
    rw [List.cons_append] at hm ⊢
    rw [skipWs_cons_nonws cLBrace _ (by decide)]
    simp only
    rw [if_neg (by decide)]
    exact hm

theorem renderObject_start {α : Type} (opn cls colon sep : List Char) (rv : α → List Char)
    (ms : List (String × α)) : ∃ t, renderObject opn cls colon sep rv ms = cLBrace :: t := by
  cases ms with
  | nil => exact ⟨_, rfl⟩
  | cons kv t => exact ⟨_, rfl⟩

/-- A flat object reads back in any layout. -/
theorem parseObject_flat (opn cls colon sep : List Char) (hopn : Ws opn) (hcls : Ws cls)
    (hcolon : Ws colon) (hsep : Ws sep) (o : Obj) (fuel : Nat) (rest : List Char)
    (hfuel : o.length ≤ fuel) :
    parseObject parseScalar fuel (renderObject opn cls colon sep renderScalar o ++ rest) =
      some (o, rest) :=
  parseObject_render parseScalar renderScalar opn cls colon sep hopn hcls hcolon hsep o fuel
    rest hfuel
    (fun kv _ => by
      obtain ⟨c, t, hct, hc, _⟩ := renderScalar_head kv.2
      exact ⟨c, t, hct, hc⟩)
    (fun kv _ rest' h => parseScalar_render kv.2 rest' h)

theorem renderValIndent_headNonWs (depth : Nat) (v : Val) :
    HeadNonWs (renderValIndent depth v) := by
  cases v with
  | scalar s =>
    obtain ⟨c, t, hct, hc, _⟩ := renderScalar_head s
    exact ⟨c, t, hct, hc⟩
  | arr xs =>
    cases xs with
    | nil => exact ⟨cLBracket, _, rfl, by decide⟩
    | cons x t => exact ⟨cLBracket, _, rfl, by decide⟩

/-- A member value reads back. -/
theorem parseVal_render (depth fuel : Nat) (v : Val) (rest : List Char) (hfit : v.fits fuel)
    (hrest : endsNumber rest = true) :
    parseVal fuel (renderValIndent depth v ++ rest) = some (v, rest) := by
  cases v with
  | scalar s =>
    obtain ⟨c, t, hct, _, hc⟩ := renderScalar_head s
    have hp := parseScalar_render s rest hrest
    simp only [renderValIndent] at hp ⊢
    rw [hct] at hp ⊢
    simp only [List.cons_append, parseVal, hc, if_false] at hp ⊢
    rw [hp]
    rfl
  | arr xs =>
    have hp := parseArray_render (parseObject parseScalar fuel) (renderObjIndent (depth + 1))
      (newline (depth + 1)) (newline depth) (newline (depth + 1)) (ws_newline _) (ws_newline _)
      (ws_newline _) xs fuel rest hfit.1
      (fun x _ => ⟨renderObject_headNonWs _ _ _ _ _ x, renderObject_start _ _ _ _ _ x⟩)
      (fun x hx rest' => parseObject_flat _ _ _ _ (ws_newline _) (ws_newline _) ws_space
        (ws_newline _) x fuel rest' (hfit.2 x hx))
    have hstart : ∃ t, renderValIndent depth (Val.arr xs) = cLBracket :: t := by
      cases xs with
      | nil => exact ⟨_, rfl⟩
      | cons x t => exact ⟨_, rfl⟩
    obtain ⟨t, ht⟩ := hstart
    have hrender : renderValIndent depth (Val.arr xs) =
        renderArray (newline (depth + 1)) (newline depth) (newline (depth + 1))
          (renderObjIndent (depth + 1)) xs := rfl
    rw [← hrender, ht] at hp
    rw [ht]
    simp only [List.cons_append, parseVal, if_true] at hp ⊢
    rw [hp]
    rfl

/-- A document reads back in any layout, given enough fuel. -/
theorem parseObject_doc (opn cls colon sep : List Char) (hopn : Ws opn) (hcls : Ws cls)
    (hcolon : Ws colon) (hsep : Ws sep) (depth : Nat) (d : Doc) (fuel : Nat)
    (rest : List Char) (hfuel : d.length ≤ fuel) (hfit : ∀ kv ∈ d, kv.2.fits fuel) :
    parseObject (parseVal fuel) fuel
      (renderObject opn cls colon sep (renderValIndent depth) d ++ rest) = some (d, rest) :=
  parseObject_render (parseVal fuel) (renderValIndent depth) opn cls colon sep hopn hcls hcolon
    hsep d fuel rest hfuel (fun kv _ => renderValIndent_headNonWs depth kv.2)
    (fun kv hkv rest' h => parseVal_render depth fuel kv.2 rest' (hfit kv hkv) h)

theorem renderMembers_length {α : Type} (colon sep : List Char) (rv : α → List Char) :
    ∀ ms : List (String × α), ms.length ≤ (renderMembers colon sep rv ms).length ∧
      ∀ kv ∈ ms, (rv kv.2).length ≤ (renderMembers colon sep rv ms).length := by
  intro ms
  induction ms with
  | nil => exact ⟨le_refl _, fun kv h => absurd h (List.not_mem_nil _)⟩
  | cons kv t ih =>
    cases t with
    | nil =>
      constructor
      · simp only [renderMembers, quote, List.length_append, List.length_cons,
          List.length_singleton, List.length_nil]
        omega
      · intro x hx
        rw [List.mem_singleton] at hx
        subst hx
        simp only [renderMembers, List.length_append, List.length_cons]
        omega
    | cons kv' t' =>
      obtain ⟨ih1, ih2⟩ := ih
      constructor
      · simp only [renderMembers, List.length_append, List.length_cons] at ih1 ⊢
        omega
      · intro x hx
        rcases List.mem_cons.mp hx with h | h
        · subst h
          simp only [renderMembers, List.length_append, List.length_cons]
          omega
        · have := ih2 x h
          simp only [renderMembers, List.length_append, List.length_cons] at this ⊢
          omega

theorem renderObject_length {α : Type} (opn cls colon sep : List Char) (rv : α → List Char)
    (ms : List (String × α)) :
    (renderMembers colon sep rv ms).length ≤ (renderObject opn cls colon sep rv ms).length ∧
      0 < (renderObject opn cls colon sep rv ms).length := by
  cases ms with
  | nil => simp [renderObject, renderMembers]
  | cons kv t =>
    simp only [renderObject, List.length_append, List.length_cons]
    omega

theorem renderElems_length {β : Type} (sep : List Char) (re : β → List Char) :
    ∀ xs : List β, (∀ x ∈ xs, 0 < (re x).length) →
      xs.length ≤ (renderElems sep re xs).length ∧
      ∀ x ∈ xs, (re x).length ≤ (renderElems sep re xs).length := by
  intro xs
  induction xs with
  | nil => intro _; exact ⟨le_refl _, fun x h => absurd h (List.not_mem_nil _)⟩
  | cons x t ih =>
    intro hpos
    have hx := hpos x (List.mem_cons_self x t)
    cases t with
    | nil =>
      constructor
      · simp only [renderElems, List.length_singleton]
        omega
      · intro y hy
        rw [List.mem_singleton] at hy
        subst hy
        exact le_refl _
    | cons x' t' =>
      obtain ⟨ih1, ih2⟩ := ih (fun y hy => hpos y (List.mem_cons_of_mem x hy))
      constructor
      · simp only [renderElems, List.length_append, List.length_cons] at ih1 ⊢
        omega
      · intro y hy
        rcases List.mem_cons.mp hy with h | h
        · subst h
          simp only [renderElems, List.length_append, List.length_cons]
          omega
        · have := ih2 y h
          simp only [renderElems, List.length_append, List.length_cons] at this ⊢
          omega

theorem renderArray_length {β : Type} (opn cls sep : List Char) (re : β → List Char)
    (xs : List β) : (renderElems sep re xs).length ≤ (renderArray opn cls sep re xs).length := by
  cases xs with
  | nil => simp [renderArray, renderElems]
  | cons x t =>
    simp only [renderArray, List.length_append, List.length_cons]
    omega

/-- The length of the text of a value is enough fuel to read it back. -/
theorem fits_of_length (depth fuel : Nat) (v : Val)
    (h : (renderValIndent depth v).length ≤ fuel) : v.fits fuel := by
  cases v with
  | scalar s => trivial
  | arr xs =>
    have hpos : ∀ x ∈ xs, 0 < (renderObjIndent (depth + 1) x).length :=
      fun x _ => (renderObject_length _ _ _ _ _ x).2
    obtain ⟨e1, e2⟩ := renderElems_length (newline (depth + 1)) (renderObjIndent (depth + 1))
      xs hpos
    have ha := renderArray_length (newline (depth + 1)) (newline depth) (newline (depth + 1))
      (renderObjIndent (depth + 1)) xs
    have hr : renderValIndent depth (Val.arr xs) =
        renderArray (newline (depth + 1)) (newline depth) (newline (depth + 1))
          (renderObjIndent (depth + 1)) xs := rfl
    rw [hr] at h
    refine ⟨by omega, fun o ho => ?_⟩
    have h1 := (renderMembers_length [cSpace] (newline (depth + 1 + 1)) renderScalar o).1
    have h2 : (renderMembers [cSpace] (newline (depth + 1 + 1)) renderScalar o).length ≤
        (renderObjIndent (depth + 1) o).length :=
      (renderObject_length (newline (depth + 1 + 1)) (newline (depth + 1)) [cSpace]
        (newline (depth + 1 + 1)) renderScalar o).1
    have h3 := e2 o ho
    omega

/-- The text of an object in any layout reads back as a document, whitespace allowed
after it. -/
theorem parseDoc_renderObject (opn cls colon sep tail : List Char) (hopn : Ws opn)
    (hcls : Ws cls) (hcolon : Ws colon) (hsep : Ws sep) (htail : Ws tail) (depth : Nat)
    (d : Doc) :
    parseDoc (renderObject opn cls colon sep (renderValIndent depth) d ++ tail) = some d := by
  obtain ⟨t, ht⟩ := renderObject_start opn cls colon sep (renderValIndent depth) d
  have hskip : skipWs (renderObject opn cls colon sep (renderValIndent depth) d ++ tail) =
      renderObject opn cls colon sep (renderValIndent depth) d ++ tail :=
    skipWs_headNonWs _ (headNonWs_append _ _ (renderObject_headNonWs _ _ _ _ _ d))
  have hnull : stripLit litNull
      (renderObject opn cls colon sep (renderValIndent depth) d ++ tail) = none := by
    rw [ht]
    simp only [litNull, List.cons_append, stripLit]
    rw [if_neg (by decide)]
  have hm := (renderMembers_length colon sep (renderValIndent depth) d)
  have ho := (renderObject_length opn cls colon sep (renderValIndent depth) d).1
  have hlen : (renderObject opn cls colon sep (renderValIndent depth) d).length ≤
      (renderObject opn cls colon sep (renderValIndent depth) d ++ tail).length := by
    rw [List.length_append]; omega
  have hp := parseObject_doc opn cls colon sep hopn hcls hcolon hsep depth d
    (renderObject opn cls colon sep (renderValIndent depth) d ++ tail).length tail
    (by omega)
    (fun kv hkv => fits_of_length depth _ kv.2 (by have := hm.2 kv hkv; omega))
  have htailskip : skipWs tail = [] := by
    have := skipWs_ws_append tail [] htail
    simpa [skipWs] using this
  unfold parseDoc
  simp only [hskip, hnull, hp, htailskip, if_true]

/-- The indented layout followed by a line feed, as `Encoder.Encode` writes it, reads
back. -/
theorem parseDoc_renderIndent (d : Doc) : parseDoc (renderIndent d ++ [cLF]) = some d :=
  parseDoc_renderObject _ _ _ _ _ (ws_newline 1) (ws_newline 0) ws_space (ws_newline 1)
    (by intro c hc; rw [List.mem_singleton] at hc; rw [hc]; decide) 1 d

theorem renderMembers_map {α β : Type} (colon sep : List Char) (rv : β → List Char)
    (f : α → β) : ∀ ms : List (String × α),
      renderMembers colon sep rv (ms.map (fun kv => (kv.1, f kv.2))) =
        renderMembers colon sep (fun a => rv (f a)) ms := by
  intro ms
  induction ms with
  | nil => rfl
  | cons kv t ih =>
    cases t with
    | nil => rfl
    | cons kv' t' =>
      simp only [List.map_cons, renderMembers] at ih ⊢
      rw [ih]

/-- The compact layout of a flat object, as `json.Marshal` writes it, reads back. -/
theorem parseDoc_renderCompact (o : Obj) : parseDoc (renderCompact o) = some o.toDoc := by
  have h := parseDoc_renderObject [] [] [] [] [] ws_nil ws_nil ws_nil ws_nil ws_nil 0 o.toDoc
  have heq : renderObject [] [] [] [] (renderValIndent 0) o.toDoc = renderCompact o := by
    unfold renderCompact Obj.toDoc
    cases o with
    | nil => rfl
    | cons kv t =>
      simp only [List.map_cons, renderObject]
      have := renderMembers_map [] [] (renderValIndent 0) Val.scalar (kv :: t)
      simp only [List.map_cons] at this
      rw [this]
      rfl
  rw [heq, List.append_nil] at h
  exact h

theorem escapeGoFuel_encode (cs : List Char) :
    ∀ fuel, (utf8.encode cs).length ≤ fuel →
      escapeGoFuel fuel (utf8.encode cs) = cs.flatMap escapeChar := by
  induction cs with
  | nil => intro fuel _; cases fuel <;> rfl
  | cons c t ih =>
    intro fuel hfuel
    have henc : utf8.encode (c :: t) = utf8.encodeChar c ++ utf8.encode t := by
      simp [utf8.encode, List.flatMap_cons]
    rw [henc] at hfuel ⊢
    have hpos := utf8.encodeChar_length_pos c
    rw [List.length_append] at hfuel
    cases fuel with
    | zero => omega
    | succ n =>
      have hne : utf8.encodeChar c ++ utf8.encode t ≠ [] := by
        intro h
        have := congrArg List.length h
        rw [List.length_append, List.length_nil] at this
        omega
      obtain ⟨b, rest, hbr⟩ := List.exists_cons_of_ne_nil hne
      have hdec := utf8.decodeChar_encodeChar c (utf8.encode t)
      rw [hbr] at hdec ⊢
      rw [escapeGoFuel, hdec]
      simp only
      rw [ih n (by omega), List.flatMap_cons]

/-- On the encoding of a text, `encoding/json` escapes character by character. -/
theorem escapeGo_ofText (s : String) : escapeGo (GoString.ofText s) = escape s :=
  escapeGoFuel_encode s.data _ (le_refl _)

theorem quoteGo_ofText (s : String) : quoteGo (GoString.ofText s) = quote s := by
  unfold quoteGo quote
  rw [escapeGo_ofText]

end json

/-! ## JSON on the structs: lemmas -/

namespace types

theorem MulticastMessage.message_fromJson_toJson (m : MulticastMessage)
    (h1 : json.isInt64 m.Version = true) (h2 : json.isInt64 m.VNI = true)
    (h3 : json.isInt64 m.Timestamp = true) :
    MulticastMessage.fromJson m.toJson.toDoc = some m := by
  have k11 : json.keyIs "type" "type" = true := by decide
  have k21 : json.keyIs "version" "type" = false := by decide
  have k22 : json.keyIs "version" "version" = true := by decide
  have k31 : json.keyIs "stack_id" "type" = false := by decide
  have k32 : json.keyIs "stack_id" "version" = false := by decide
  have k33 : json.keyIs "stack_id" "stack_id" = true := by decide
  have k41 : json.keyIs "host_ip" "type" = false := by decide
  have k42 : json.keyIs "host_ip" "version" = false := by decide
  have k43 : json.keyIs "host_ip" "stack_id" = false := by decide
  have k44 : json.keyIs "host_ip" "host_ip" = true := by decide
  have k51 : json.keyIs "vni" "type" = false := by decide
  have k52 : json.keyIs "vni" "version" = false := by decide
  have k53 : json.keyIs "vni" "stack_id" = false := by decide
  have k54 : json.keyIs "vni" "host_ip" = false := by decide
  have k55 : json.keyIs "vni" "vni" = true := by decide
  have k61 : json.keyIs "timestamp" "type" = false := by decide
  have k62 : json.keyIs "timestamp" "version" = false := by decide
  have k63 : json.keyIs "timestamp" "stack_id" = false := by decide
  have k64 : json.keyIs "timestamp" "host_ip" = false := by decide
  have k65 : json.keyIs "timestamp" "vni" = false := by decide
  have k66 : json.keyIs "timestamp" "timestamp" = true := by decide
  simp only [MulticastMessage.fromJson, MulticastMessage.toJson, json.Obj.toDoc, List.map_cons,
    List.map_nil, List.foldlM_cons, List.foldlM_nil, MulticastMessage.setField,
    k11, k21, k22, k31, k32, k33, k41, k42, k43, k44, k51, k52, k53, k54, k55,
    k61, k62, k63, k64, k65, k66, json.Val.asScalar, json.intoString, json.intoInt,
    h1, h2, h3, if_true, Bool.false_eq_true, if_false, Option.some_bind, Option.map_some',
    Option.bind_eq_bind, pure]

end types

namespace multicast

/-- `Marshal` of a message whose strings are texts writes the text-level object. -/
theorem goMarshal_toRaw (m : types.MulticastMessage) :
    goMarshal m.toRaw = utf8.encode (json.renderCompact m.toJson) := by
  simp only [goMarshal, types.MulticastMessage.toRaw, types.RawMessage.toJson,
    types.MulticastMessage.toJson, json.renderCompact, json.renderObject, json.renderMembers,
    json.renderGoScalar, json.renderScalar, json.quoteGo_ofText]

/-- `Unmarshal` inverts `Marshal` on messages whose strings are texts and whose integers
are Go `int`s. -/
theorem goJson_roundtrip (m : types.MulticastMessage)
    (h1 : json.isInt64 m.Version = true) (h2 : json.isInt64 m.VNI = true)
    (h3 : json.isInt64 m.Timestamp = true) :
    ∃ data, goJson.Marshal m.toRaw = some data ∧ goJson.Unmarshal data = some m := by
  refine ⟨goMarshal m.toRaw, rfl, ?_⟩
  simp only [goJson, goMarshal_toRaw, utf8.decode_encode, json.parseDoc_renderCompact,
    Option.some_bind, types.MulticastMessage.message_fromJson_toJson m h1 h2 h3]

end multicast

namespace utf8

theorem encode_append (a b : List Char) : encode (a ++ b) = encode a ++ encode b := by
  simp [encode, List.flatMap_append]

theorem encode_cons (c : Char) (t : List Char) : encode (c :: t) = encodeChar c ++ encode t := by
  simp [encode, List.flatMap_cons]

theorem encode_nil : encode [] = [] := rfl

theorem length_encode_ascii (cs : List Char) (h : ∀ c ∈ cs, c.toNat < 128) :
    (encode cs).length = cs.length := by
  induction cs with
  | nil => rfl
  | cons c t ih =>
    rw [encode_cons, List.length_append, encodeChar_length_ascii c (h c (List.mem_cons_self c t)),
      ih (fun x hx => h x (List.mem_cons_of_mem c hx)), List.length_cons]
    omega

theorem length_le_length_encode (cs : List Char) : cs.length ≤ (encode cs).length := by
  induction cs with
  | nil => exact Nat.le_refl _
  | cons c t ih =>
    rw [encode_cons, List.length_append, List.length_cons]
    have := encodeChar_length_pos c
    omega

end utf8

namespace utf8

theorem toNat_ofNat_of_valid (n : Nat) (h : n < 55296 ∨ (57343 < n ∧ n < 1114112)) :
    (Char.ofNat n).toNat = n := by
  have hv : n.isValidChar := h
  simp only [Char.ofNat, hv, dite_true]
  simp only [Char.ofNatAux, Char.toNat]
  have : n < UInt32.size := by
    rcases h with h | h
    · exact Nat.lt_trans h (by decide)
    · exact Nat.lt_trans h.2 (by decide)
  simp [UInt32.toNat, Nat.mod_eq_of_lt this]

theorem ofNat_toNat_byte (b : UInt8) : UInt8.ofNat b.toNat = b := by
  cases b with
  | mk v =>
    apply UInt8.ext
    simp [UInt8.toNat, UInt8.ofNat]


theorem isCont_range (b : UInt8) (h : isCont b = true) : 128 ≤ b.toNat ∧ b.toNat < 192 := by
  simpa [isCont] using h

/-- A decoded character encodes to the bytes it was decoded from. -/
theorem encodeChar_decodeChar (bs : List UInt8) (c : Char) (rest : List UInt8)
    (h : decodeChar bs = some (c, rest)) : encodeChar c ++ rest = bs := by
  cases bs with
  | nil => simp [decodeChar] at h
  | cons b0 t =>
    have hb0 := ofNat_toNat_byte b0
    simp only [decodeChar] at h
    by_cases h1 : b0.toNat < 128
    · rw [if_pos h1] at h
      obtain ⟨hc, hr⟩ := Prod.mk.inj (Option.some.inj h)
      have hv : c.toNat = b0.toNat := by
        rw [← hc]; exact toNat_ofNat_of_valid _ (Or.inl (by omega))
      unfold encodeChar
      simp only [hv, h1, if_true, hb0, hr, List.singleton_append]
    rw [if_neg h1] at h
    by_cases h2 : b0.toNat < 192
    · rw [if_pos h2] at h
      exact absurd h (by simp)
    rw [if_neg h2] at h
    by_cases h3 : b0.toNat < 224
    · rw [if_pos h3] at h
      cases t with
      | nil => exact absurd h (by simp)
      | cons b1 t1 =>
        have hb1 := ofNat_toNat_byte b1
        dsimp only at h
        by_cases hc2 : (isCont b1 && decide (128 ≤ (b0.toNat - 192) * 64 + (b1.toNat - 128))) =
            true
        · rw [if_pos hc2] at h
          obtain ⟨hc, hr⟩ := Prod.mk.inj (Option.some.inj h)
          rw [Bool.and_eq_true, decide_eq_true_eq] at hc2
          obtain ⟨k1, k2⟩ := hc2
          have r1 := isCont_range b1 k1
          have hv : c.toNat = (b0.toNat - 192) * 64 + (b1.toNat - 128) := by
            rw [← hc]; exact toNat_ofNat_of_valid _ (Or.inl (by omega))
          have e0 : 192 + c.toNat / 64 = b0.toNat := by omega
          have e1 : 128 + c.toNat % 64 = b1.toNat := by omega
          have n1 : ¬ c.toNat < 128 := by omega
          have n2 : c.toNat < 2048 := by omega
          unfold encodeChar
          simp only [n1, n2, if_true, if_false, e0, e1, hb0, hb1, hr, List.cons_append,
            List.nil_append]
        · rw [if_neg hc2] at h
          exact absurd h (by simp)
    rw [if_neg h3] at h
    by_cases h4 : b0.toNat < 240
    · rw [if_pos h4] at h
      rcases t with _ | ⟨b1, _ | ⟨b2, t2⟩⟩
      · exact absurd h (by simp)
      · exact absurd h (by simp)
      have hb1 := ofNat_toNat_byte b1
      have hb2 := ofNat_toNat_byte b2
      dsimp only at h
      split_ifs at h with hc2
      obtain ⟨hc, hr⟩ := Prod.mk.inj (Option.some.inj h)
      simp only [Bool.and_eq_true, decide_eq_true_eq, Bool.not_eq_true',
        decide_eq_false_iff_not, not_and, not_lt] at hc2
      obtain ⟨⟨⟨k1, k2⟩, k3⟩, k4⟩ := hc2
      have r1 := isCont_range b1 k1
      have r2 := isCont_range b2 k2
      have hv : c.toNat =
          (b0.toNat - 224) * 4096 + (b1.toNat - 128) * 64 + (b2.toNat - 128) := by
        rw [← hc]
        apply toNat_ofNat_of_valid
        by_cases hs : 55296 ≤ (b0.toNat - 224) * 4096 + (b1.toNat - 128) * 64 +
            (b2.toNat - 128)
        · right
          rw [Bool.and_eq_false_iff, decide_eq_false_iff_not, decide_eq_false_iff_not] at k4
          rcases k4 with k4 | k4
          · exact absurd hs k4
          · omega
        · left; omega
      have e0 : 224 + c.toNat / 4096 = b0.toNat := by omega
      have e1 : 128 + c.toNat / 64 % 64 = b1.toNat := by omega
      have e2 : 128 + c.toNat % 64 = b2.toNat := by omega
      have n1 : ¬ c.toNat < 128 := by omega
      have n2 : ¬ c.toNat < 2048 := by omega
      have n3 : c.toNat < 65536 := by omega
      unfold encodeChar
      simp only [n1, n2, n3, if_true, if_false, e0, e1, e2, hb0, hb1, hb2, hr,
        List.cons_append, List.nil_append]
    rw [if_neg h4] at h
    by_cases h5 : b0.toNat < 248
    · rw [if_pos h5] at h
      rcases t with _ | ⟨b1, _ | ⟨b2, _ | ⟨b3, t3⟩⟩⟩
      · exact absurd h (by simp)
      · exact absurd h (by simp)
      · exact absurd h (by simp)
      have hb1 := ofNat_toNat_byte b1
      have hb2 := ofNat_toNat_byte b2
      have hb3 := ofNat_toNat_byte b3
      dsimp only at h
      split_ifs at h with hc2
      obtain ⟨hc, hr⟩ := Prod.mk.inj (Option.some.inj h)
      simp only [Bool.and_eq_true, decide_eq_true_eq] at hc2
      obtain ⟨⟨⟨⟨k1, k2⟩, k3⟩, k4⟩, k5⟩ := hc2
      have r1 := isCont_range b1 k1
      have r2 := isCont_range b2 k2
      have r3 := isCont_range b3 k3
      have hv : c.toNat = (b0.toNat - 240) * 262144 + (b1.toNat - 128) * 4096 +
          (b2.toNat - 128) * 64 + (b3.toNat - 128) := by
        rw [← hc]
        exact toNat_ofNat_of_valid _ (Or.inr ⟨by omega, k5⟩)
      have e0 : 240 + c.toNat / 262144 = b0.toNat := by omega
      have e1 : 128 + c.toNat / 4096 % 64 = b1.toNat := by omega
      have e2 : 128 + c.toNat / 64 % 64 = b2.toNat := by omega
      have e3 : 128 + c.toNat % 64 = b3.toNat := by omega
      have n1 : ¬ c.toNat < 128 := by omega
      have n2 : ¬ c.toNat < 2048 := by omega
      have n3 : ¬ c.toNat < 65536 := by omega
      unfold encodeChar
      simp only [n1, n2, n3, if_false, e0, e1, e2, e3, hb0, hb1, hb2, hb3, hr,
        List.cons_append, List.nil_append]
    · rw [if_neg h5] at h
      exact absurd h (by simp)

theorem decodeChar_length (bs : List UInt8) (c : Char) (rest : List UInt8)
    (h : decodeChar bs = some (c, rest)) : rest.length < bs.length := by
  have := congrArg List.length (encodeChar_decodeChar bs c rest h)
  rw [List.length_append] at this
  have := encodeChar_length_pos c
  omega

/-- Valid bytes are the encoding of the text decoded from them. -/
theorem encode_decodeFuel : ∀ (fuel : Nat) (bs : List UInt8), bs.length ≤ fuel →
    validFuel fuel bs = true → encode (decodeFuel fuel bs) = bs := by
  intro fuel
  induction fuel with
  | zero =>
    intro bs hlen _
    cases bs with
    | nil => rfl
    | cons b t => simp at hlen
  | succ n ih =>
    intro bs hlen hv
    cases bs with
    | nil => rfl
    | cons b t =>
      cases hdec : decodeChar (b :: t) with
      | none => simp [validFuel, hdec] at hv
      | some r =>
        obtain ⟨c, rest⟩ := r
        have hl := decodeChar_length _ _ _ hdec
        rw [List.length_cons] at hlen hl
        simp only [validFuel, hdec] at hv
        simp only [decodeFuel, hdec]
        rw [encode_cons, ih rest (by omega) hv]
        exact encodeChar_decodeChar _ _ _ hdec

theorem encode_decode (bs : List UInt8) (h : Valid bs = true) : encode (decode bs) = bs :=
  encode_decodeFuel bs.length bs (le_refl _) h

theorem validFuel_encode (cs : List Char) :
    ∀ fuel, (encode cs).length ≤ fuel → validFuel fuel (encode cs) = true := by
  induction cs with
  | nil => intro fuel _; cases fuel <;> rfl
  | cons c t ih =>
    intro fuel hfuel
    rw [encode_cons] at hfuel ⊢
    have hpos := encodeChar_length_pos c
    rw [List.length_append] at hfuel
    cases fuel with
    | zero => omega
    | succ n =>
      have hne : encodeChar c ++ encode t ≠ [] := by
        intro h
        have := congrArg List.length h
        rw [List.length_append, List.length_nil] at this
        omega
      obtain ⟨b, rest, hbr⟩ := List.exists_cons_of_ne_nil hne
      have hdec := decodeChar_encodeChar c (encode t)
      rw [hbr] at hdec ⊢
      rw [validFuel, hdec]
      exact ih n (by omega)

/-- The encoding of a text is valid. -/
theorem Valid_encode (cs : List Char) : Valid (encode cs) = true :=
  validFuel_encode cs _ (le_refl _)

end utf8

namespace GoString

theorem toText_ofText (s : String) : toText (ofText s) = s := by
  unfold toText ofText
  rw [utf8.decode_encode]

theorem ofText_injective (a b : String) (h : ofText a = ofText b) : a = b := by
  rw [← toText_ofText a, ← toText_ofText b, h]

theorem valid_ofText (s : String) : valid (ofText s) = true :=
  utf8.Valid_encode s.data

/-- A valid Go string is the encoding of the text read from it. -/
theorem ofText_toText (s : GoString) (h : valid s = true) : ofText (toText s) = s :=
  utf8.encode_decode s h

end GoString

namespace json

theorem digitChar_ascii (d : Nat) (h : d < 10) : (digitChar d).toNat < 128 := by
  interval_cases d <;> decide

theorem renderNatFuel_ascii (fuel : Nat) : ∀ n, ∀ c ∈ renderNatFuel fuel n, c.toNat < 128 := by
  induction fuel with
  | zero =>
    intro n c hc
    simp only [renderNatFuel, List.mem_singleton] at hc
    rw [hc]
    exact digitChar_ascii _ (Nat.mod_lt _ (by omega))
  | succ f ih =>
    intro n c hc
    by_cases hlt : n < 10
    · simp only [renderNatFuel, hlt, if_true, List.mem_singleton] at hc
      rw [hc]
      exact digitChar_ascii _ hlt
    · simp only [renderNatFuel, hlt, if_false, List.mem_append, List.mem_singleton] at hc
      rcases hc with hc | hc
      · exact ih _ c hc
      · rw [hc]
        exact digitChar_ascii _ (Nat.mod_lt _ (by omega))

theorem renderNatFuel_length (fuel : Nat) :
    ∀ n k, n < 10 ^ (k + 1) → (renderNatFuel fuel n).length ≤ k + 1 := by
  induction fuel with
  | zero => intro n k _; simp [renderNatFuel]
  | succ f ih =>
    intro n k hn
    by_cases hlt : n < 10
    · simp [renderNatFuel, hlt]
    · simp only [renderNatFuel, hlt, if_false, List.length_append, List.length_singleton]
      cases k with
      | zero => simp at hn; omega
      | succ k' =>
        have : n / 10 < 10 ^ (k' + 1) := by
          rw [Nat.div_lt_iff_lt_mul (by omega)]
          calc n < 10 ^ (k' + 1 + 1) := hn
            _ = 10 ^ (k' + 1) * 10 := by ring
        have := ih (n / 10) k' this
        omega

/-- The text of a Go `int` is ASCII and at most 20 characters long. -/
theorem renderInt_size (n : Int) (h : isInt64 n = true) :
    (utf8.encode (renderInt n)).length ≤ 20 := by
  simp only [isInt64, Bool.and_eq_true, decide_eq_true_eq] at h
  have hascii : ∀ c ∈ renderInt n, c.toNat < 128 := by
    intro c hc
    unfold renderInt at hc
    split_ifs at hc
    · rcases List.mem_cons.mp hc with h' | h'
      · rw [h']; decide
      · exact renderNatFuel_ascii _ _ c h'
    · exact renderNatFuel_ascii _ _ c hc
  rw [utf8.length_encode_ascii _ hascii]
  unfold renderInt renderNat
  split_ifs with hneg
  · have := renderNatFuel_length n.natAbs n.natAbs 18 (by omega)
    simp only [List.length_cons]
    omega
  · have := renderNatFuel_length n.toNat n.toNat 18 (by omega)
    omega

end json

namespace multicast

/-- The number of bytes of the datagram of a message, field by field: 63 bytes of
punctuation and keys, and the texts of the six values. -/
theorem marshal_length (m : types.MulticastMessage) :
    (utf8.encode (json.renderCompact m.toJson)).length =
      63 + (utf8.encode (json.quote m.Type_)).length +
        (utf8.encode (json.renderInt m.Version)).length +
        (utf8.encode (json.quote m.StackID)).length +
        (utf8.encode (json.quote m.HostIP)).length +
        (utf8.encode (json.renderInt m.VNI)).length +
        (utf8.encode (json.renderInt m.Timestamp)).length := by
  have q1 : (utf8.encode (json.quote "type")).length = 6 := by decide
  have q2 : (utf8.encode (json.quote "version")).length = 9 := by decide
  have q3 : (utf8.encode (json.quote "stack_id")).length = 10 := by decide
  have q4 : (utf8.encode (json.quote "host_ip")).length = 9 := by decide
  have q5 : (utf8.encode (json.quote "vni")).length = 5 := by decide
  have q6 : (utf8.encode (json.quote "timestamp")).length = 11 := by decide
  have c1 : (utf8.encodeChar json.cLBrace).length = 1 := by decide
  have c2 : (utf8.encodeChar json.cRBrace).length = 1 := by decide
  have c3 : (utf8.encodeChar json.cColon).length = 1 := by decide
  have c4 : (utf8.encodeChar json.cComma).length = 1 := by decide
  simp only [json.renderCompact, types.MulticastMessage.toJson, json.renderObject,
    json.renderMembers, json.renderScalar, List.nil_append, List.append_nil,
    utf8.encode_append, utf8.encode_cons, utf8.encode_nil, List.length_append,
    List.length_nil, q1, q2, q3, q4, q5, q6, c1, c2, c3, c4]
  omega

theorem quote_size (s : String) :
    (utf8.encode (json.quote s)).length = 2 + (utf8.encode (json.escape s)).length := by
  have c : (utf8.encodeChar json.cQuote).length = 1 := by decide
  simp only [json.quote, utf8.encode_cons, utf8.encode_append, utf8.encode_nil,
    List.length_append, List.length_nil, c]
  omega

theorem escape_flat_length (cs : List Char) :
    cs.length ≤ (cs.flatMap json.escapeChar).length := by
  induction cs with
  | nil => exact Nat.le_refl _
  | cons c t ih =>
    rw [List.flatMap_cons, List.length_append, List.length_cons]
    have : 0 < (json.escapeChar c).length := by
      unfold json.escapeChar
      split_ifs <;> simp
    omega

theorem escape_size_ge (s : String) : s.length ≤ (utf8.encode (json.escape s)).length :=
  Nat.le_trans (escape_flat_length s.data) (utf8.length_le_length_encode _)

end multicast

/-! ## Discovery file: lemmas -/

namespace discovery

theorem Peer.peer_fromJson_toJson (layout : time.Layout) (p : types.Peer)
    (h : json.isInt64 p.VNI = true) :
    Peer.fromJson layout (p.toJson layout) = some (Peer.ofTypes layout p) := by
  have k11 : json.keyIs "stack_id" "stack_id" = true := by decide
  have k21 : json.keyIs "host_ip" "stack_id" = false := by decide
  have k22 : json.keyIs "host_ip" "host_ip" = true := by decide
  have k31 : json.keyIs "vxlan_endpoint" "stack_id" = false := by decide
  have k32 : json.keyIs "vxlan_endpoint" "host_ip" = false := by decide
  have k33 : json.keyIs "vxlan_endpoint" "vxlan_endpoint" = true := by decide
  have k41 : json.keyIs "vni" "stack_id" = false := by decide
  have k42 : json.keyIs "vni" "host_ip" = false := by decide
  have k43 : json.keyIs "vni" "vxlan_endpoint" = false := by decide
  have k44 : json.keyIs "vni" "vni" = true := by decide
  have k51 : json.keyIs "last_seen" "stack_id" = false := by decide
  have k52 : json.keyIs "last_seen" "host_ip" = false := by decide
  have k53 : json.keyIs "last_seen" "vxlan_endpoint" = false := by decide
  have k54 : json.keyIs "last_seen" "vni" = false := by decide
  have k55 : json.keyIs "last_seen" "last_seen" = true := by decide
  have k61 : json.keyIs "status" "stack_id" = false := by decide
  have k62 : json.keyIs "status" "host_ip" = false := by decide
  have k63 : json.keyIs "status" "vxlan_endpoint" = false := by decide
  have k64 : json.keyIs "status" "vni" = false := by decide
  have k65 : json.keyIs "status" "last_seen" = false := by decide
  have k66 : json.keyIs "status" "status" = true := by decide
  simp only [Peer.fromJson, types.Peer.toJson, List.foldlM_cons, List.foldlM_nil,
    Peer.setField, k11, k21, k22, k31, k32, k33, k41, k42, k43, k44, k51, k52, k53, k54, k55,
    k61, k62, k63, k64, k65, k66, json.intoString, json.intoInt, intoTime,
    layout.format_parses, h, if_true, Bool.false_eq_true, if_false, Option.some_bind,
    Option.map_some', Option.bind_eq_bind, pure, Peer.ofTypes]

theorem Peer.mapM_fromJson_toJson (layout : time.Layout) (peers : List types.Peer)
    (h : ∀ p ∈ peers, json.isInt64 p.VNI = true) :
    (peers.map (types.Peer.toJson layout)).mapM (Peer.fromJson layout) =
      some (peers.map (Peer.ofTypes layout)) := by
  induction peers with
  | nil => rfl
  | cons p t ih =>
    rw [List.map_cons, List.mapM_cons, Peer.peer_fromJson_toJson layout p (h p (List.mem_cons_self p t)),
      ih (fun q hq => h q (List.mem_cons_of_mem p hq))]
    rfl

theorem DiscoveryData.data_fromJson_toJson (layout : time.Layout) (data : types.DiscoveryData)
    (hv : json.isInt64 data.Version = true)
    (h : ∀ p ∈ data.Peers.getD [], json.isInt64 p.VNI = true) :
    DiscoveryData.fromJson layout (data.toJson layout) =
      some { Version := data.Version, LastUpdate := layout.format data.LastUpdate,
             Peers := (data.Peers.getD []).map (Peer.ofTypes layout) } := by
  have k11 : json.keyIs "version" "version" = true := by decide
  have k21 : json.keyIs "last_update" "version" = false := by decide
  have k22 : json.keyIs "last_update" "last_update" = true := by decide
  have k31 : json.keyIs "peers" "version" = false := by decide
  have k32 : json.keyIs "peers" "last_update" = false := by decide
  have k33 : json.keyIs "peers" "peers" = true := by decide
  cases hp : data.Peers with
  | none =>
    simp only [DiscoveryData.fromJson, types.DiscoveryData.toJson, List.foldlM_cons,
      List.foldlM_nil, DiscoveryData.setField, k11, k21, k22, k31, k32, k33, json.Val.asScalar,
      json.intoString, json.intoInt, hv, hp, if_true, Bool.false_eq_true, if_false,
      Option.some_bind, Option.map_some', Option.bind_eq_bind, pure, Option.getD_none,
      List.map_nil]
  | some peers =>
    rw [hp] at h
    simp only [DiscoveryData.fromJson, types.DiscoveryData.toJson, List.foldlM_cons,
      List.foldlM_nil, DiscoveryData.setField, k11, k21, k22, k31, k32, k33, json.Val.asScalar,
      json.intoString, json.intoInt, hv, hp, if_true, Bool.false_eq_true, if_false,
      Option.some_bind, Option.map_some', Option.bind_eq_bind, pure, Option.getD_some,
      Peer.mapM_fromJson_toJson layout peers h]

theorem activePeers_fold (peers : List Peer) :
    ∀ acc : List Peer,
      peers.foldl (fun activePeers peer =>
        if peer.Status = "active" then activePeers ++ [peer] else activePeers) acc =
      acc ++ peers.filter (fun peer => peer.Status = "active") := by
  induction peers with
  | nil => intro acc; simp
  | cons p t ih =>
    intro acc
    rw [List.foldl_cons, ih]
    by_cases hp : p.Status = "active"
    · simp [hp, List.filter_cons]
    · simp [hp, List.filter_cons]

/-- The loop keeps the active peers, in order. -/
theorem activePeers_eq_filter (peers : List Peer) :
    activePeers peers = peers.filter (fun peer => peer.Status = "active") := by
  unfold activePeers
  rw [activePeers_fold, List.nil_append]

/-- Reading back what `Encode` wrote: the peers of the data whose status is `active`. -/
theorem LoadDiscoveryData_encode (layout : time.Layout) (data : types.DiscoveryData)
    (disk : os.FileSystem) (path : String)
    (hdisk : disk path = some (storage.encodeDiscoveryData layout data))
    (hv : json.isInt64 data.Version = true)
    (h : ∀ p ∈ data.Peers.getD [], json.isInt64 p.VNI = true) :
    LoadDiscoveryData layout disk path =
      (((data.Peers.getD []).map (Peer.ofTypes layout)).filter
        (fun peer => peer.Status = "active"), none) := by
  simp only [LoadDiscoveryData, hdisk, storage.encodeDiscoveryData, utf8.decode_encode,
    json.parseDoc_renderIndent, Option.some_bind,
    DiscoveryData.data_fromJson_toJson layout data hv h, activePeers_eq_filter]

end discovery

namespace storage

theorem FileStorage.tempFile_ne (fs : FileStorage) : fs.tempFile ≠ fs.discoveryFile := by
  intro h
  have hlen := congrArg String.length h
  simp only [FileStorage.tempFile, FileStorage.discoveryFile, filepath.Join,
    String.length_append] at hlen
  have h1 : (DiscoveryFile ++ ".tmp").length = 18 := by decide
  have h2 : DiscoveryFile.length = 14 := by decide
  rw [String.length_append] at h1
  omega

/-- The published file after `WriteDiscoveryFile`, and after each of its file operations:
the new text when `nil` is returned, the old content otherwise. -/
theorem FileStorage.WriteDiscoveryFile_content (layout : time.Layout) (faults : os.Faults)
    (o : RangeOrder) (now : time.Time) (fs : FileStorage) (disk : os.FileSystem) :
    ((fs.WriteDiscoveryFile layout faults o now disk).2 = none →
      (fs.WriteDiscoveryFile layout faults o now disk).1.1 fs.discoveryFile =
        some (encodeDiscoveryData layout (fs.snapshot o now))) ∧
    ((fs.WriteDiscoveryFile layout faults o now disk).2 ≠ none →
      (fs.WriteDiscoveryFile layout faults o now disk).1.1 fs.discoveryFile =
        disk fs.discoveryFile) ∧
    ∀ step ∈ (fs.WriteDiscoveryFile layout faults o now disk).1.2,
      step.2.2 fs.discoveryFile = disk fs.discoveryFile ∨
      step.2.2 fs.discoveryFile = some (encodeDiscoveryData layout (fs.snapshot o now)) := by
  have hne : ¬ fs.discoveryFile = fs.tempFile := fun h => fs.tempFile_ne h.symm
  have hset : ∀ (dk : os.FileSystem) c, dk.set fs.tempFile c fs.discoveryFile =
      dk fs.discoveryFile := fun dk c => if_neg hne
  have hsame : ∀ (dk : os.FileSystem) (p : String) c, dk.set p c p = c :=
    fun dk p c => if_pos rfl
  unfold FileStorage.WriteDiscoveryFile
  rcases faults with ⟨fc, fw, fr⟩
  cases fc with
  | true => simp
  | false =>
    cases fw with
    | some n => simp [hset]
    | none =>
      cases fr with
      | true => simp [hset]
      | false => simp [hset, hsame]

theorem FileStorage.snapshot_peers (o : RangeOrder) (now : time.Time) (fs : FileStorage) :
    (fs.snapshot o now).Peers.getD [] = (GoMap.range o fs.peers).map Prod.snd := by
  unfold FileStorage.snapshot
  dsimp only
  split_ifs with h
  · rw [h]; rfl
  · rfl

theorem FileStorage.mem_snapshot (o : RangeOrder) (now : time.Time) (fs : FileStorage)
    (p : types.Peer) :
    p ∈ (fs.snapshot o now).Peers.getD [] ↔ ∃ key, fs.peers.lookup key = some p := by
  rw [FileStorage.snapshot_peers, List.mem_map]
  constructor
  · rintro ⟨⟨key, q⟩, hmem, rfl⟩
    exact ⟨key, (GoMap.mem_range o fs.peers key q).mp hmem⟩
  · rintro ⟨key, hkey⟩
    exact ⟨(key, p), (GoMap.mem_range o fs.peers key p).mpr hkey, rfl⟩

/-- What the router loads from the file of a successful `WriteDiscoveryFile`. -/
theorem FileStorage.load_written (layout : time.Layout) (faults : os.Faults) (o : RangeOrder)
    (now : time.Time) (fs : FileStorage) (disk : os.FileSystem)
    (hvni : ∀ e ∈ fs.peers.entries, json.isInt64 e.2.VNI = true)
    (hok : (fs.WriteDiscoveryFile layout faults o now disk).2 = none) :
    discovery.LoadDiscoveryData layout (fs.WriteDiscoveryFile layout faults o now disk).1.1
        fs.discoveryFile =
      ((((GoMap.range o fs.peers).map Prod.snd).map (discovery.Peer.ofTypes layout)).filter
        (fun peer => peer.Status = "active"), none) := by
  rw [discovery.LoadDiscoveryData_encode layout (fs.snapshot o now) _ _
    ((FileStorage.WriteDiscoveryFile_content layout faults o now fs disk).1 hok) rfl
    (fun p hp => by
      obtain ⟨key, hkey⟩ := (FileStorage.mem_snapshot o now fs p).mp hp
      exact hvni ⟨key, p⟩ (AList.mem_lookup_iff.mp hkey)),
    FileStorage.snapshot_peers]

theorem FileStorage.snapshot_empty (o : RangeOrder) (now : time.Time) (fs : FileStorage)
    (h : fs.peers = ∅) :
    fs.snapshot o now = { Version := 1, LastUpdate := now, Peers := none } := by
  unfold FileStorage.snapshot
  rw [h, GoMap.range_empty]
  rfl

theorem FileStorage.CleanupStale_empty (o : RangeOrder) (now : time.Time) (fs : FileStorage)
    (timeout : time.Duration) (h : fs.peers = ∅) : fs.CleanupStale o now timeout = fs := by
  unfold FileStorage.CleanupStale
  rw [h, GoMap.range_empty]
  rfl

end storage

/-! ## Reconcilers under arbitrary outcomes and peer replacement -/

namespace routing

theorem Manager.addStep_mem (k : Kernel) (s : Manager × Log) (kv : String × String)
    (x : String) (hx : x ∈ (Manager.addStep k s kv).1.routes) :
    x ∈ s.1.routes ∨ x = kv.1 := by
  have hadd : x ∈ (Manager.addRouteUnsafe k s kv.1 kv.2).1.1.routes →
      x ∈ s.1.routes ∨ x = kv.1 := by
    intro h
    unfold Manager.addRouteUnsafe at h
    dsimp only at h
    split_ifs at h
    · rcases (AList.mem_insert _).mp h with h | h
      · exact Or.inr h
      · exact Or.inl h
    · exact Or.inl h
  unfold Manager.addStep at hx
  split at hx
  · exact hadd hx
  · split_ifs at hx
    · exact hadd hx
    · exact Or.inl hx

theorem Manager.addStep_fold_mem (k : Kernel) :
    ∀ (l : List (String × String)) (s : Manager × Log) (x : String),
      x ∈ (l.foldl (Manager.addStep k) s).1.routes → x ∈ s.1.routes ∨ x ∈ l.map Prod.fst := by
  intro l
  induction l with
  | nil => intro s x hx; exact Or.inl hx
  | cons a t ih =>
    intro s x hx
    rw [List.foldl_cons] at hx
    rcases ih _ x hx with h | h
    · rcases Manager.addStep_mem k s a x h with h | h
      · exact Or.inl h
      · exact Or.inr (by rw [h]; exact List.mem_map_of_mem Prod.fst (List.mem_cons_self a t))
    · exact Or.inr (List.mem_cons_of_mem _ h)

/-- Whatever the kernel answers, every tracked subnet is a key of the desired map. -/
theorem Manager.UpdateRoutes_mem_newRoutes (k : Kernel) (o₁ o₂ : RangeOrder) (m : Manager)
    (peers : List discovery.Peer) (x : String)
    (hx : x ∈ (m.UpdateRoutes k o₁ o₂ peers).1.1.routes) : x ∈ m.newRoutes peers := by
  unfold Manager.UpdateRoutes at hx
  dsimp only at hx
  rcases Manager.addStep_fold_mem k _ _ x hx with h | h
  · obtain ⟨_, _, h3⟩ := Manager.removeStep_fold k (m.newRoutes peers)
      (GoMap.range o₁ m.routes) (m, [])
    rw [← AList.lookup_isSome, h3 x] at h
    by_cases hnew : (m.newRoutes peers).lookup x = none
    · by_cases hmem : x ∈ (GoMap.range o₁ m.routes).map Prod.fst
      · rw [if_pos ⟨hmem, hnew⟩] at h
        simp at h
      · rw [if_neg (fun hc => hmem hc.1)] at h
        rw [GoMap.mem_range_keys] at hmem
        rw [AList.lookup_isSome] at h
        exact absurd h hmem
    · rw [← AList.lookup_isSome]
      exact Option.ne_none_iff_isSome.mp hnew
  · exact (GoMap.mem_range_keys o₂ _ x).mp h

/-- When the tracked map already agrees with the desired map, `UpdateRoutes` issues no
command and leaves the manager as it is. -/
theorem Manager.UpdateRoutes_settled (k : Kernel) (o₁ o₂ : RangeOrder) (m : Manager)
    (peers : List discovery.Peer)
    (h : ∀ x, m.routes.lookup x = (m.newRoutes peers).lookup x) :
    m.UpdateRoutes k o₁ o₂ peers = ((m, []), none) := by
  have h1 : (GoMap.range o₁ m.routes).foldl
      (Manager.removeStep k (m.newRoutes peers)) (m, []) = (m, []) := by
    apply List.foldl_noop
    rintro ⟨x, v⟩ hkv
    have hx := (GoMap.mem_range o₁ m.routes x v).mp hkv
    rw [h x] at hx
    simp [Manager.removeStep, hx]
  have h2 : (GoMap.range o₂ (m.newRoutes peers)).foldl (Manager.addStep k) (m, []) =
      (m, []) := by
    apply List.foldl_noop
    rintro ⟨x, v⟩ hkv
    have hx := (GoMap.mem_range o₂ _ x v).mp hkv
    rw [← h x] at hx
    simp [Manager.addStep, hx]
  simp only [Manager.UpdateRoutes, h1, h2]

/-- The desired map does not depend on the host IPs of the peers. -/
theorem Manager.newRoutes_hostIP (m : Manager) (before after : List discovery.Peer)
    (p : discovery.Peer) (y : String) :
    m.newRoutes (before ++ { p with HostIP := y } :: after) =
      m.newRoutes (before ++ p :: after) := by
  have hstep : ∀ acc, m.planStep acc { p with HostIP := y } = m.planStep acc p :=
    fun acc => rfl
  simp only [Manager.newRoutes, List.foldl_append, List.foldl_cons, hstep]

end routing

namespace fdb

/-- The remove loop when exactly one tracked host, `x`, is no longer current: one delete. -/
theorem Manager.fdbRemoveStep_single (k : Kernel) (cur : GoMap Bool)
    (l : List (String × String)) (s : Manager × Log) (x : String)
    (hx : x ∈ l.map Prod.fst) (hnodup : (l.map Prod.fst).Nodup)
    (hgone : (cur.lookup x).getD false = false)
    (hkeep : ∀ z ∈ l.map Prod.fst, z ≠ x → (cur.lookup z).getD false = true) :
    l.foldl (Manager.removeStep k cur) s = (Manager.removeEntryUnsafe k s x).1 := by
  obtain ⟨⟨x', v⟩, hmem, rfl⟩ := List.mem_map.mp hx
  obtain ⟨l₁, l₂, rfl⟩ := List.append_of_mem hmem
  rw [List.map_append, List.map_cons, List.nodup_append] at hnodup
  obtain ⟨_, hnd₂, hdisj⟩ := hnodup
  have hnoop : ∀ (t : List (String × String)) (s' : Manager × Log),
      (∀ kv ∈ t, kv.1 ≠ x') → (∀ kv ∈ t, kv.1 ∈ (l₁ ++ (x', v) :: l₂).map Prod.fst) →
      t.foldl (Manager.removeStep k cur) s' = s' := by
    intro t s' hne hin
    apply List.foldl_noop
    intro kv hkv
    simp [Manager.removeStep, hkeep kv.1 (hin kv hkv) (hne kv hkv)]
  rw [List.foldl_append, List.foldl_cons,
    hnoop l₁ s (fun kv hkv heq => hdisj (List.mem_map_of_mem Prod.fst hkv)
      (by rw [heq]; exact List.mem_cons_self _ _))
      (fun kv hkv => List.mem_map_of_mem Prod.fst (List.mem_append_left _ hkv))]
  have hstep : Manager.removeStep k cur s (x', v) = (Manager.removeEntryUnsafe k s x').1 := by
    simp [Manager.removeStep, hgone]
  rw [hstep]
  apply hnoop l₂
  · intro kv hkv heq
    have hin : kv.1 ∈ l₂.map Prod.fst := List.mem_map_of_mem Prod.fst hkv
    rw [heq] at hin
    exact (List.nodup_cons.mp hnd₂).1 hin
  · intro kv hkv
    exact List.mem_map_of_mem Prod.fst
      (List.mem_append_right _ (List.mem_cons_of_mem _ hkv))

/-- The add loop when exactly one current host, `y`, is not tracked: one append. -/
theorem Manager.fdbAddStep_single (k : Kernel) (l : List (String × Bool))
    (s : Manager × Log) (y : String)
    (hy : y ∈ l.map Prod.fst) (hnodup : (l.map Prod.fst).Nodup)
    (hnew : s.1.entries.lookup y = none)
    (hold : ∀ z ∈ l.map Prod.fst, z ≠ y → s.1.entries.lookup z ≠ none) :
    ∃ b, (l.foldl (Manager.addStep k) s).2 = s.2 ++ [(s.1.appendCmd y, b)] := by
  obtain ⟨⟨y', v⟩, hmem, rfl⟩ := List.mem_map.mp hy
  obtain ⟨l₁, l₂, rfl⟩ := List.append_of_mem hmem
  rw [List.map_append, List.map_cons, List.nodup_append] at hnodup
  obtain ⟨_, hnd₂, hdisj⟩ := hnodup
  have hnoop : ∀ (t : List (String × Bool)) (s' : Manager × Log),
      (∀ kv ∈ t, s'.1.entries.lookup kv.1 ≠ none) →
      t.foldl (Manager.addStep k) s' = s' := by
    intro t s' htr
    apply List.foldl_noop
    intro kv hkv
    exact Manager.fdbAddStep_tracked k s' kv (htr kv hkv)
  have h₁ : ∀ kv ∈ l₁, kv.1 ≠ y' := fun kv hkv heq =>
    hdisj (List.mem_map_of_mem Prod.fst hkv) (by rw [heq]; exact List.mem_cons_self _ _)
  have h₂ : ∀ kv ∈ l₂, kv.1 ≠ y' := by
    intro kv hkv heq
    have hin : kv.1 ∈ l₂.map Prod.fst := List.mem_map_of_mem Prod.fst hkv
    rw [heq] at hin
    exact (List.nodup_cons.mp hnd₂).1 hin
  rw [List.foldl_append, List.foldl_cons,
    hnoop l₁ s (fun kv hkv => hold kv.1
      (List.mem_map_of_mem Prod.fst (List.mem_append_left _ hkv)) (h₁ kv hkv))]
  obtain ⟨b, hlog, _, _, hother⟩ := Manager.fdbAddStep_fresh k s (y', v) hnew
  refine ⟨b, ?_⟩
  rw [hnoop l₂ _ (fun kv hkv => by
    rw [hother kv.1 (h₂ kv hkv)]
    exact hold kv.1 (List.mem_map_of_mem Prod.fst
      (List.mem_append_right _ (List.mem_cons_of_mem _ hkv))) (h₂ kv hkv))]
  exact hlog

/-- One host IP replaced in a converged manager: `UpdateEntries` logs the delete of the old
address and then the append of the new one, and nothing else. -/
theorem Manager.UpdateEntries_replace (k : Kernel) (o₁ o₂ : RangeOrder) (m : Manager)
    (hosts hosts₂ : List String) (x y : String)
    (htracked : ∀ z, z ∈ m.entries ↔ z ∈ hosts)
    (hx : x ∈ hosts) (hx₂ : x ∉ hosts₂) (hy : y ∉ hosts) (hy₂ : y ∈ hosts₂)
    (hrest : ∀ z, z ≠ x → z ≠ y → (z ∈ hosts ↔ z ∈ hosts₂)) :
    ∃ b₁ b₂, (m.UpdateEntries k o₁ o₂ hosts₂).1.2 =
      [(m.delCmd x, b₁), (m.appendCmd y, b₂)] := by
  have hxy : x ≠ y := fun h => hy (h ▸ hx)
  have hrem : (GoMap.range o₁ m.entries).foldl (Manager.removeStep k (currentHosts hosts₂))
      (m, []) = (Manager.removeEntryUnsafe k (m, []) x).1 := by
    apply Manager.fdbRemoveStep_single k _ _ _ x
    · exact (GoMap.mem_range_keys o₁ m.entries x).mpr ((htracked x).mpr hx)
    · exact GoMap.range_nodup o₁ m.entries
    · rw [currentHosts_lookup, if_neg hx₂]
      rfl
    · intro z hz hzx
      have hzm := (htracked z).mp ((GoMap.mem_range_keys o₁ m.entries z).mp hz)
      have hzy : z ≠ y := fun h => hy (h ▸ hzm)
      rw [currentHosts_lookup, if_pos ((hrest z hzx hzy).mp hzm)]
      rfl
  have hlook : ∀ z, z ≠ x →
      (Manager.removeEntryUnsafe k (m, []) x).1.1.entries.lookup z = m.entries.lookup z := by
    intro z hz
    simp [Manager.removeEntryUnsafe, AList.lookup_erase_ne hz]
  obtain ⟨b, hb⟩ := Manager.fdbAddStep_single k (GoMap.range o₂ (currentHosts hosts₂))
    (Manager.removeEntryUnsafe k (m, []) x).1 y
    ((GoMap.mem_range_keys o₂ _ y).mpr ((mem_currentHosts hosts₂ y).mpr hy₂))
    (GoMap.range_nodup o₂ _)
    (by
      rw [hlook y (Ne.symm hxy), AList.lookup_eq_none]
      exact fun h => hy ((htracked y).mp h))
    (by
      intro z hz hzy
      have hz₂ := (mem_currentHosts hosts₂ z).mp ((GoMap.mem_range_keys o₂ _ z).mp hz)
      have hzx : z ≠ x := fun h => hx₂ (h ▸ hz₂)
      rw [hlook z hzx, Ne, AList.lookup_eq_none, not_not]
      exact (htracked z).mpr ((hrest z hzx hzy).mpr hz₂))
  refine ⟨k [] (m.delCmd x), b, ?_⟩
  simp only [Manager.UpdateEntries, hrem, hb]
  rfl

end fdb

/-! ## Text processing: lemmas -/

namespace strings

theorem splitChars_ne_nil (sep : Char) (l : List Char) : splitChars sep l ≠ [] := by
  cases l with
  | nil => simp [splitChars]
  | cons c cs =>
    unfold splitChars
    split_ifs
    · simp
    · split <;> simp

theorem splitChars_cons_other (sep c : Char) (cs : List Char) (h : c ≠ sep) :
    ∃ piece pieces, splitChars sep cs = piece :: pieces ∧
      splitChars sep (c :: cs) = (c :: piece) :: pieces := by
  cases hs : splitChars sep cs with
  | nil => exact absurd hs (splitChars_ne_nil sep cs)
  | cons piece pieces =>
    refine ⟨piece, pieces, rfl, ?_⟩
    rw [splitChars, if_neg h, hs]

/-- A text without the separator is one piece; before the first separator lies the first
piece. -/
theorem splitChars_append (sep : Char) (a : List Char) (h : sep ∉ a) :
    splitChars sep a = [a] ∧
    ∀ rest, splitChars sep (a ++ sep :: rest) = a :: splitChars sep rest := by
  induction a with
  | nil =>
    refine ⟨rfl, fun rest => ?_⟩
    rw [List.nil_append, splitChars, if_pos rfl]
  | cons c cs ih =>
    have hc : c ≠ sep := fun hc => h (hc ▸ List.mem_cons_self c cs)
    obtain ⟨ih₁, ih₂⟩ := ih (fun hm => h (List.mem_cons_of_mem c hm))
    constructor
    · rw [splitChars, if_neg hc, ih₁]
    · intro rest
      rw [List.cons_append, splitChars, if_neg hc, ih₂ rest]

theorem splitChars_joinChars (sep : Char) :
    ∀ parts : List (List Char), (∀ a ∈ parts, sep ∉ a) → parts ≠ [] →
      splitChars sep (vxlan.joinChars sep parts) = parts := by
  intro parts
  induction parts with
  | nil => intro _ h; exact absurd rfl h
  | cons a t ih =>
    intro hsep _
    cases t with
    | nil => exact (splitChars_append sep a (hsep a (List.mem_cons_self a _))).1
    | cons b rest =>
      rw [vxlan.joinChars, (splitChars_append sep a (hsep a (List.mem_cons_self a _))).2,
        ih (fun x hx => hsep x (List.mem_cons_of_mem a hx)) (List.cons_ne_nil b rest)]

theorem fieldsChars_run (f : List Char) (hf : ∀ c ∈ f, unicode.IsSpace c = false) :
    ∀ (field rest : List Char), fieldsChars field (f ++ rest) = fieldsChars (field ++ f) rest := by
  induction f with
  | nil => intro field rest; rw [List.nil_append, List.append_nil]
  | cons c cs ih =>
    intro field rest
    rw [List.cons_append, fieldsChars, hf c (List.mem_cons_self c cs)]
    simp only [Bool.false_eq_true, if_false]
    rw [ih (fun x hx => hf x (List.mem_cons_of_mem c hx)), List.append_assoc]
    rfl

theorem fieldsChars_joinChars :
    ∀ parts : List (List Char),
      (∀ a ∈ parts, a ≠ [] ∧ ∀ c ∈ a, unicode.IsSpace c = false) →
      fieldsChars [] (vxlan.joinChars (Char.ofNat 32) parts) = parts := by
  intro parts
  induction parts with
  | nil => intro _; rfl
  | cons a t ih =>
    intro h
    obtain ⟨hne, hns⟩ := h a (List.mem_cons_self a t)
    cases t with
    | nil =>
      have := fieldsChars_run a hns [] []
      rw [List.append_nil, List.nil_append] at this
      rw [vxlan.joinChars, this, fieldsChars, if_neg hne]
    | cons b rest =>
      rw [vxlan.joinChars, fieldsChars_run a hns, List.nil_append, fieldsChars]
      have hsp : unicode.IsSpace (Char.ofNat 32) = true := by decide
      rw [hsp]
      simp only [if_true]
      rw [if_neg hne, ih (fun x hx => h x (List.mem_cons_of_mem a hx))]

end strings

namespace vxlan

theorem specField_iff (field : String) :
    specField field = true ↔
      field.data ≠ [] ∧ ∀ c ∈ field.data, unicode.IsSpace c = false := by
  simp [specField, List.all_eq_true]

theorem mem_joinChars (sep : Char) :
    ∀ (parts : List (List Char)) (c : Char), c ∈ joinChars sep parts →
      c = sep ∨ ∃ a ∈ parts, c ∈ a := by
  intro parts
  induction parts with
  | nil => intro c hc; simp [joinChars] at hc
  | cons a t ih =>
    intro c hc
    cases t with
    | nil => exact Or.inr ⟨a, List.mem_cons_self a _, hc⟩
    | cons b rest =>
      rw [joinChars, List.mem_append, List.mem_cons] at hc
      rcases hc with h | h | h
      · exact Or.inr ⟨a, List.mem_cons_self a _, h⟩
      · exact Or.inl h
      · rcases ih c h with h | ⟨x, hx, hcx⟩
        · exact Or.inl h
        · exact Or.inr ⟨x, List.mem_cons_of_mem a hx, hcx⟩

theorem fieldAfter_eq_specValue (key : String) :
    ∀ fields : List String, fieldAfter key fields = specValue key fields := by
  intro fields
  induction fields with
  | nil => rfl
  | cons a t ih =>
    cases t with
    | nil =>
      by_cases ha : a = key
      · simp [fieldAfter, specValue, List.dropWhile, ha]
      · simp [fieldAfter, specValue, List.dropWhile, ha]
    | cons b rest =>
      by_cases ha : a = key
      · simp [fieldAfter, specValue, List.dropWhile, ha]
      · rw [fieldAfter, if_neg ha, ih]
        simp [specValue, List.dropWhile, ha]

/-- A line with a value for `key` contains the text `key` followed by a space. -/
theorem infix_of_specValue (key : String) :
    ∀ (fields : List String) (value : String), specValue key fields = some value →
      key.data ++ [Char.ofNat 32] <:+:
        joinChars (Char.ofNat 32) (fields.map String.data) := by
  intro fields
  induction fields with
  | nil => intro value h; simp [specValue] at h
  | cons a t ih =>
    intro value h
    cases t with
    | nil =>
      by_cases ha : a = key <;> simp [specValue, List.dropWhile, ha] at h
    | cons b rest =>
      by_cases ha : a = key
      · refine ⟨[], joinChars (Char.ofNat 32) ((b :: rest).map String.data), ?_⟩
        simp [joinChars, ha]
      · have h₂ : specValue key (b :: rest) = some value := by
          simpa [specValue, List.dropWhile, ha] using h
        obtain ⟨pre, post, hpp⟩ := ih value h₂
        refine ⟨a.data ++ Char.ofNat 32 :: pre, post, ?_⟩
        simp only [List.map_cons, joinChars, List.append_assoc, List.cons_append] at hpp ⊢
        rw [← hpp]

/-- The line loop on well-formed lines computes the spec's value. -/
theorem scanLines_specJoin (key : String) :
    ∀ lines : List (List String),
      (∀ fields ∈ lines, ∀ field ∈ fields, specField field = true) →
      scanLines key (lines.map (specJoin (Char.ofNat 32))) = specScan key lines := by
  intro lines
  induction lines with
  | nil => intro _; rfl
  | cons fields t ih =>
    intro h
    have hfields : strings.Fields (specJoin (Char.ofNat 32) fields) = fields := by
      unfold strings.Fields specJoin
      rw [strings.fieldsChars_joinChars _ (fun a ha => by
        obtain ⟨f, hf, rfl⟩ := List.mem_map.mp ha
        exact (specField_iff f).mp (h fields (List.mem_cons_self _ _) f hf))]
      rw [List.map_map]
      exact List.map_id'' (fun s => rfl) fields
    have ih' := ih (fun fs hfs => h fs (List.mem_cons_of_mem _ hfs))
    rw [List.map_cons, scanLines, hfields, fieldAfter_eq_specValue]
    unfold specScan at ih' ⊢
    cases hv : specValue key fields with
    | some value =>
      have hguard : strings.Contains (specJoin (Char.ofNat 32) fields)
          (key ++ " ") = true := by
        unfold strings.Contains specJoin
        rw [decide_eq_true_eq]
        exact infix_of_specValue key fields value hv
      rw [hguard]
      simp [List.filterMap_cons, hv]
    | none =>
      simp only [List.filterMap_cons, hv]
      split_ifs
      · exact ih'
      · exact ih'

theorem specJoin_no_newline (fields : List String)
    (h : ∀ field ∈ fields, specField field = true) :
    Char.ofNat 10 ∉ (specJoin (Char.ofNat 32) fields).data := by
  intro hmem
  rcases mem_joinChars _ _ _ hmem with hc | ⟨a, ha, hca⟩
  · exact absurd hc (by decide)
  · obtain ⟨f, hf, rfl⟩ := List.mem_map.mp ha
    have := ((specField_iff f).mp (h f hf)).2 _ hca
    revert this
    decide

/-- Scanning the lines of a well-formed output computes the spec's value. -/
theorem scanLines_specOutput (key : String) (lines : List (List String))
    (h : ∀ fields ∈ lines, ∀ field ∈ fields, specField field = true) :
    scanLines key (strings.Split (specOutput lines) (Char.ofNat 10)) = specScan key lines := by
  cases hl : lines with
  | nil =>
    have hguard : strings.Contains "" (key ++ " ") = false := by
      unfold strings.Contains
      rw [decide_eq_false_iff_not]
      rintro ⟨pre, post, hpp⟩
      have hlen := congrArg List.length hpp
      simp at hlen
    simp only [specOutput, specJoin, List.map_nil, joinChars, strings.Split,
      strings.splitChars, List.map_cons, scanLines, specScan, List.filterMap_nil,
      List.head?_nil]
    rw [show String.mk [] = "" from rfl, hguard]
    rfl
  | cons fields t =>
    rw [← hl]
    have hsplit : strings.Split (specOutput lines) (Char.ofNat 10) =
        lines.map (specJoin (Char.ofNat 32)) := by
      unfold strings.Split specOutput
      rw [show (specJoin (Char.ofNat 10) (lines.map (specJoin (Char.ofNat 32)))).data =
        joinChars (Char.ofNat 10) ((lines.map (specJoin (Char.ofNat 32))).map String.data)
        from rfl]
      rw [strings.splitChars_joinChars _ _ (fun a ha => by
        obtain ⟨s, hs, rfl⟩ := List.mem_map.mp ha
        obtain ⟨fs, hfs, rfl⟩ := List.mem_map.mp hs
        exact specJoin_no_newline fs (h fs hfs)) (by rw [hl]; simp)]
      rw [List.map_map]
      exact List.map_id'' (fun s => rfl) _
    rw [hsplit]
    exact scanLines_specJoin key lines h

end vxlan

/-! ## Provenance of peers: lemmas -/

namespace multicast

theorem Discovery.learnedFrom_mono (json : Json) (stackID : GoString)
    (past events : List Event)
    (key : String) (p : types.Peer) (h : Discovery.learnedFrom json stackID past key p) :
    Discovery.learnedFrom json stackID (past ++ events) key p := by
  obtain ⟨data, addr, now, unix, m, hmem, hrest⟩ := h
  exact ⟨data, addr, now, unix, m, List.mem_append_left _ hmem, hrest⟩

/-- One step keeps the local stack id, and every entry of the table is either an old entry
or was taken from the datagram of this step. -/
theorem Discovery.step_learnedFrom (json : Json) (d : Discovery) (e : Event) :
    (d.step json e).1.stackID = d.stackID ∧
    ∀ key p, (d.step json e).1.storage.peers.lookup key = some p →
      d.storage.peers.lookup key = some p ∨
      Discovery.learnedFrom json d.stackID [e] key p := by
  cases e with
  | datagram data addr now unix =>
    simp only [Discovery.step]
    rcases Discovery.handleMessage_cases json now unix d data addr with
      h0 | ⟨m, hm, hself, htype, h1⟩
    · rw [h0]
      exact ⟨rfl, fun key p hl => Or.inl hl⟩
    · rw [h1]
      obtain ⟨a1, a2, a3⟩ := Discovery.handleAnnouncement_table now d m addr
      refine ⟨a1, fun key p hl => ?_⟩
      by_cases hkey : key = m.StackID
      · subst hkey
        rw [a2] at hl
        right
        refine ⟨data, addr, now, unix, m, List.mem_singleton.mpr rfl, hm, htype, hself, rfl,
          ?_, ?_, ?_⟩ <;> rw [← Option.some.inj hl]
      · rw [a3 key hkey] at hl
        exact Or.inl hl
  | cleanupTick o now =>
    refine ⟨rfl, fun key p hl => Or.inl ?_⟩
    simp only [Discovery.step, storage.FileStorage.CleanupStale_lookup] at hl
    exact (Option.filter_eq_some.mp hl).1

theorem Discovery.run_learnedFrom (json : Json) (events : List Event) :
    ∀ (d : Discovery) (past : List Event),
      (∀ key p, d.storage.peers.lookup key = some p →
        Discovery.learnedFrom json d.stackID past key p) →
      ∀ key p, (d.run json events).storage.peers.lookup key = some p →
        Discovery.learnedFrom json d.stackID (past ++ events) key p := by
  induction events with
  | nil =>
    intro d past h key p hl
    rw [List.append_nil]
    exact h key p hl
  | cons e t ih =>
    intro d past h key p hl
    obtain ⟨hid, hstep⟩ := Discovery.step_learnedFrom json d e
    have hnext := ih (d.step json e).1 (past ++ [e]) (fun key' p' hl' => by
      rw [hid]
      rcases hstep key' p' hl' with hold | hnew
      · exact Discovery.learnedFrom_mono json d.stackID past [e] key' p' (h key' p' hold)
      · obtain ⟨data, addr, now, unix, m, hmem, hrest⟩ := hnew
        exact ⟨data, addr, now, unix, m, List.mem_append_right _ hmem, hrest⟩) key p hl
    rw [hid, List.append_assoc] at hnext
    exact hnext

end multicast

/-! ## FDB deletes, overlapping publications, accepted datagrams: lemmas -/

namespace fdb

theorem Manager.fdbRemoveStep_log_sub (k : Kernel) (cur : GoMap Bool) :
    ∀ (l : List (String × String)) (s : Manager × Log),
      s.2 ⊆ (l.foldl (Manager.removeStep k cur) s).2 := by
  intro l
  induction l with
  | nil => intro s; exact List.Subset.refl _
  | cons a t ih =>
    intro s
    rw [List.foldl_cons]
    refine List.Subset.trans ?_ (ih _)
    unfold Manager.removeStep
    split_ifs
    · exact List.subset_append_left _ _
    · exact List.Subset.refl _

/-- The remove loop issues a delete for every listed host that is not current. -/
theorem Manager.fdbRemoveStep_issued (k : Kernel) (cur : GoMap Bool) :
    ∀ (l : List (String × String)) (s : Manager × Log) (x : String),
      x ∈ l.map Prod.fst → (cur.lookup x).getD false = false →
      ∃ b, (s.1.delCmd x, b) ∈ (l.foldl (Manager.removeStep k cur) s).2 := by
  intro l
  induction l with
  | nil => intro s x hx; simp at hx
  | cons a t ih =>
    intro s x hx hcur
    rw [List.foldl_cons]
    rw [List.map_cons, List.mem_cons] at hx
    have hname : (Manager.removeStep k cur s a).1.interfaceName = s.1.interfaceName :=
      (Manager.fdbRemoveStep_fold k cur [a] s).1
    rcases hx with hx | hx
    · subst hx
      refine ⟨k s.2 (s.1.delCmd a.1), ?_⟩
      apply Manager.fdbRemoveStep_log_sub k cur t
      simp [Manager.removeStep, hcur, Manager.removeEntryUnsafe]
    · obtain ⟨b, hb⟩ := ih (Manager.removeStep k cur s a) x hx hcur
      refine ⟨b, ?_⟩
      simpa [Manager.delCmd, hname] using hb

/-- `UpdateEntries` issues a delete for every tracked host that is not in the list. -/
theorem Manager.UpdateEntries_delete_issued (k : Kernel) (o₁ o₂ : RangeOrder) (m : Manager)
    (hostIPs : List String) (x : String) (hT : x ∈ m.entries) (hx : x ∉ hostIPs) :
    ∃ b, (m.delCmd x, b) ∈ (m.UpdateEntries k o₁ o₂ hostIPs).1.2 := by
  obtain ⟨b, hb⟩ := Manager.fdbRemoveStep_issued k (currentHosts hostIPs)
    (GoMap.range o₁ m.entries) (m, []) x ((GoMap.mem_range_keys o₁ m.entries x).mpr hT)
    (by rw [currentHosts_lookup, if_neg hx]; rfl)
  exact ⟨b, Manager.fdbAddStep_fold_log_sub k _ _ hb⟩

end fdb

namespace storage

/-- A call of `WriteDiscoveryFile` on which nothing fails makes the operations `writeOps`,
each with success, and leaves the files that these operations leave. -/
theorem FileStorage.WriteDiscoveryFile_ops (layout : time.Layout) (o : RangeOrder)
    (now : time.Time) (fs : FileStorage) (disk : os.FileSystem) :
    (fs.WriteDiscoveryFile layout os.Faults.none o now disk).2 = none ∧
    (fs.WriteDiscoveryFile layout os.Faults.none o now disk).1.2.map Prod.fst =
      fs.writeOps layout o now ∧
    (∀ step ∈ (fs.WriteDiscoveryFile layout os.Faults.none o now disk).1.2,
      step.2.1 = true) ∧
    (fs.WriteDiscoveryFile layout os.Faults.none o now disk).1.1 =
      (fs.writeOps layout o now).foldl os.FileOp.run disk := by
  refine ⟨rfl, rfl, ?_, ?_⟩
  · intro step hstep
    simp only [FileStorage.WriteDiscoveryFile, os.Faults.none, Bool.false_eq_true, if_false,
      List.mem_cons, List.mem_singleton, List.not_mem_nil, or_false] at hstep
    rcases hstep with h | h | h <;> rw [h]
  · simp only [FileStorage.WriteDiscoveryFile, os.Faults.none, Bool.false_eq_true, if_false,
      FileStorage.writeOps, List.foldl_cons, List.foldl_nil, os.FileOp.run]

end storage

namespace multicast

/-- A datagram that decodes to an `ANNOUNCE` or `RESPONSE` of another stack makes
`listenLoop` publish the discovery file. -/
theorem Discovery.step_accepted (json : Json) (now : time.Time) (unix : Int) (d : Discovery)
    (data : List UInt8) (addr : UDPAddr) (m : types.MulticastMessage)
    (hm : json.Unmarshal data = some m) (hself : GoString.ofText m.StackID ≠ d.stackID)
    (htype : m.Type_ = types.MessageTypeAnnounce ∨ m.Type_ = types.MessageTypeResponse) :
    ∃ peers, (d.step json (Event.datagram data addr now unix)).2 =
      [Effect.WriteDiscoveryFile peers] := by
  refine ⟨(d.handleAnnouncement now m addr).1.storage.peers, ?_⟩
  simp only [Discovery.step]
  unfold Discovery.handleMessage
  rw [hm]
  dsimp only
  rcases htype with ha | hr
  · rw [if_neg hself, if_pos ha]
    rfl
  · have hna : ¬ m.Type_ = types.MessageTypeAnnounce := by rw [hr]; decide
    have hnq : ¬ m.Type_ = types.MessageTypeQuery := by rw [hr]; decide
    rw [if_neg hself, if_neg hna, if_neg hnq, if_pos hr]
    rfl

end multicast

/-! ## Claims -/

/-- C1 (amended).  Route reconciler convergence.  For every prior tracked route map, every
configuration, every peer list `peers`, every kernel and every iteration order: if every
kernel command issued during the call succeeds and no two peers of `peers` that are remote
and mapped have the same container subnet with different overlay addresses, then after
`UpdateRoutes(peers)` the tracked route set is exactly the set of pairs
`(container_subnet, vxlan_ip)` of the remote, mapped peers of `peers`. -/
theorem UpdateRoutes_converges (k : Kernel) (o₁ o₂ : RangeOrder) (m : routing.Manager)
    (peers : List discovery.Peer)
    (hok : ∀ e ∈ (m.UpdateRoutes k o₁ o₂ peers).1.2, e.2 = true)
    (hclash : ∀ p ∈ peers, ∀ q ∈ peers,
      p.StackID ≠ m.config.StackID → q.StackID ≠ m.config.StackID →
      (m.config.GetStackConfig p.StackID).2 = true →
      (m.config.GetStackConfig q.StackID).2 = true →
      (m.config.GetStackConfig p.StackID).1.ContainerSubnet =
        (m.config.GetStackConfig q.StackID).1.ContainerSubnet →
      (m.config.GetStackConfig p.StackID).1.VXLANIP =
        (m.config.GetStackConfig q.StackID).1.VXLANIP) :
    ∀ subnet nextHop,
      (m.UpdateRoutes k o₁ o₂ peers).1.1.routes.lookup subnet = some nextHop ↔
        m.specRoute peers subnet nextHop := by
  intro x h
  rw [(routing.Manager.UpdateRoutes_lookup k o₁ o₂ m peers hok).2.2 x,
    routing.Manager.specRoute_iff]
  constructor
  · intro hl
    rcases routing.Manager.newRoutes_sound m peers ∅ x h hl with h0 | h1
    · simp at h0
    · exact h1
  · rintro ⟨p, hp, hself, sc, hsc, hsub, hv⟩
    refine routing.Manager.newRoutes_complete m peers ∅ x h ?_
      (Or.inr ⟨p, hp, hself, sc, hsc, hsub, hv⟩)
    intro q hq hqself sc' hsc' hsub'
    have hp2 : (m.config.GetStackConfig p.StackID) = (sc, true) := by
      simp [config.Config.GetStackConfig, hsc]
    have hq2 : (m.config.GetStackConfig q.StackID) = (sc', true) := by
      simp [config.Config.GetStackConfig, hsc']
    have := hclash q hq p hp hqself hself (by rw [hq2]) (by rw [hp2])
      (by rw [hq2, hp2]; exact hsub'.trans hsub.symm)
    rw [hq2, hp2] at this
    exact this.trans hv

/-- C1, witness: a manager tracking a stale route, peers `B` and `C` on distinct subnets. -/
theorem UpdateRoutes_converges_witness :
    (∀ e ∈ (sample.routesOld.UpdateRoutes Kernel.allOk RangeOrder.stored RangeOrder.reversed
      sample.peersBC).1.2, e.2 = true) ∧
    ∀ subnet nextHop,
      (sample.routesOld.UpdateRoutes Kernel.allOk RangeOrder.stored RangeOrder.reversed
        sample.peersBC).1.1.routes.lookup subnet = some nextHop ↔
        sample.routesOld.specRoute sample.peersBC subnet nextHop :=
  ⟨by decide, UpdateRoutes_converges Kernel.allOk RangeOrder.stored RangeOrder.reversed
    sample.routesOld sample.peersBC (by decide) (by decide)⟩

/-- C1, counterexample to the claim as stated.  `stack_mappings` gives `B` and `C` the
container subnet `10.0.2.0/24` behind `10.200.0.2` and `10.200.0.3`, nothing is tracked, the
peers are `[B, C]` and every command succeeds.  The pair `(10.0.2.0/24, 10.200.0.2)` is in
the claimed set, but the tracked map sends `10.0.2.0/24` to `10.200.0.3`: the tracked set is
not the claimed set. -/
theorem UpdateRoutes_converges_counterexample :
    (∀ e ∈ ((routing.NewManager "vxlan100" sample.cfgShared).UpdateRoutes Kernel.allOk
      RangeOrder.stored RangeOrder.stored sample.peersBC).1.2, e.2 = true) ∧
    ¬ (∀ subnet nextHop,
      ((routing.NewManager "vxlan100" sample.cfgShared).UpdateRoutes Kernel.allOk
        RangeOrder.stored RangeOrder.stored sample.peersBC).1.1.routes.lookup subnet
        = some nextHop ↔
      (routing.NewManager "vxlan100" sample.cfgShared).specRoute sample.peersBC
        subnet nextHop) := by
  refine ⟨by decide, fun h => ?_⟩
  have hspec : (routing.NewManager "vxlan100" sample.cfgShared).specRoute sample.peersBC
      "10.0.2.0/24" "10.200.0.2" := by decide
  have htracked := (h "10.0.2.0/24" "10.200.0.2").mpr hspec
  revert htracked
  decide

/-- C2.  Route reconciler idempotence.  For every prior tracked state, every peer list and
all kernels and iteration orders: if every kernel command of a first `UpdateRoutes(peers)`
succeeded, a second `UpdateRoutes(peers)` issues no kernel command and leaves the manager,
and so the tracked route map, unchanged. -/
theorem UpdateRoutes_idempotent (k₁ k₂ : Kernel) (o₁ o₂ o₃ o₄ : RangeOrder)
    (m : routing.Manager) (peers : List discovery.Peer)
    (hok : ∀ e ∈ (m.UpdateRoutes k₁ o₁ o₂ peers).1.2, e.2 = true) :
    ((m.UpdateRoutes k₁ o₁ o₂ peers).1.1.UpdateRoutes k₂ o₃ o₄ peers).1.2 = [] ∧
    ((m.UpdateRoutes k₁ o₁ o₂ peers).1.1.UpdateRoutes k₂ o₃ o₄ peers).1.1 =
      (m.UpdateRoutes k₁ o₁ o₂ peers).1.1 := by
  obtain ⟨_, hcfg, hlook⟩ := routing.Manager.UpdateRoutes_lookup k₁ o₁ o₂ m peers hok
  generalize (m.UpdateRoutes k₁ o₁ o₂ peers).1.1 = m' at hcfg hlook
  have hnew := routing.Manager.newRoutes_config m m' hcfg peers
  have h1 : (GoMap.range o₃ m'.routes).foldl
      (routing.Manager.removeStep k₂ (m'.newRoutes peers)) (m', []) = (m', []) := by
    apply List.foldl_noop
    rintro ⟨x, v⟩ hkv
    have hx := (GoMap.mem_range o₃ m'.routes x v).mp hkv
    rw [hlook x, ← hnew] at hx
    simp [routing.Manager.removeStep, hx]
  have h2 : (GoMap.range o₄ (m'.newRoutes peers)).foldl
      (routing.Manager.addStep k₂) (m', []) = (m', []) := by
    apply List.foldl_noop
    rintro ⟨x, v⟩ hkv
    have hx := (GoMap.mem_range o₄ _ x v).mp hkv
    rw [hnew, ← hlook x] at hx
    simp [routing.Manager.addStep, hx]
  simp only [routing.Manager.UpdateRoutes, h1, h2, and_self]

/-- C2, witness: the second of two identical calls, under a kernel that would fail every
command and other iteration orders. -/
theorem UpdateRoutes_idempotent_witness :
    (∀ e ∈ (sample.routesOld.UpdateRoutes Kernel.allOk RangeOrder.stored RangeOrder.stored
      sample.peersBC).1.2, e.2 = true) ∧
    ((sample.routesOld.UpdateRoutes Kernel.allOk RangeOrder.stored RangeOrder.stored
      sample.peersBC).1.1.UpdateRoutes Kernel.allFail RangeOrder.reversed
      RangeOrder.reversed sample.peersBC).1.2 = [] ∧
    ((sample.routesOld.UpdateRoutes Kernel.allOk RangeOrder.stored RangeOrder.stored
      sample.peersBC).1.1.UpdateRoutes Kernel.allFail RangeOrder.reversed
      RangeOrder.reversed sample.peersBC).1.1 =
      (sample.routesOld.UpdateRoutes Kernel.allOk RangeOrder.stored RangeOrder.stored
        sample.peersBC).1.1 :=
  ⟨by decide, UpdateRoutes_idempotent Kernel.allOk Kernel.allFail RangeOrder.stored
    RangeOrder.stored RangeOrder.reversed RangeOrder.reversed sample.routesOld sample.peersBC
    (by decide)⟩

/-- C3.  FDB reconciler idempotence.  For every prior tracked set, every list of host IPs
(duplicates allowed) and all kernels and iteration orders: if every kernel command of a
first `UpdateEntries(hostIPs)` succeeded, a second `UpdateEntries(hostIPs)` issues no
`bridge fdb` command and leaves the manager, and so the tracked set, unchanged. -/
theorem UpdateEntries_idempotent (k₁ k₂ : Kernel) (o₁ o₂ o₃ o₄ : RangeOrder)
    (m : fdb.Manager) (hostIPs : List String)
    (hok : ∀ e ∈ (m.UpdateEntries k₁ o₁ o₂ hostIPs).1.2, e.2 = true) :
    ((m.UpdateEntries k₁ o₁ o₂ hostIPs).1.1.UpdateEntries k₂ o₃ o₄ hostIPs).1.2 = [] ∧
    ((m.UpdateEntries k₁ o₁ o₂ hostIPs).1.1.UpdateEntries k₂ o₃ o₄ hostIPs).1.1 =
      (m.UpdateEntries k₁ o₁ o₂ hostIPs).1.1 := by
  have hmem := fdb.Manager.UpdateEntries_ok_mem k₁ o₁ o₂ m hostIPs hok
  generalize (m.UpdateEntries k₁ o₁ o₂ hostIPs).1.1 = m' at hmem
  have h1 : (GoMap.range o₃ m'.entries).foldl
      (fdb.Manager.removeStep k₂ (fdb.currentHosts hostIPs)) (m', []) = (m', []) := by
    apply List.foldl_noop
    rintro ⟨x, v⟩ hkv
    have hx : x ∈ hostIPs := (hmem x).mp
      (AList.lookup_isSome.mp (by rw [(GoMap.mem_range o₃ m'.entries x v).mp hkv]; rfl))
    simp [fdb.Manager.removeStep, fdb.currentHosts_lookup, hx]
  have h2 : (GoMap.range o₄ (fdb.currentHosts hostIPs)).foldl
      (fdb.Manager.addStep k₂) (m', []) = (m', []) := by
    apply List.foldl_noop
    rintro ⟨x, v⟩ hkv
    have hx : x ∈ fdb.currentHosts hostIPs :=
      AList.lookup_isSome.mp (by rw [(GoMap.mem_range o₄ _ x v).mp hkv]; rfl)
    have hx' : x ∈ m'.entries := (hmem x).mpr ((fdb.mem_currentHosts hostIPs x).mp hx)
    exact fdb.Manager.fdbAddStep_tracked k₂ (m', []) (x, v)
      (fun h => (AList.lookup_eq_none.mp h) hx')
  simp only [fdb.Manager.UpdateEntries, h1, h2, and_self]

/-- C3, witness: a tracked set with a stale address, a host list with a duplicate. -/
theorem UpdateEntries_idempotent_witness :
    (∀ e ∈ (sample.fdbOld.UpdateEntries Kernel.allOk RangeOrder.stored RangeOrder.reversed
      sample.hostsDup).1.2, e.2 = true) ∧
    ((sample.fdbOld.UpdateEntries Kernel.allOk RangeOrder.stored RangeOrder.reversed
      sample.hostsDup).1.1.UpdateEntries Kernel.allFail RangeOrder.reversed
      RangeOrder.stored sample.hostsDup).1.2 = [] ∧
    ((sample.fdbOld.UpdateEntries Kernel.allOk RangeOrder.stored RangeOrder.reversed
      sample.hostsDup).1.1.UpdateEntries Kernel.allFail RangeOrder.reversed
      RangeOrder.stored sample.hostsDup).1.1 =
      (sample.fdbOld.UpdateEntries Kernel.allOk RangeOrder.stored RangeOrder.reversed
        sample.hostsDup).1.1 :=
  ⟨by decide, UpdateEntries_idempotent Kernel.allOk Kernel.allFail RangeOrder.stored
    RangeOrder.reversed RangeOrder.reversed RangeOrder.stored sample.fdbOld sample.hostsDup
    (by decide)⟩

/-- C4.  No self-membership.  Starting from the empty peer table, after any finite sequence
of received datagrams (any bytes, under any JSON decoder) and cleanup ticks, the local
stack id is unchanged and no entry of the peer table is keyed by it or carries it. -/
theorem no_self_membership (json : multicast.Json) (d : multicast.Discovery)
    (events : List multicast.Event) (hempty : d.storage.peers = ∅) :
    (d.run json events).stackID = d.stackID ∧
    ∀ key p, (d.run json events).storage.peers.lookup key = some p →
      GoString.ofText key ≠ d.stackID ∧ GoString.ofText p.StackID ≠ d.stackID := by
  have h0 : d.noSelf := by
    intro key p hl
    rw [hempty] at hl
    simp at hl
  obtain ⟨r1, r2⟩ := multicast.Discovery.run_noSelf json events d h0
  refine ⟨r1, fun key p hl => ?_⟩
  have := r2 key p hl
  rwa [r1] at this

/-- C4, witness: a self-echo, an announcement of `B`, garbage and a cleanup tick. -/
theorem no_self_membership_witness :
    sample.daemonA.storage.peers = ∅ ∧
    (sample.daemonA.run sample.json sample.trace).stackID = sample.daemonA.stackID ∧
    ∀ key p, (sample.daemonA.run sample.json sample.trace).storage.peers.lookup key = some p →
      GoString.ofText key ≠ sample.daemonA.stackID ∧
        GoString.ofText p.StackID ≠ sample.daemonA.stackID :=
  ⟨rfl, no_self_membership sample.json sample.daemonA sample.trace rfl⟩

/-- C5.  Expiry boundary.  For every peer table, timeout, current time and iteration
order, `CleanupStale(timeout)` keeps, unchanged, exactly the entries whose age
`now - last_seen` is at most `timeout` and removes the others; an entry whose age equals
`timeout` is retained and one whose age is strictly greater is removed. -/
theorem CleanupStale_expiry_boundary (o : RangeOrder) (now : time.Time)
    (fs : storage.FileStorage) (timeout : time.Duration) :
    (∀ stackID, (fs.CleanupStale o now timeout).peers.lookup stackID =
      (fs.peers.lookup stackID).filter
        (fun p => decide ((now.val : Int) - (p.LastSeen.val : Int) ≤ timeout))) ∧
    (∀ stackID p, fs.peers.lookup stackID = some p →
      (now.val : Int) - (p.LastSeen.val : Int) = timeout →
      (fs.CleanupStale o now timeout).peers.lookup stackID = some p) ∧
    (∀ stackID p, fs.peers.lookup stackID = some p →
      (now.val : Int) - (p.LastSeen.val : Int) > timeout →
      (fs.CleanupStale o now timeout).peers.lookup stackID = none) := by
  refine ⟨fun x => storage.FileStorage.CleanupStale_lookup o now fs timeout x, ?_, ?_⟩
  · intro x p hl hage
    rw [storage.FileStorage.CleanupStale_lookup, hl]
    simp [Option.filter, hage]
  · intro x p hl hage
    rw [storage.FileStorage.CleanupStale_lookup, hl]
    simp [Option.filter, not_le.mpr hage]

/-- C5, witness: at 100 s with a timeout of 90 s, `B` (age exactly 90 s) is retained and
`C` (age 91 s) is removed. -/
theorem CleanupStale_expiry_boundary_witness :
    (sample.tableBC.CleanupStale RangeOrder.reversed 100000000000 90000000000).peers.lookup
      "B" = some sample.peerB ∧
    (sample.tableBC.CleanupStale RangeOrder.reversed 100000000000 90000000000).peers.lookup
      "C" = none :=
  ⟨(CleanupStale_expiry_boundary RangeOrder.reversed 100000000000 sample.tableBC
      90000000000).2.1 "B" sample.peerB (by decide) (by decide),
   (CleanupStale_expiry_boundary RangeOrder.reversed 100000000000 sample.tableBC
      90000000000).2.2 "C" sample.peerC (by decide) (by decide)⟩

/-- C6.  Upsert postcondition.  For every peer table and every datagram that decodes to an
`ANNOUNCE` or `RESPONSE` message `m` with `m.stack_id` different from the local stack id,
handled at time `now`: afterwards the table maps `m.stack_id` to the peer with
`host_ip = m.host_ip`, `vni = m.vni`, `vxlan_endpoint = m.host_ip ++ ":4789"`,
`last_seen = now`, `status = active`, and every entry under another stack id is unchanged.
Handling the same datagram again at `now₂` gives the table of handling it once at `now₂`,
which differs from the table after the first handling only in `last_seen`. -/
theorem handleMessage_upsert (json : multicast.Json) (now now₂ : time.Time) (unix unix₂ : Int)
    (d : multicast.Discovery) (data : List UInt8) (addr addr₂ : multicast.UDPAddr)
    (m : types.MulticastMessage) (hparse : json.Unmarshal data = some m)
    (htype : m.Type_ = types.MessageTypeAnnounce ∨ m.Type_ = types.MessageTypeResponse)
    (hself : GoString.ofText m.StackID ≠ d.stackID) :
    (d.handleMessage json now unix data addr).1.storage.peers.lookup m.StackID =
      some { StackID := m.StackID, HostIP := m.HostIP, VXLANEndpoint := m.HostIP ++ ":4789",
             VNI := m.VNI, LastSeen := now, Status := types.PeerStatusActive } ∧
    (∀ key, key ≠ m.StackID →
      (d.handleMessage json now unix data addr).1.storage.peers.lookup key =
        d.storage.peers.lookup key) ∧
    (∀ key, ((d.handleMessage json now unix data addr).1.handleMessage json now₂ unix₂ data
        addr₂).1.storage.peers.lookup key =
      (d.handleMessage json now₂ unix₂ data addr₂).1.storage.peers.lookup key) ∧
    (∀ key, (((d.handleMessage json now unix data addr).1.handleMessage json now₂ unix₂ data
        addr₂).1.storage.peers.lookup key).map (fun p => { p with LastSeen := 0 }) =
      ((d.handleMessage json now unix data addr).1.storage.peers.lookup key).map
        (fun p => { p with LastSeen := 0 })) := by
  have hstep : ∀ (t : time.Time) (u : Int) (a : multicast.UDPAddr) (d' : multicast.Discovery),
      d'.stackID = d.stackID →
      (d'.handleMessage json t u data a).1 = (d'.handleAnnouncement t m a).1 := by
    intro t u a d' hd'
    have hself' : ¬ GoString.ofText m.StackID = d'.stackID := by rw [hd']; exact hself
    unfold multicast.Discovery.handleMessage
    rw [hparse]
    dsimp only
    rcases htype with ha | hr
    · rw [if_neg hself', if_pos ha]
    · have hna : ¬ m.Type_ = types.MessageTypeAnnounce := by rw [hr]; decide
      have hnq : ¬ m.Type_ = types.MessageTypeQuery := by rw [hr]; decide
      rw [if_neg hself', if_neg hna, if_neg hnq, if_pos hr]
      rfl
  obtain ⟨a1, a2, a3⟩ := multicast.Discovery.handleAnnouncement_table now d m addr
  obtain ⟨b1, b2, b3⟩ := multicast.Discovery.handleAnnouncement_table now₂ d m addr₂
  obtain ⟨c1, c2, c3⟩ := multicast.Discovery.handleAnnouncement_table now₂
    (d.handleAnnouncement now m addr).1 m addr₂
  rw [hstep now unix addr d rfl, hstep now₂ unix₂ addr₂ d rfl,
    hstep now₂ unix₂ addr₂ _ a1]
  refine ⟨a2, a3, fun key => ?_, fun key => ?_⟩
  · by_cases hkey : key = m.StackID
    · rw [hkey, c2, b2]
    · rw [c3 key hkey, a3 key hkey, b3 key hkey]
  · by_cases hkey : key = m.StackID
    · rw [hkey, c2, a2]
      rfl
    · rw [c3 key hkey]

/-- C6, witness: `announceB` handled by `daemonA` at 20 ns and again at 30 ns. -/
theorem handleMessage_upsert_witness :
    sample.json.Unmarshal [1] = some sample.announceB ∧
    sample.announceB.Type_ = types.MessageTypeAnnounce ∧
    GoString.ofText sample.announceB.StackID ≠ sample.daemonA.stackID ∧
    (sample.daemonA.handleMessage sample.json 20 1700000000 [1]
      sample.addrB).1.storage.peers.lookup "B" =
      some { StackID := "B", HostIP := "192.168.1.20", VXLANEndpoint := "192.168.1.20:4789",
             VNI := 100, LastSeen := 20, Status := "active" } :=
  ⟨by decide, by decide, by decide,
    (handleMessage_upsert sample.json 20 30 1700000000 1700000001 sample.daemonA [1]
      sample.addrB sample.addrB sample.announceB (by decide) (Or.inl (by decide))
      (by decide)).1⟩

/-- C7, the code at the failing input.  The manager tracks `10.0.2.0/24 via 10.200.0.2`
(after `UpdateRoutes([B])`), the desired map of `[C]` has `10.0.2.0/24 via 10.200.0.3`, and
`UpdateRoutes([C])` issues the add alone: no `ip route del 10.0.2.0/24 dev vxlan100`. -/
theorem UpdateRoutes_changed_next_hop_no_delete :
    sample.routesAfterB.routes.lookup "10.0.2.0/24" = some "10.200.0.2" ∧
    (sample.routesAfterB.newRoutes [sample.peer "C" "192.168.1.30"]).lookup "10.0.2.0/24" =
      some "10.200.0.3" ∧
    (sample.routesAfterB.UpdateRoutes Kernel.allOk RangeOrder.stored RangeOrder.stored
      [sample.peer "C" "192.168.1.30"]).1.2 =
      [(["ip", "route", "add", "10.0.2.0/24", "via", "10.200.0.3", "dev", "vxlan100"],
        true)] := by
  decide

/-- C8, the code at the failing input.  Nothing is tracked, the host list is
`[192.168.1.20]` and the kernel fails the `bridge fdb append`: `UpdateEntries` issues the
append, which fails, and returns `nil`. -/
theorem UpdateEntries_append_failure_returns_nil :
    ((fdb.NewManager "vxlan100").UpdateEntries Kernel.allFail RangeOrder.stored
      RangeOrder.stored ["192.168.1.20"]).1.2 =
      [(["bridge", "fdb", "append", "00:00:00:00:00:00", "dev", "vxlan100", "dst",
        "192.168.1.20"], false)] ∧
    ((fdb.NewManager "vxlan100").UpdateEntries Kernel.allFail RangeOrder.stored
      RangeOrder.stored ["192.168.1.20"]).2 = none := by
  decide

/-- C9.  FDB post-state.  For every tracked set, every host-IP list and every outcome of
each kernel command, after `UpdateEntries(hostIPs)` an address is tracked exactly when it is
in `hostIPs` and either was tracked before or the `bridge fdb append` issued for it
succeeded.  For an address of `hostIPs` that was not tracked, exactly one append is issued,
and the address is tracked afterwards exactly when that append succeeded; no append is
issued for any other address.  For an address tracked before and absent from `hostIPs` the
delete is issued and the address is dropped whatever the outcome of the delete; an address
whose append failed is not tracked. -/
theorem UpdateEntries_post_state (k : Kernel) (o₁ o₂ : RangeOrder) (m : fdb.Manager)
    (hostIPs : List String) :
    (∀ ip, ip ∈ (m.UpdateEntries k o₁ o₂ hostIPs).1.1.entries ↔
      ip ∈ hostIPs ∧ (ip ∈ m.entries ∨
        (m.appendCmd ip, true) ∈ (m.UpdateEntries k o₁ o₂ hostIPs).1.2)) ∧
    (∀ ip, ip ∈ m.entries → ip ∉ hostIPs →
      ip ∉ (m.UpdateEntries k o₁ o₂ hostIPs).1.1.entries) ∧
    (∀ ip, (m.appendCmd ip, false) ∈ (m.UpdateEntries k o₁ o₂ hostIPs).1.2 →
      ip ∉ (m.UpdateEntries k o₁ o₂ hostIPs).1.1.entries) ∧
    (∀ ip, ip ∈ hostIPs → ip ∉ m.entries →
      ∃ b, (∀ b', (m.appendCmd ip, b') ∈ (m.UpdateEntries k o₁ o₂ hostIPs).1.2 ↔ b' = b) ∧
        (ip ∈ (m.UpdateEntries k o₁ o₂ hostIPs).1.1.entries ↔ b = true)) ∧
    (∀ ip, ip ∈ m.entries ∨ ip ∉ hostIPs →
      ∀ b', (m.appendCmd ip, b') ∉ (m.UpdateEntries k o₁ o₂ hostIPs).1.2) ∧
    (∀ ip, ip ∈ m.entries → ip ∉ hostIPs →
      ∃ b, (m.delCmd ip, b) ∈ (m.UpdateEntries k o₁ o₂ hostIPs).1.2) := by
  have key : ∀ ip, (ip ∈ (m.UpdateEntries k o₁ o₂ hostIPs).1.1.entries ↔
      ip ∈ hostIPs ∧ (ip ∈ m.entries ∨
        (m.appendCmd ip, true) ∈ (m.UpdateEntries k o₁ o₂ hostIPs).1.2)) ∧
      ((m.appendCmd ip, false) ∈ (m.UpdateEntries k o₁ o₂ hostIPs).1.2 →
        ip ∉ (m.UpdateEntries k o₁ o₂ hostIPs).1.1.entries) := by
    intro x
    obtain ⟨_, c1, c2, c3⟩ := fdb.Manager.UpdateEntries_cases k o₁ o₂ m hostIPs x
    rw [← AList.lookup_isSome]
    by_cases hx : x ∈ hostIPs
    · by_cases hT : x ∈ m.entries
      · obtain ⟨g1, g2⟩ := c2 ⟨hx, hT⟩
        refine ⟨?_, fun h => absurd h (g2 false)⟩
        rw [g1, AList.lookup_isSome]
        exact iff_of_true hT ⟨hx, Or.inl hT⟩
      · obtain ⟨b, hb1, hb2⟩ := c1 ⟨hx, hT⟩
        rw [hb1, hb2 true, hb2 false]
        cases b
        · simp [hT]
        · simp [hx]
    · obtain ⟨g1, g2⟩ := c3 hx
      rw [g1]
      exact ⟨iff_of_false (by simp) (fun h => hx h.1), fun _ => by simp⟩
  refine ⟨fun ip => (key ip).1, fun ip _ hH h => hH ((key ip).1.mp h).1, fun ip => (key ip).2,
    fun ip hH hT => ?_, fun ip h => ?_,
    fun ip hT hH => fdb.Manager.UpdateEntries_delete_issued k o₁ o₂ m hostIPs ip hT hH⟩
  · obtain ⟨b, hb1, hb2⟩ := (fdb.Manager.UpdateEntries_cases k o₁ o₂ m hostIPs ip).2.1 ⟨hH, hT⟩
    refine ⟨b, hb2, ?_⟩
    rw [← AList.lookup_isSome, hb1]
    cases b <;> simp
  · obtain ⟨_, _, c2, c3⟩ := fdb.Manager.UpdateEntries_cases k o₁ o₂ m hostIPs ip
    by_cases hH : ip ∈ hostIPs
    · rcases h with hT | hN
      · exact (c2 ⟨hH, hT⟩).2
      · exact absurd hH hN
    · exact (c3 hH).2

/-- C9, witness: deletes fail and appends succeed; the stale `192.168.1.99` is dropped
although its delete was issued and failed, and `192.168.1.30` is recorded after the one
append issued for it. -/
theorem UpdateEntries_post_state_witness :
    (sample.fdbOld.UpdateEntries sample.kernelAppendOnly RangeOrder.stored
      RangeOrder.reversed sample.hostsDup).1.2 =
      [(["bridge", "fdb", "del", "00:00:00:00:00:00", "dev", "vxlan100", "dst",
          "192.168.1.99"], false),
       (["bridge", "fdb", "append", "00:00:00:00:00:00", "dev", "vxlan100", "dst",
          "192.168.1.30"], true)] ∧
    "192.168.1.99" ∉ (sample.fdbOld.UpdateEntries sample.kernelAppendOnly RangeOrder.stored
      RangeOrder.reversed sample.hostsDup).1.1.entries ∧
    ∃ b, (∀ b', (sample.fdbOld.appendCmd "192.168.1.30", b') ∈
        (sample.fdbOld.UpdateEntries sample.kernelAppendOnly RangeOrder.stored
          RangeOrder.reversed sample.hostsDup).1.2 ↔ b' = b) ∧
      ("192.168.1.30" ∈ (sample.fdbOld.UpdateEntries sample.kernelAppendOnly
        RangeOrder.stored RangeOrder.reversed sample.hostsDup).1.1.entries ↔ b = true) :=
  ⟨by decide,
   (UpdateEntries_post_state sample.kernelAppendOnly RangeOrder.stored RangeOrder.reversed
      sample.fdbOld sample.hostsDup).2.1 "192.168.1.99" (by decide) (by decide),
   (UpdateEntries_post_state sample.kernelAppendOnly RangeOrder.stored RangeOrder.reversed
      sample.fdbOld sample.hostsDup).2.2.2.1 "192.168.1.30" (by decide) (by decide)⟩

/-- C10, the code at the failing input.  The manager tracks `10.0.2.0/24 via 10.200.0.2`,
the desired route is `10.0.2.0/24 via 10.200.0.3` and the kernel fails the
`ip route add`: after `UpdateRoutes([C])` the subnet is still tracked, with the old next
hop. -/
theorem UpdateRoutes_failed_add_still_tracked :
    (sample.routesAfterB.UpdateRoutes Kernel.allFail RangeOrder.stored RangeOrder.stored
      [sample.peer "C" "192.168.1.30"]).1.2 =
      [(["ip", "route", "add", "10.0.2.0/24", "via", "10.200.0.3", "dev", "vxlan100"],
        false)] ∧
    (sample.routesAfterB.UpdateRoutes Kernel.allFail RangeOrder.stored RangeOrder.stored
      [sample.peer "C" "192.168.1.30"]).1.1.routes.lookup "10.0.2.0/24" =
      some "10.200.0.2" := by
  decide

/-- C11.  Unmapped peers are inert.  For every prior tracked state, kernel and iteration
order: inserting, at any position of the peer list, a peer whose stack id is not a key of
`stack_mappings` changes neither the commands issued by `UpdateRoutes`, nor the tracked
route map, nor the returned error; and a list made of unmapped peers only issues no
`ip route add`. -/
theorem UpdateRoutes_unmapped_inert (k : Kernel) (o₁ o₂ : RangeOrder) (m : routing.Manager) :
    (∀ (before after : List discovery.Peer) (q : discovery.Peer),
      q.StackID ∉ m.config.StackMappings →
      m.UpdateRoutes k o₁ o₂ (before ++ q :: after) = m.UpdateRoutes k o₁ o₂ (before ++ after)) ∧
    (∀ peers : List discovery.Peer, (∀ p ∈ peers, p.StackID ∉ m.config.StackMappings) →
      ∀ e ∈ (m.UpdateRoutes k o₁ o₂ peers).1.2, ∀ subnet nextHop,
        e.1 ≠ m.addCmd subnet nextHop) := by
  constructor
  · intro before after q hq
    have hnew : m.newRoutes (before ++ q :: after) = m.newRoutes (before ++ after) := by
      simp only [routing.Manager.newRoutes, List.foldl_append, List.foldl_cons,
        routing.Manager.planStep_unmapped m _ q hq]
    simp only [routing.Manager.UpdateRoutes, hnew]
  · intro peers hall e he subnet nextHop
    have hnew : m.newRoutes peers = ∅ := by
      unfold routing.Manager.newRoutes
      exact List.foldl_noop _ _ _ (fun p hp => routing.Manager.planStep_unmapped m _ p (hall p hp))
    have hrange : GoMap.range o₂ (∅ : GoMap String) = [] := by
      have := GoMap.range_keys o₂ (∅ : GoMap String)
      rw [AList.keys_empty, List.Perm.eq_nil (o₂.isPerm [])] at this
      exact List.map_eq_nil_iff.mp this
    simp only [routing.Manager.UpdateRoutes, hnew, hrange, List.foldl_nil] at he
    rcases routing.Manager.removeStep_fold_log k ∅ _ _ e he with h | ⟨y, hy⟩
    · simp at h
    · rw [hy]
      exact (routing.Manager.addCmd_ne_delCmd m subnet nextHop y).symm

/-- C11, witness: stack `Z` is not in the mappings of `cfg`; with `Z` between `B` and `C`
the call issues the same commands and tracks the same routes as without. -/
theorem UpdateRoutes_unmapped_inert_witness :
    (sample.peer "Z" "192.168.1.40").StackID ∉ sample.routesOld.config.StackMappings ∧
    sample.routesOld.UpdateRoutes Kernel.allOk RangeOrder.stored RangeOrder.stored
      ([sample.peer "B" "192.168.1.20"] ++ sample.peer "Z" "192.168.1.40" ::
        [sample.peer "C" "192.168.1.30"]) =
    sample.routesOld.UpdateRoutes Kernel.allOk RangeOrder.stored RangeOrder.stored
      ([sample.peer "B" "192.168.1.20"] ++ [sample.peer "C" "192.168.1.30"]) :=
  ⟨by decide,
    (UpdateRoutes_unmapped_inert Kernel.allOk RangeOrder.stored RangeOrder.stored
      sample.routesOld).1 [sample.peer "B" "192.168.1.20"] [sample.peer "C" "192.168.1.30"]
      (sample.peer "Z" "192.168.1.40") (by decide)⟩

/-- C12, the code at a message of version 2.  The datagram of `announceV2` decodes to an
`ANNOUNCE` of stack `B` with `version = 2`; `daemonA`, whose table is empty, handles it at
20 ns: afterwards the table holds `B` and the discovery file is published once. -/
theorem handleMessage_version_counterexample :
    multicast.goJson.Unmarshal sample.datagramV2 = some sample.announceV2 ∧
    sample.announceV2.Version ≠ 1 ∧
    GoString.ofText sample.announceV2.StackID ≠ sample.daemonA.stackID ∧
    sample.daemonA.storage.peers.lookup "B" = none ∧
    (sample.daemonA.handleMessage multicast.goJson 20 1700000000 sample.datagramV2
      sample.addrB).1.storage.peers.lookup "B" =
      some { StackID := "B", HostIP := "192.168.1.20", VXLANEndpoint := "192.168.1.20:4789",
             VNI := 100, LastSeen := 20, Status := "active" } ∧
    (sample.daemonA.handleMessage multicast.goJson 20 1700000000 sample.datagramV2
      sample.addrB).2.map multicast.Effect.isPublish = [true] := by
  have h : multicast.goJson.Unmarshal sample.datagramV2 = some sample.announceV2 := by decide
  refine ⟨h, by decide, by decide, by decide, ?_, ?_⟩
  · unfold multicast.Discovery.handleMessage
    rw [h]
    decide
  · unfold multicast.Discovery.handleMessage
    rw [h]
    rfl

/-- C12, amended.  `handleMessage` never reads the `version` field.  For every peer table
and every datagram that decodes to a message `m` of any version: a datagram that decodes to
`m` with another version is handled in the same way; when `m.stack_id` is not the local
stack id and the type is `ANNOUNCE` or `RESPONSE`, the peer of `m` is stored and the
discovery file is published; when `m.stack_id` is the local stack id, or the type is neither
`ANNOUNCE` nor `RESPONSE`, the daemon is unchanged and nothing is published. -/
theorem handleMessage_version_not_checked (json : multicast.Json) (now : time.Time)
    (unix : Int) (d : multicast.Discovery) (data : List UInt8) (addr : multicast.UDPAddr)
    (m : types.MulticastMessage) (hm : json.Unmarshal data = some m) :
    (∀ (data₂ : List UInt8) (v : Int), json.Unmarshal data₂ = some { m with Version := v } →
      d.handleMessage json now unix data₂ addr = d.handleMessage json now unix data addr) ∧
    (GoString.ofText m.StackID ≠ d.stackID →
      (m.Type_ = types.MessageTypeAnnounce ∨ m.Type_ = types.MessageTypeResponse) →
      (d.handleMessage json now unix data addr).1.storage.peers.lookup m.StackID =
        some { StackID := m.StackID, HostIP := m.HostIP,
               VXLANEndpoint := m.HostIP ++ ":4789", VNI := m.VNI, LastSeen := now,
               Status := types.PeerStatusActive } ∧
      (d.handleMessage json now unix data addr).2 =
        [multicast.Effect.WriteDiscoveryFile
          (d.handleMessage json now unix data addr).1.storage.peers]) ∧
    ((GoString.ofText m.StackID = d.stackID ∨
        (m.Type_ ≠ types.MessageTypeAnnounce ∧ m.Type_ ≠ types.MessageTypeResponse)) →
      (d.handleMessage json now unix data addr).1 = d ∧
      ∀ e ∈ (d.handleMessage json now unix data addr).2, e.isPublish = false) := by
  refine ⟨fun data₂ v h₂ => ?_, fun hself htype => ?_, fun hskip => ?_⟩
  · unfold multicast.Discovery.handleMessage
    rw [hm, h₂]
    rfl
  · have hrun : d.handleMessage json now unix data addr = d.handleAnnouncement now m addr := by
      unfold multicast.Discovery.handleMessage
      rw [hm]
      dsimp only
      rcases htype with ha | hr
      · rw [if_neg hself, if_pos ha]
      · have hna : ¬ m.Type_ = types.MessageTypeAnnounce := by rw [hr]; decide
        have hnq : ¬ m.Type_ = types.MessageTypeQuery := by rw [hr]; decide
        rw [if_neg hself, if_neg hna, if_neg hnq, if_pos hr]
        rfl
    rw [hrun]
    exact ⟨(multicast.Discovery.handleAnnouncement_table now d m addr).2.1, rfl⟩
  · unfold multicast.Discovery.handleMessage
    rw [hm]
    dsimp only
    rcases hskip with hself | ⟨hna, hnr⟩
    · rw [if_pos hself]
      exact ⟨rfl, fun e he => by simp at he⟩
    · by_cases hself : GoString.ofText m.StackID = d.stackID
      · rw [if_pos hself]
        exact ⟨rfl, fun e he => by simp at he⟩
      · rw [if_neg hself, if_neg hna]
        by_cases hq : m.Type_ = types.MessageTypeQuery
        · rw [if_pos hq]
          unfold multicast.Discovery.handleQuery
          dsimp only
          split
          · exact ⟨rfl, fun e he => by simp at he⟩
          · refine ⟨rfl, fun e he => ?_⟩
            rw [List.mem_singleton] at he
            rw [he]
            rfl
        · rw [if_neg hq, if_neg hnr]
          exact ⟨rfl, fun e he => by simp at he⟩

/-- C12, amended, witness: the datagram of `announceV2` handled by `daemonA`. -/
theorem handleMessage_version_not_checked_witness :
    multicast.goJson.Unmarshal sample.datagramV2 = some sample.announceV2 ∧
    (sample.daemonA.handleMessage multicast.goJson 20 1700000000 sample.datagramV2
      sample.addrB).1.storage.peers.lookup "B" =
      some { StackID := "B", HostIP := "192.168.1.20", VXLANEndpoint := "192.168.1.20:4789",
             VNI := 100, LastSeen := 20, Status := "active" } :=
  ⟨by decide,
    ((handleMessage_version_not_checked multicast.goJson 20 1700000000 sample.daemonA
      sample.datagramV2 sample.addrB sample.announceV2 (by decide)).2.1 (by decide)
      (Or.inl (by decide))).1⟩

/-- C13.  Bad input cannot poison the table.  For every peer table and every datagram that
fails to decode, or decodes to a message whose type is none of `ANNOUNCE`, `QUERY`,
`RESPONSE`, `handleMessage` leaves the daemon (so the peer table) unchanged and has no
effect: no datagram is sent and the discovery file is not written. -/
theorem handleMessage_bad_input (json : multicast.Json) (now : time.Time) (unix : Int)
    (d : multicast.Discovery) (data : List UInt8) (addr : multicast.UDPAddr)
    (hbad : json.Unmarshal data = none ∨
      ∃ m, json.Unmarshal data = some m ∧ m.Type_ ≠ types.MessageTypeAnnounce ∧
        m.Type_ ≠ types.MessageTypeQuery ∧ m.Type_ ≠ types.MessageTypeResponse) :
    d.handleMessage json now unix data addr = (d, []) := by
  unfold multicast.Discovery.handleMessage
  rcases hbad with h | ⟨m, h, ha, hq, hr⟩
  · rw [h]
  · rw [h]
    dsimp only
    rw [if_neg ha, if_neg hq, if_neg hr]
    split <;> rfl

/-- C13, witness: the two-byte datagram `[7, 7]` does not parse as JSON. -/
theorem handleMessage_bad_input_witness :
    multicast.goJson.Unmarshal [7, 7] = none ∧
    sample.daemonA.handleMessage multicast.goJson 30 1700000000 [7, 7] sample.addrB =
      (sample.daemonA, []) :=
  ⟨by decide,
    handleMessage_bad_input multicast.goJson 30 1700000000 sample.daemonA [7, 7] sample.addrB
      (Or.inl (by decide))⟩

/-- C14, the code at a stack id that is not UTF-8.  The daemon whose stack id is the byte
`0xFF` answers the `QUERY` of `B` with one datagram to the sender; that datagram decodes to
a `RESPONSE` whose stack id is the text U+FFFD, three bytes that are not the local stack
id. -/
theorem handleMessage_query_counterexample :
    multicast.goJson.Unmarshal sample.datagramQuery = some sample.queryB ∧
    sample.queryB.Type_ = types.MessageTypeQuery ∧
    GoString.ofText sample.queryB.StackID ≠ sample.daemonFF.stackID ∧
    sample.daemonFF.stackID = [255] ∧
    ∃ out m, (sample.daemonFF.handleMessage multicast.goJson 20 1700000000
        sample.datagramQuery sample.addrB).2 =
        [multicast.Effect.WriteToUDP out sample.addrB] ∧
      multicast.goJson.Unmarshal out = some m ∧
      m.Type_ = types.MessageTypeResponse ∧
      GoString.ofText m.StackID = [239, 191, 189] ∧
      GoString.ofText m.StackID ≠ sample.daemonFF.stackID := by
  have h : multicast.goJson.Unmarshal sample.datagramQuery = some sample.queryB := by decide
  refine ⟨h, by decide, by decide, rfl, ?_⟩
  refine ⟨multicast.goMarshal
    { Type_ := GoString.ofText types.MessageTypeResponse, Version := 1, StackID := [255],
      HostIP := GoString.ofText "192.168.1.10", VNI := 100, Timestamp := 1700000000 },
    { Type_ := types.MessageTypeResponse, Version := 1,
      StackID := String.mk [utf8.replacement], HostIP := "192.168.1.10", VNI := 100,
      Timestamp := 1700000000 }, ?_, by decide, rfl, by decide, by decide⟩
  unfold multicast.Discovery.handleMessage
  rw [h]
  rfl

/-- C14, amended.  QUERY handling.  For every daemon whose stack id is valid UTF-8 (with Go
`int` values for the local VNI and the clock) and every datagram from address `addr` that
decodes to a `QUERY` with a stack id other than the local one, `handleMessage` sends exactly
one datagram, to `addr`, and nothing else; that datagram decodes to the message of type
`RESPONSE`, version 1, with the local stack id, host IP and VNI (and the clock reading as
timestamp); the daemon, so the peer table, is unchanged. -/
theorem handleMessage_query_response (now : time.Time) (unix : Int) (d : multicast.Discovery)
    (data : List UInt8) (addr : multicast.UDPAddr) (m : types.MulticastMessage)
    (hm : multicast.goJson.Unmarshal data = some m) (htype : m.Type_ = types.MessageTypeQuery)
    (hself : GoString.ofText m.StackID ≠ d.stackID)
    (hvalid : GoString.valid d.stackID = true) (hvni : json.isInt64 d.vni = true)
    (hunix : json.isInt64 unix = true) :
    ∃ out, (d.handleMessage multicast.goJson now unix data addr).2 =
        [multicast.Effect.WriteToUDP out addr] ∧
      multicast.goJson.Unmarshal out =
        some { Type_ := types.MessageTypeResponse, Version := 1,
               StackID := GoString.toText d.stackID, HostIP := d.hostIP, VNI := d.vni,
               Timestamp := unix } ∧
      GoString.ofText (GoString.toText d.stackID) = d.stackID ∧
      (d.handleMessage multicast.goJson now unix data addr).1 = d := by
  have hid := GoString.ofText_toText d.stackID hvalid
  obtain ⟨out, hmarshal, hback⟩ := multicast.goJson_roundtrip
    { Type_ := types.MessageTypeResponse, Version := 1, StackID := GoString.toText d.stackID,
      HostIP := d.hostIP, VNI := d.vni, Timestamp := unix }
    (show json.isInt64 1 = true by decide) hvni hunix
  simp only [types.MulticastMessage.toRaw, hid] at hmarshal
  have hna : ¬ m.Type_ = types.MessageTypeAnnounce := by rw [htype]; decide
  refine ⟨out, ?_, hback, hid, ?_⟩
  · unfold multicast.Discovery.handleMessage
    rw [hm]
    dsimp only
    rw [if_neg hself, if_neg hna, if_pos htype]
    unfold multicast.Discovery.handleQuery
    dsimp only
    rw [hmarshal]
  · unfold multicast.Discovery.handleMessage
    rw [hm]
    dsimp only
    rw [if_neg hself, if_neg hna, if_pos htype]
    exact multicast.Discovery.handleQuery_state _ unix d m addr

/-- C14, amended, witness: `daemonA` answers the `QUERY` of `B` with one datagram to
`addrB`, which decodes to the `RESPONSE` of stack `A`. -/
theorem handleMessage_query_response_witness :
    multicast.goJson.Unmarshal sample.datagramQuery = some sample.queryB ∧
    GoString.valid sample.daemonA.stackID = true ∧
    ∃ out, (sample.daemonA.handleMessage multicast.goJson 20 1700000000 sample.datagramQuery
        sample.addrB).2 = [multicast.Effect.WriteToUDP out sample.addrB] ∧
      multicast.goJson.Unmarshal out =
        some { Type_ := "RESPONSE", Version := 1,
               StackID := GoString.toText sample.daemonA.stackID, HostIP := "192.168.1.10",
               VNI := 100, Timestamp := 1700000000 } ∧
      GoString.ofText (GoString.toText sample.daemonA.stackID) = sample.daemonA.stackID ∧
      (sample.daemonA.handleMessage multicast.goJson 20 1700000000 sample.datagramQuery
        sample.addrB).1 = sample.daemonA :=
  ⟨by decide, by decide,
    handleMessage_query_response 20 1700000000 sample.daemonA sample.datagramQuery
      sample.addrB sample.queryB (by decide) (by decide) (by decide) (by decide) (by decide)
      (by decide)⟩

set_option maxRecDepth 1000000 in
/-- C15, the code at a long stack id.  The daemon of a stack whose id has 1000 letters emits
an announcement of 1103 bytes: nothing on the sending side looks at the length.  The
datagram as sent decodes, but `listenLoop` reads it into its buffer of `MaxMessageSize`
bytes, so `handleMessage` gets the first 1024 bytes, which do not decode: the receiver
drops the announcement and learns nothing. -/
theorem sendAnnouncement_exceeds_buffer :
    sample.longID.length = 1000 ∧
    ∃ data, sample.daemonLong.sendAnnouncement multicast.goJson 1700000000 =
        [multicast.Effect.WriteToUDP data sample.daemonLong.group] ∧
      data.length = 1103 ∧
      multicast.goJson.Unmarshal data ≠ none ∧
      multicast.goJson.Unmarshal (data.take multicast.MaxMessageSize) = none ∧
      sample.daemonA.receive multicast.goJson 20 1700000000 data sample.addrB =
        (sample.daemonA, []) := by
  have h : multicast.goJson.Unmarshal ((multicast.goMarshal
      { Type_ := GoString.ofText types.MessageTypeAnnounce, Version := 1,
        StackID := sample.daemonLong.stackID,
        HostIP := GoString.ofText sample.daemonLong.hostIP, VNI := sample.daemonLong.vni,
        Timestamp := 1700000000 }).take multicast.MaxMessageSize) = none := by decide
  refine ⟨List.length_replicate 1000 'x', _, rfl, ?_, ?_, h, ?_⟩
  · decide
  · decide
  · unfold multicast.Discovery.receive multicast.Discovery.handleMessage
    rw [h]

/-- C16, the code at a stack id that is not UTF-8.  `json.Marshal` of the message in memory
whose stack id is the byte `0xFF` returns a datagram, and `json.Unmarshal` of that datagram
returns a message whose stack id is the text U+FFFD (bytes `EF BF BD`): not the stack id
that was encoded. -/
theorem message_round_trip_counterexample :
    sample.rawFF.StackID = [255] ∧
    ∃ data m₂, multicast.goJson.Marshal sample.rawFF = some data ∧
      multicast.goJson.Unmarshal data = some m₂ ∧
      GoString.ofText m₂.StackID = [239, 191, 189] ∧
      GoString.ofText m₂.StackID ≠ sample.rawFF.StackID :=
  ⟨rfl, multicast.goMarshal sample.rawFF,
    { Type_ := types.MessageTypeAnnounce, Version := 1, StackID := String.mk [utf8.replacement],
      HostIP := "192.168.1.20", VNI := 100, Timestamp := 1700000000 },
    rfl, by decide, by decide, by decide⟩

/-- C16, amended.  Multicast message round trip.  For every message `m` in memory whose
`type`, `stack_id` and `host_ip` are valid UTF-8 (and whose `version`, `vni` and `timestamp`
are Go `int`s), `json.Marshal` returns a datagram, and `json.Unmarshal` of that datagram, as
`handleMessage` calls it, returns a message equal to `m` in all six fields. -/
theorem message_round_trip (m : types.RawMessage)
    (htype : GoString.valid m.Type_ = true) (hstack : GoString.valid m.StackID = true)
    (hhost : GoString.valid m.HostIP = true) (hversion : json.isInt64 m.Version = true)
    (hvni : json.isInt64 m.VNI = true) (htimestamp : json.isInt64 m.Timestamp = true) :
    ∃ data m₂, multicast.goJson.Marshal m = some data ∧
      multicast.goJson.Unmarshal data = some m₂ ∧
      GoString.ofText m₂.Type_ = m.Type_ ∧ m₂.Version = m.Version ∧
      GoString.ofText m₂.StackID = m.StackID ∧ GoString.ofText m₂.HostIP = m.HostIP ∧
      m₂.VNI = m.VNI ∧ m₂.Timestamp = m.Timestamp := by
  have e1 := GoString.ofText_toText m.Type_ htype
  have e2 := GoString.ofText_toText m.StackID hstack
  have e3 := GoString.ofText_toText m.HostIP hhost
  obtain ⟨data, h1, h2⟩ := multicast.goJson_roundtrip
    { Type_ := GoString.toText m.Type_, Version := m.Version,
      StackID := GoString.toText m.StackID, HostIP := GoString.toText m.HostIP,
      VNI := m.VNI, Timestamp := m.Timestamp } hversion hvni htimestamp
  simp only [types.MulticastMessage.toRaw, e1, e2, e3] at h1
  exact ⟨data, _, h1, h2, e1, rfl, e2, e3, rfl, rfl⟩

/-- C16, amended, witness: the `ANNOUNCE` of stack `B` as a value in memory. -/
theorem message_round_trip_witness :
    GoString.valid sample.announceB.toRaw.StackID = true ∧
    ∃ data m₂, multicast.goJson.Marshal sample.announceB.toRaw = some data ∧
      multicast.goJson.Unmarshal data = some m₂ ∧
      GoString.ofText m₂.Type_ = GoString.ofText "ANNOUNCE" ∧ m₂.Version = 1 ∧
      GoString.ofText m₂.StackID = GoString.ofText "B" ∧
      GoString.ofText m₂.HostIP = GoString.ofText "192.168.1.20" ∧ m₂.VNI = 100 ∧
      m₂.Timestamp = 1700000000 :=
  ⟨by decide,
    message_round_trip sample.announceB.toRaw (by decide) (by decide) (by decide) (by decide)
      (by decide) (by decide)⟩

/-- C17.  Discovery-file round trip.  For every peer table (the empty one included) whose
VNIs are Go `int`s and every call of `WriteDiscoveryFile` that returns `nil`:
`LoadDiscoveryData` on the published file returns no error and a peer list whose
`(stack_id, host_ip, vxlan_endpoint, vni, status)` records are exactly those of the peers
of the table whose status is `active`. -/
theorem discovery_file_round_trip (layout : time.Layout) (faults : os.Faults)
    (o : RangeOrder) (now : time.Time) (fs : storage.FileStorage) (disk : os.FileSystem)
    (hvni : ∀ e ∈ fs.peers.entries, json.isInt64 e.2.VNI = true)
    (hok : (fs.WriteDiscoveryFile layout faults o now disk).2 = none) :
    ∃ loaded, discovery.LoadDiscoveryData layout
        (fs.WriteDiscoveryFile layout faults o now disk).1.1 fs.discoveryFile =
        (loaded, none) ∧
      ∀ (stackID hostIP endpoint : String) (vni : Int) (status : String),
        (∃ q ∈ loaded, q.StackID = stackID ∧ q.HostIP = hostIP ∧ q.VXLANEndpoint = endpoint ∧
          q.VNI = vni ∧ q.Status = status) ↔
        (∃ key p, fs.peers.lookup key = some p ∧ p.Status = "active" ∧ p.StackID = stackID ∧
          p.HostIP = hostIP ∧ p.VXLANEndpoint = endpoint ∧ p.VNI = vni ∧ p.Status = status) := by
  refine ⟨_, storage.FileStorage.load_written layout faults o now fs disk hvni hok, ?_⟩
  intro stackID hostIP endpoint vni status
  constructor
  · rintro ⟨q, hq, h1, h2, h3, h4, h5⟩
    rw [List.mem_filter, List.mem_map] at hq
    obtain ⟨⟨p, hp, rfl⟩, hact⟩ := hq
    rw [List.mem_map] at hp
    obtain ⟨⟨key, p₂⟩, hmem, rfl⟩ := hp
    refine ⟨key, p₂, (GoMap.mem_range o fs.peers key p₂).mp hmem, ?_, h1, h2, h3, h4, h5⟩
    simpa [discovery.Peer.ofTypes] using hact
  · rintro ⟨key, p, hkey, hact, h1, h2, h3, h4, h5⟩
    refine ⟨discovery.Peer.ofTypes layout p, ?_, h1, h2, h3, h4, h5⟩
    rw [List.mem_filter, List.mem_map]
    refine ⟨⟨p, ?_, rfl⟩, ?_⟩
    · rw [List.mem_map]
      exact ⟨(key, p), (GoMap.mem_range o fs.peers key p).mpr hkey, rfl⟩
    · simpa [discovery.Peer.ofTypes] using hact

set_option maxRecDepth 100000 in
/-- C17, witness: the table of the active `peerB` and the stale `peerStale`, written to an
empty directory without faults; the router loads `B` alone. -/
theorem discovery_file_round_trip_witness :
    (sample.tableBD.WriteDiscoveryFile sample.layout os.Faults.none RangeOrder.stored 5
      sample.noFiles).2 = none ∧
    (discovery.LoadDiscoveryData sample.layout
      (sample.tableBD.WriteDiscoveryFile sample.layout os.Faults.none RangeOrder.stored 5
        sample.noFiles).1.1 sample.tableBD.discoveryFile).1.map (fun q => q.StackID) =
      ["B"] ∧
    ∃ loaded, discovery.LoadDiscoveryData sample.layout
        (sample.tableBD.WriteDiscoveryFile sample.layout os.Faults.none RangeOrder.stored 5
          sample.noFiles).1.1 sample.tableBD.discoveryFile = (loaded, none) ∧
      ∀ (stackID hostIP endpoint : String) (vni : Int) (status : String),
        (∃ q ∈ loaded, q.StackID = stackID ∧ q.HostIP = hostIP ∧ q.VXLANEndpoint = endpoint ∧
          q.VNI = vni ∧ q.Status = status) ↔
        (∃ key p, sample.tableBD.peers.lookup key = some p ∧ p.Status = "active" ∧
          p.StackID = stackID ∧ p.HostIP = hostIP ∧ p.VXLANEndpoint = endpoint ∧
          p.VNI = vni ∧ p.Status = status) :=
  ⟨by decide, by decide,
    discovery_file_round_trip sample.layout os.Faults.none RangeOrder.stored 5 sample.tableBD
      sample.noFiles
      (by decide) (by decide)⟩

set_option maxRecDepth 100000 in
/-- C18, the code when two calls overlap.  `listenLoop` (after `AddPeer`) and `cleanupLoop`
(after `CleanupStale`) both call `WriteDiscoveryFile`, which holds the read lock only and
always uses the path `discovery.json.tmp`.  Call `A` creates and writes the temp file, call
`B` then creates (truncates) the same path, and `A` renames it: every operation succeeds,
so `A` returns `nil`, and `discovery.json` is the empty file, which is neither the content
it had before nor the encoding of the snapshot. -/
theorem WriteDiscoveryFile_overlapping_calls :
    (sample.tableBC.WriteDiscoveryFile sample.layout os.Faults.none RangeOrder.stored 5
      sample.oldDisk).1.2.map Prod.fst =
      sample.tableBC.writeOps sample.layout RangeOrder.stored 5 ∧
    sample.overlap =
      [os.FileOp.Create "/var/lib/docker-router/discovery.json.tmp",
       os.FileOp.Write "/var/lib/docker-router/discovery.json.tmp"
         (storage.encodeDiscoveryData sample.layout
           (sample.tableBC.snapshot RangeOrder.stored 5)),
       os.FileOp.Create "/var/lib/docker-router/discovery.json.tmp",
       os.FileOp.Rename "/var/lib/docker-router/discovery.json.tmp"
         "/var/lib/docker-router/discovery.json"] ∧
    os.FileOp.runAll sample.oldDisk sample.overlap = [true, true, true, true] ∧
    sample.oldDisk "/var/lib/docker-router/discovery.json" = some [123, 125, 10] ∧
    storage.encodeDiscoveryData sample.layout
      (sample.tableBC.snapshot RangeOrder.stored 5) ≠ [] ∧
    (sample.overlap.foldl os.FileOp.run sample.oldDisk)
      "/var/lib/docker-router/discovery.json" = some [] :=
  ⟨rfl, by decide, by decide, by decide, by decide, by decide⟩

/-- C19, the code at start-up.  `Start` of the new daemon of stack `A` returns `nil` and
leaves the table empty; from there `announceLoop` makes one effect up to its first wait,
which is not a call of `WriteDiscoveryFile`, and `cleanupLoop` makes none: nothing has
published the discovery file.  And the document written for the empty table carries
`"peers": null`, not an empty list. -/
theorem Start_publication_counterexample :
    (sample.daemonNew.Start (some "192.168.1.10") true).2 = none ∧
    (sample.daemonNew.Start (some "192.168.1.10") true).1.storage.peers = ∅ ∧
    (((sample.daemonNew.Start (some "192.168.1.10") true).1.announceLoopStart
      multicast.goJson 1700000000).map (List.map multicast.Effect.isPublish)) =
      some [false] ∧
    ((sample.daemonNew.Start (some "192.168.1.10") true).1.cleanupLoopStart.map
      (List.map multicast.Effect.isPublish)) = some [] ∧
    (sample.daemonNew.storage.snapshot RangeOrder.stored 5).toJson sample.layout =
      [("version", json.Val.scalar (json.Scalar.num 1)),
       ("last_update", json.Val.scalar (json.Scalar.str "5")),
       ("peers", json.Val.scalar json.Scalar.null)] := by
  refine ⟨rfl, rfl, by decide, by decide, ?_⟩
  rw [storage.FileStorage.snapshot_empty _ _ _ rfl]
  rfl

/-- C19, amended.  When `Start` has returned `nil` and before any datagram has been
received or any cleanup tick has fired, the discovery file has not been published: `Start`
makes no file operation and leaves the peer table as it is, and neither `announceLoop` nor
`cleanupLoop` calls `WriteDiscoveryFile` before its first wait.  The file is first published
by the first cleanup tick or by the first accepted `ANNOUNCE` or `RESPONSE`.  When the table
is empty, the tick publishes the empty table; its document has `version` 1, the publication
time and `"peers": null`, and the router loads it as the empty peer list without error. -/
theorem Start_publishes_nothing (js : multicast.Json) (layout : time.Layout)
    (detect : Option String) (setup : Bool) (unix : Int) (d : multicast.Discovery)
    (faults : os.Faults) (o o₂ : RangeOrder) (now : time.Time) (disk : os.FileSystem)
    (hstart : (d.Start detect setup).2 = none) :
    (d.Start detect setup).1.storage = d.storage ∧
    (∀ effects, (d.Start detect setup).1.announceLoopStart js unix = some effects →
      ∀ e ∈ effects, e.isPublish = false) ∧
    (∀ effects, (d.Start detect setup).1.cleanupLoopStart = some effects → effects = []) ∧
    (∃ peers, ((d.Start detect setup).1.step js (multicast.Event.cleanupTick o now)).2 =
      [multicast.Effect.WriteDiscoveryFile peers]) ∧
    (∀ data addr m, js.Unmarshal data = some m →
      GoString.ofText m.StackID ≠ (d.Start detect setup).1.stackID →
      (m.Type_ = types.MessageTypeAnnounce ∨ m.Type_ = types.MessageTypeResponse) →
      ∃ peers, ((d.Start detect setup).1.step js
        (multicast.Event.datagram data addr now unix)).2 =
        [multicast.Effect.WriteDiscoveryFile peers]) ∧
    (d.storage.peers = ∅ →
      ((d.Start detect setup).1.step js (multicast.Event.cleanupTick o now)).2 =
        [multicast.Effect.WriteDiscoveryFile ∅] ∧
      (d.storage.snapshot o₂ now).toJson layout =
        [("version", json.Val.scalar (json.Scalar.num 1)),
         ("last_update", json.Val.scalar (json.Scalar.str (layout.format now))),
         ("peers", json.Val.scalar json.Scalar.null)] ∧
      ((d.storage.WriteDiscoveryFile layout faults o₂ now disk).2 = none →
        discovery.LoadDiscoveryData layout
          (d.storage.WriteDiscoveryFile layout faults o₂ now disk).1.1
          d.storage.discoveryFile = ([], none))) := by
  unfold multicast.Discovery.Start at hstart ⊢
  cases detect with
  | none => simp at hstart
  | some hostIP =>
    cases setup with
    | false => simp at hstart
    | true =>
      dsimp only
      rw [if_pos rfl]
      refine ⟨rfl, ?_, ?_, ⟨_, rfl⟩, ?_, fun hempty => ⟨?_, ?_, fun hok => ?_⟩⟩
      · intro effects heff e he
        unfold multicast.Discovery.announceLoopStart at heff
        split at heff
        · simp at heff
        · rw [← Option.some.inj heff] at he
          unfold multicast.Discovery.sendAnnouncement at he
          dsimp only at he
          split at he
          · simp at he
          · rw [List.mem_singleton] at he
            rw [he]
            rfl
      · intro effects heff
        unfold multicast.Discovery.cleanupLoopStart at heff
        split at heff
        · simp at heff
        · exact (Option.some.inj heff).symm
      · intro data addr m hm hself htype
        exact multicast.Discovery.step_accepted js now unix _ data addr m hm hself htype
      · simp only [multicast.Discovery.step]
        rw [storage.FileStorage.CleanupStale_empty o now d.storage _ hempty, hempty]
      · rw [storage.FileStorage.snapshot_empty o₂ now d.storage hempty]
        rfl
      · rw [storage.FileStorage.load_written layout faults o₂ now d.storage disk
          (fun e he => by rw [hempty] at he; simp at he) hok, hempty,
          GoMap.range_empty]
        rfl

/-- C19, amended, witness: the new daemon of stack `A`, whose table is empty; the first
cleanup tick publishes the empty table. -/
theorem Start_publishes_nothing_witness :
    (sample.daemonNew.Start (some "192.168.1.10") true).2 = none ∧
    sample.daemonNew.storage.peers = ∅ ∧
    (∀ effects, (sample.daemonNew.Start (some "192.168.1.10") true).1.announceLoopStart
      multicast.goJson 1700000000 = some effects → ∀ e ∈ effects, e.isPublish = false) ∧
    ((sample.daemonNew.Start (some "192.168.1.10") true).1.step multicast.goJson
      (multicast.Event.cleanupTick RangeOrder.stored 5)).2 =
      [multicast.Effect.WriteDiscoveryFile ∅] :=
  ⟨rfl, rfl,
    (Start_publishes_nothing multicast.goJson sample.layout (some "192.168.1.10") true
      1700000000 sample.daemonNew os.Faults.none RangeOrder.stored RangeOrder.stored 5
      sample.noFiles rfl).2.1,
    ((Start_publishes_nothing multicast.goJson sample.layout (some "192.168.1.10") true
      1700000000 sample.daemonNew os.Faults.none RangeOrder.stored RangeOrder.stored 5
      sample.noFiles rfl).2.2.2.2.2 rfl).1⟩

/-- C20.  Router convergence commands.  For every configuration (so every VNI `v`), peer
list, kernel and iteration order: starting from the router built by `NewRouter` (nothing
tracked), if every command issued by `onPeersUpdated(peers)` succeeds, the commands issued
are, in this order, one `bridge fdb append 00:00:00:00:00:00 dev vxlan<v> dst <host_ip>`
for each distinct host IP of `peers`, then one
`ip route add <container_subnet> via <vxlan_ip> dev vxlan<v>` for each distinct container
subnet of a remote mapped peer, and nothing else. -/
theorem onPeersUpdated_commands (k : Kernel) (o₁ o₂ o₃ o₄ : RangeOrder) (cfg : config.Config)
    (peers : List discovery.Peer)
    (hok : ∀ e ∈ ((router.NewRouter cfg).onPeersUpdated k o₁ o₂ o₃ o₄ peers).2, e.2 = true) :
    ∃ (ips : List String) (rts : List (String × String)),
      ips.Perm (peers.map (fun peer => peer.HostIP)).dedup ∧
      (rts.map Prod.fst).Nodup ∧
      (∀ subnet nextHop, (subnet, nextHop) ∈ rts →
        (router.NewRouter cfg).routeManager.specRoute peers subnet nextHop) ∧
      (∀ subnet nextHop, (router.NewRouter cfg).routeManager.specRoute peers subnet nextHop →
        subnet ∈ rts.map Prod.fst) ∧
      ((router.NewRouter cfg).onPeersUpdated k o₁ o₂ o₃ o₄ peers).2 =
        ips.map (fun ip => (["bridge", "fdb", "append", "00:00:00:00:00:00", "dev",
          "vxlan" ++ toString cfg.VNI, "dst", ip], true)) ++
        rts.map (fun r => (["ip", "route", "add", r.1, "via", r.2, "dev",
          "vxlan" ++ toString cfg.VNI], true)) := by
  set fm : fdb.Manager := fdb.NewManager ("vxlan" ++ toString cfg.VNI) with hfm
  set rm : routing.Manager := routing.NewManager ("vxlan" ++ toString cfg.VNI) cfg with hrm
  set hostIPs := peers.map (fun peer => peer.HostIP) with hhosts
  have hlogeq : ((router.NewRouter cfg).onPeersUpdated k o₁ o₂ o₃ o₄ peers).2 =
      (fm.UpdateEntries k o₁ o₂ hostIPs).1.2 ++
        (rm.UpdateRoutes (fun log cmd => k ((fm.UpdateEntries k o₁ o₂ hostIPs).1.2 ++ log) cmd)
          o₃ o₄ peers).1.2 := rfl
  rw [hlogeq] at hok ⊢
  -- FDB part
  have hf : (fm.UpdateEntries k o₁ o₂ hostIPs).1.2 =
      (GoMap.range o₂ (fdb.currentHosts hostIPs)).map
        (fun kv => (fm.appendCmd kv.1, true)) := by
    have h := fdb.Manager.fdbAddStep_fold_trace k (GoMap.range o₂ (fdb.currentHosts hostIPs))
      (fm, []) (GoMap.range_nodup o₂ _) (fun kv _ => by simp [hfm, fdb.NewManager])
    simp only [fdb.Manager.UpdateEntries, hfm, fdb.NewManager, GoMap.range_empty,
      List.foldl_nil] at h ⊢
    rw [h]
    · simp
    · intro e he
      apply hok e
      simp only [fdb.Manager.UpdateEntries, hfm, fdb.NewManager, GoMap.range_empty,
        List.foldl_nil]
      exact List.mem_append_left _ he
  -- route part
  have hr : ∀ k', (∀ e ∈ (rm.UpdateRoutes k' o₃ o₄ peers).1.2, e.2 = true) →
      (rm.UpdateRoutes k' o₃ o₄ peers).1.2 =
        (GoMap.range o₄ (rm.newRoutes peers)).map (fun kv => (rm.addCmd kv.1 kv.2, true)) := by
    intro k' hok'
    have h := routing.Manager.addStep_fold_trace k' (GoMap.range o₄ (rm.newRoutes peers))
      (rm, []) (GoMap.range_nodup o₄ _) (fun kv _ => by simp [hrm, routing.NewManager])
    simp only [routing.Manager.UpdateRoutes, hrm, routing.NewManager, GoMap.range_empty,
      List.foldl_nil] at h hok' ⊢
    rw [h hok']
    simp
  refine ⟨(GoMap.range o₂ (fdb.currentHosts hostIPs)).map Prod.fst,
    GoMap.range o₄ (rm.newRoutes peers), ?_, GoMap.range_nodup o₄ _, ?_, ?_, ?_⟩
  · rw [GoMap.range_keys]
    exact (o₂.isPerm _).trans (fdb.currentHosts_keys_perm hostIPs)
  · intro s h hmem
    have hl := (GoMap.mem_range o₄ _ s h).mp hmem
    rw [routing.Manager.specRoute_iff]
    rcases routing.Manager.newRoutes_sound rm peers ∅ s h hl with h0 | h1
    · simp at h0
    · exact h1
  · intro s h hspec
    rw [GoMap.mem_range_keys]
    obtain ⟨p, hp, hself, sc, hsc, hsub, _⟩ := (routing.Manager.specRoute_iff rm peers s h).mp hspec
    exact routing.Manager.newRoutes_mem rm peers ∅ s (Or.inr ⟨p, hp, hself, sc, hsc, hsub⟩)
  · rw [hr _ (fun e he => hok e (List.mem_append_right _ he)), hf]
    simp [hfm, hrm, fdb.NewManager, routing.NewManager, fdb.Manager.appendCmd,
      routing.Manager.addCmd, List.map_map]

/-- C20, witness: mapping `B -> (10.0.2.0/24, 10.200.0.2)`, `B` active at `192.168.1.20`,
VNI 100, every command succeeding: one `bridge fdb append` and one `ip route add`. -/
theorem onPeersUpdated_commands_witness :
    ((router.NewRouter sample.cfgB).onPeersUpdated Kernel.allOk RangeOrder.stored
      RangeOrder.stored RangeOrder.stored RangeOrder.stored
      [sample.peer "B" "192.168.1.20"]).2 =
      [(["bridge", "fdb", "append", "00:00:00:00:00:00", "dev", "vxlan100", "dst",
          "192.168.1.20"], true),
       (["ip", "route", "add", "10.0.2.0/24", "via", "10.200.0.2", "dev", "vxlan100"],
          true)] ∧
    ∃ (ips : List String) (rts : List (String × String)),
      ips.Perm ([sample.peer "B" "192.168.1.20"].map (fun peer => peer.HostIP)).dedup ∧
      (rts.map Prod.fst).Nodup ∧
      (∀ subnet nextHop, (subnet, nextHop) ∈ rts →
        (router.NewRouter sample.cfgB).routeManager.specRoute
          [sample.peer "B" "192.168.1.20"] subnet nextHop) ∧
      (∀ subnet nextHop, (router.NewRouter sample.cfgB).routeManager.specRoute
          [sample.peer "B" "192.168.1.20"] subnet nextHop → subnet ∈ rts.map Prod.fst) ∧
      ((router.NewRouter sample.cfgB).onPeersUpdated Kernel.allOk RangeOrder.stored
        RangeOrder.stored RangeOrder.stored RangeOrder.stored
        [sample.peer "B" "192.168.1.20"]).2 =
        ips.map (fun ip => (["bridge", "fdb", "append", "00:00:00:00:00:00", "dev",
          "vxlan" ++ toString sample.cfgB.VNI, "dst", ip], true)) ++
        rts.map (fun r => (["ip", "route", "add", r.1, "via", r.2, "dev",
          "vxlan" ++ toString sample.cfgB.VNI], true)) :=
  ⟨by decide,
    onPeersUpdated_commands Kernel.allOk RangeOrder.stored RangeOrder.stored
      RangeOrder.stored RangeOrder.stored sample.cfgB [sample.peer "B" "192.168.1.20"]
      (by decide)⟩

/-- C21.  Peer replacement.  Let a first `onPeersUpdated(P)` run from any router state with
every command succeeding, and let `P'` be `P` with the host IP of one peer changed from `x`
to `y`, where `x ≠ y` and no other peer has host IP `x` or `y`.  Then for every kernel and
iteration order `onPeersUpdated(P')` issues exactly two commands, first
`bridge fdb del 00:00:00:00:00:00 dev <ifname> dst x`, then
`bridge fdb append 00:00:00:00:00:00 dev <ifname> dst y` (so no route command), and the
route manager, with its tracked route map, is unchanged. -/
theorem onPeersUpdated_host_ip_change (k₁ k₂ : Kernel)
    (o₁ o₂ o₃ o₄ o₅ o₆ o₇ o₈ : RangeOrder) (r : router.Router)
    (before after : List discovery.Peer) (p : discovery.Peer) (y : String)
    (hok : ∀ e ∈ (r.onPeersUpdated k₁ o₁ o₂ o₃ o₄ (before ++ p :: after)).2, e.2 = true)
    (hxy : p.HostIP ≠ y)
    (hothers : ∀ q ∈ before ++ after, q.HostIP ≠ p.HostIP ∧ q.HostIP ≠ y) :
    ∃ b₁ b₂,
      ((r.onPeersUpdated k₁ o₁ o₂ o₃ o₄ (before ++ p :: after)).1.onPeersUpdated k₂ o₅ o₆
          o₇ o₈ (before ++ { p with HostIP := y } :: after)).2 =
        [(["bridge", "fdb", "del", "00:00:00:00:00:00", "dev", r.fdbManager.interfaceName,
            "dst", p.HostIP], b₁),
         (["bridge", "fdb", "append", "00:00:00:00:00:00", "dev",
            r.fdbManager.interfaceName, "dst", y], b₂)] ∧
      ((r.onPeersUpdated k₁ o₁ o₂ o₃ o₄ (before ++ p :: after)).1.onPeersUpdated k₂ o₅ o₆
          o₇ o₈ (before ++ { p with HostIP := y } :: after)).1.routeManager =
        (r.onPeersUpdated k₁ o₁ o₂ o₃ o₄ (before ++ p :: after)).1.routeManager := by
  simp only [router.Router.onPeersUpdated] at hok ⊢
  have hokf := fun e he => hok e (List.mem_append_left _ he)
  have hokg := fun e he => hok e (List.mem_append_right _ he)
  -- routes: the tracked map is the desired map of both lists
  obtain ⟨_, hcfg, hlook⟩ := routing.Manager.UpdateRoutes_lookup _ o₃ o₄ r.routeManager
    (before ++ p :: after) hokg
  have hsettled := routing.Manager.UpdateRoutes_settled
    (fun log cmd => k₂ ((((r.fdbManager.UpdateEntries k₁ o₁ o₂
      (List.map (fun peer => peer.HostIP) (before ++ p :: after))).1.1.UpdateEntries k₂ o₅ o₆
      (List.map (fun peer => peer.HostIP)
        (before ++ { p with HostIP := y } :: after))).1.2) ++ log) cmd) o₇ o₈ _
    (before ++ { p with HostIP := y } :: after)
    (fun x => by
      rw [hlook x, routing.Manager.newRoutes_config r.routeManager _ hcfg,
        routing.Manager.newRoutes_hostIP r.routeManager before after p y])
  -- FDB: one delete, one append
  have hname := (fdb.Manager.UpdateEntries_cases k₁ o₁ o₂ r.fdbManager
    (List.map (fun peer => peer.HostIP) (before ++ p :: after)) "").1
  obtain ⟨b₁, b₂, hfdb⟩ := fdb.Manager.UpdateEntries_replace k₂ o₅ o₆
    (r.fdbManager.UpdateEntries k₁ o₁ o₂
      (List.map (fun peer => peer.HostIP) (before ++ p :: after))).1.1
    (List.map (fun peer => peer.HostIP) (before ++ p :: after))
    (List.map (fun peer => peer.HostIP) (before ++ { p with HostIP := y } :: after))
    p.HostIP y
    (fun z => fdb.Manager.UpdateEntries_ok_mem k₁ o₁ o₂ r.fdbManager _ hokf z)
    (List.mem_map_of_mem (fun peer : discovery.Peer => peer.HostIP) (by simp))
    (by
      simp only [List.map_append, List.map_cons, List.mem_append, List.mem_cons, List.mem_map]
      rintro (⟨q, hq, hqx⟩ | h | ⟨q, hq, hqx⟩)
      · exact (hothers q (List.mem_append_left _ hq)).1 hqx
      · exact hxy h
      · exact (hothers q (List.mem_append_right _ hq)).1 hqx)
    (by
      simp only [List.map_append, List.map_cons, List.mem_append, List.mem_cons, List.mem_map]
      rintro (⟨q, hq, hqy⟩ | h | ⟨q, hq, hqy⟩)
      · exact (hothers q (List.mem_append_left _ hq)).2 hqy
      · exact hxy h.symm
      · exact (hothers q (List.mem_append_right _ hq)).2 hqy)
    (List.mem_map_of_mem (fun peer : discovery.Peer => peer.HostIP)
      (show ({ p with HostIP := y } : discovery.Peer) ∈ _ by simp))
    (by
      intro z hzx hzy
      simp only [List.map_append, List.map_cons, List.mem_append, List.mem_cons]
      constructor
      · rintro (h | h | h)
        · exact Or.inl h
        · exact absurd h hzx
        · exact Or.inr (Or.inr h)
      · rintro (h | h | h)
        · exact Or.inl h
        · exact absurd h hzy
        · exact Or.inr (Or.inr h))
  refine ⟨b₁, b₂, ?_, ?_⟩
  · rw [hsettled, hfdb, List.append_nil]
    simp only [fdb.Manager.delCmd, fdb.Manager.appendCmd, hname]
  · rw [hsettled]

/-- C21, witness: stacks `B` and `C` converged on a new router of `cfg`, then `B` moves from
`192.168.1.20` to `192.168.1.21`: one delete, one append, no route command. -/
theorem onPeersUpdated_host_ip_change_witness :
    (∀ e ∈ ((router.NewRouter sample.cfg).onPeersUpdated Kernel.allOk RangeOrder.stored
      RangeOrder.stored RangeOrder.stored RangeOrder.stored
      ([] ++ sample.peer "B" "192.168.1.20" :: [sample.peer "C" "192.168.1.30"])).2,
      e.2 = true) ∧
    (((router.NewRouter sample.cfg).onPeersUpdated Kernel.allOk RangeOrder.stored
      RangeOrder.stored RangeOrder.stored RangeOrder.stored
      ([] ++ sample.peer "B" "192.168.1.20" :: [sample.peer "C" "192.168.1.30"])).1.onPeersUpdated
      Kernel.allOk RangeOrder.reversed RangeOrder.reversed RangeOrder.reversed
      RangeOrder.reversed
      ([] ++ { sample.peer "B" "192.168.1.20" with HostIP := "192.168.1.21" } ::
        [sample.peer "C" "192.168.1.30"])).2 =
      [(["bridge", "fdb", "del", "00:00:00:00:00:00", "dev", "vxlan100", "dst",
          "192.168.1.20"], true),
       (["bridge", "fdb", "append", "00:00:00:00:00:00", "dev", "vxlan100", "dst",
          "192.168.1.21"], true)] ∧
    ∃ b₁ b₂,
      (((router.NewRouter sample.cfg).onPeersUpdated Kernel.allOk RangeOrder.stored
        RangeOrder.stored RangeOrder.stored RangeOrder.stored
        ([] ++ sample.peer "B" "192.168.1.20" ::
          [sample.peer "C" "192.168.1.30"])).1.onPeersUpdated
        Kernel.allOk RangeOrder.reversed RangeOrder.reversed RangeOrder.reversed
        RangeOrder.reversed
        ([] ++ { sample.peer "B" "192.168.1.20" with HostIP := "192.168.1.21" } ::
          [sample.peer "C" "192.168.1.30"])).2 =
        [(["bridge", "fdb", "del", "00:00:00:00:00:00", "dev",
            (router.NewRouter sample.cfg).fdbManager.interfaceName, "dst",
            (sample.peer "B" "192.168.1.20").HostIP], b₁),
         (["bridge", "fdb", "append", "00:00:00:00:00:00", "dev",
            (router.NewRouter sample.cfg).fdbManager.interfaceName, "dst", "192.168.1.21"],
            b₂)] ∧
      (((router.NewRouter sample.cfg).onPeersUpdated Kernel.allOk RangeOrder.stored
        RangeOrder.stored RangeOrder.stored RangeOrder.stored
        ([] ++ sample.peer "B" "192.168.1.20" ::
          [sample.peer "C" "192.168.1.30"])).1.onPeersUpdated
        Kernel.allOk RangeOrder.reversed RangeOrder.reversed RangeOrder.reversed
        RangeOrder.reversed
        ([] ++ { sample.peer "B" "192.168.1.20" with HostIP := "192.168.1.21" } ::
          [sample.peer "C" "192.168.1.30"])).1.routeManager =
        ((router.NewRouter sample.cfg).onPeersUpdated Kernel.allOk RangeOrder.stored
          RangeOrder.stored RangeOrder.stored RangeOrder.stored
          ([] ++ sample.peer "B" "192.168.1.20" ::
            [sample.peer "C" "192.168.1.30"])).1.routeManager :=
  ⟨by decide, by decide,
    onPeersUpdated_host_ip_change Kernel.allOk Kernel.allOk RangeOrder.stored
      RangeOrder.stored RangeOrder.stored RangeOrder.stored RangeOrder.reversed
      RangeOrder.reversed RangeOrder.reversed RangeOrder.reversed
      (router.NewRouter sample.cfg) [] [sample.peer "C" "192.168.1.30"]
      (sample.peer "B" "192.168.1.20") "192.168.1.21" (by decide) (by decide) (by decide)⟩

/-- C22.  VXLAN reconciler error semantics.  For every kernel (every outcome of every
command), every output and every manager.  When `ip link show` succeeds (the interface
exists) `CreateInterface` returns `nil`.  When it fails, the call issues `ip link add`,
`ip addr add`, `ip link set up` in this order and stops at the first failure; the calls that
stop at a failure return an error and the call whose three commands succeed returns `nil`.
So an error is returned exactly when the interface did not exist and one of the three
commands was issued and failed. -/
theorem CreateInterface_error_semantics (k : Kernel) (out : Stdout) (m : vxlan.Manager) :
    (m.InterfaceExists k = true → (m.CreateInterface k out).2 = none) ∧
    (m.InterfaceExists k = false →
      ((m.CreateInterface k out).1 = [(m.showCmd, false), (m.linkAddCmd, false)] ∧
        (m.CreateInterface k out).2 ≠ none) ∨
      ((m.CreateInterface k out).1 =
          [(m.showCmd, false), (m.linkAddCmd, true), (m.addrAddCmd, false)] ∧
        (m.CreateInterface k out).2 ≠ none) ∨
      ((m.CreateInterface k out).1 =
          [(m.showCmd, false), (m.linkAddCmd, true), (m.addrAddCmd, true),
           (m.linkUpCmd, false)] ∧
        (m.CreateInterface k out).2 ≠ none) ∨
      ((m.CreateInterface k out).1 =
          [(m.showCmd, false), (m.linkAddCmd, true), (m.addrAddCmd, true),
           (m.linkUpCmd, true)] ∧
        (m.CreateInterface k out).2 = none)) ∧
    ((m.CreateInterface k out).2 ≠ none ↔
      m.InterfaceExists k = false ∧
        ∃ cmd ∈ [m.linkAddCmd, m.addrAddCmd, m.linkUpCmd],
          (cmd, false) ∈ (m.CreateInterface k out).1.drop 1) := by
  unfold vxlan.Manager.CreateInterface
  cases h₀ : m.InterfaceExists k with
  | true =>
    refine ⟨fun _ => ?_, fun h => absurd h (by decide), ?_⟩
    · simp
    · simp
  | false =>
    refine ⟨fun h => absurd h (by decide), fun _ => ?_, ?_⟩
    · cases h₁ : k [(m.showCmd, false)] m.linkAddCmd with
      | false => simp [h₁]
      | true =>
        cases h₂ : k [(m.showCmd, false), (m.linkAddCmd, true)] m.addrAddCmd with
        | false => simp [h₁, h₂]
        | true =>
          cases h₃ : k [(m.showCmd, false), (m.linkAddCmd, true),
              (m.addrAddCmd, true)] m.linkUpCmd with
          | false => simp [h₁, h₂, h₃]
          | true => simp [h₁, h₂, h₃]
    · cases h₁ : k [(m.showCmd, false)] m.linkAddCmd with
      | false => simp [h₁]
      | true =>
        cases h₂ : k [(m.showCmd, false), (m.linkAddCmd, true)] m.addrAddCmd with
        | false => simp [h₁, h₂]
        | true =>
          cases h₃ : k [(m.showCmd, false), (m.linkAddCmd, true),
              (m.addrAddCmd, true)] m.linkUpCmd with
          | false => simp [h₁, h₂, h₃]
          | true => simp [h₁, h₂, h₃]

/-- C22, witness: the interface does not exist, `ip link add` succeeds and `ip addr add`
fails: three commands after the check, and an error. -/
theorem CreateInterface_error_semantics_witness :
    sample.vxlanA.InterfaceExists sample.kernelAddrFails = false ∧
    sample.vxlanA.CreateInterface sample.kernelAddrFails sample.printsAddrShow =
      ([(["ip", "link", "show", "vxlan100"], false),
        (["ip", "link", "add", "vxlan100", "type", "vxlan", "id", "100", "dstport", "4789",
          "local", "192.168.1.10"], true),
        (["ip", "addr", "add", "10.200.0.1/24", "dev", "vxlan100"], false)],
       some "failed to assign IP to VXLAN interface") ∧
    ((sample.vxlanA.CreateInterface sample.kernelAddrFails sample.printsAddrShow).2 ≠ none ↔
      sample.vxlanA.InterfaceExists sample.kernelAddrFails = false ∧
        ∃ cmd ∈ [sample.vxlanA.linkAddCmd, sample.vxlanA.addrAddCmd,
            sample.vxlanA.linkUpCmd],
          (cmd, false) ∈ (sample.vxlanA.CreateInterface sample.kernelAddrFails
            sample.printsAddrShow).1.drop 1) :=
  ⟨by decide, by decide,
    (CreateInterface_error_semantics sample.kernelAddrFails sample.printsAddrShow
      sample.vxlanA).2.2⟩

/-- C23, the code at an announcement of another VNI.  `daemonA` runs on VNI 100 with an
empty table; the datagram of `announceVni200` decodes to an `ANNOUNCE` of stack `B` with
`vni = 200`; after handling it the table holds `B` with VNI 200. -/
theorem run_foreign_vni_counterexample :
    sample.daemonA.vni = 100 ∧
    sample.daemonA.storage.peers = ∅ ∧
    multicast.goJson.Unmarshal sample.datagramVni200 = some sample.announceVni200 ∧
    ((sample.daemonA.run multicast.goJson
      [multicast.Event.datagram sample.datagramVni200 sample.addrB 20
        1700000000]).storage.peers.lookup "B").map (fun p => p.VNI) = some 200 := by
  have h : multicast.goJson.Unmarshal sample.datagramVni200 = some sample.announceVni200 := by
    decide
  refine ⟨rfl, rfl, h, ?_⟩
  simp only [multicast.Discovery.run, List.foldl_cons, List.foldl_nil, multicast.Discovery.step,
    multicast.Discovery.handleMessage, h]
  decide

/-- C23, amended.  Starting from the empty table, for every sequence of received datagrams
and cleanup ticks and every decoder, every peer of the table was taken from a received
`ANNOUNCE` or `RESPONSE` of its stack (not the local one) and carries the stack id, host IP
and VNI of that message.  The local VNI takes no part: it is never compared with the VNI
of a message. -/
theorem peer_vni_is_message_vni (json : multicast.Json) (d : multicast.Discovery)
    (events : List multicast.Event) (hempty : d.storage.peers = ∅) (key : String)
    (p : types.Peer) (hp : (d.run json events).storage.peers.lookup key = some p) :
    ∃ data addr now unix m, multicast.Event.datagram data addr now unix ∈ events ∧
      json.Unmarshal data = some m ∧
      (m.Type_ = types.MessageTypeAnnounce ∨ m.Type_ = types.MessageTypeResponse) ∧
      GoString.ofText m.StackID ≠ d.stackID ∧ m.StackID = key ∧
      p.StackID = m.StackID ∧ p.HostIP = m.HostIP ∧ p.VNI = m.VNI := by
  have h := multicast.Discovery.run_learnedFrom json events d [] (fun key' p' hl => by
    rw [hempty] at hl
    simp at hl) key p hp
  rw [List.nil_append] at h
  exact h

/-- C23, amended, witness: after the events of `trace` the table of `daemonA` holds `B`,
taken from the announcement of `B`. -/
theorem peer_vni_is_message_vni_witness :
    sample.daemonA.storage.peers = ∅ ∧
    (sample.daemonA.run sample.json sample.trace).storage.peers.lookup "B" =
      some { StackID := "B", HostIP := "192.168.1.20", VXLANEndpoint := "192.168.1.20:4789",
             VNI := 100, LastSeen := 20, Status := "active" } ∧
    ∃ data addr now unix m, multicast.Event.datagram data addr now unix ∈ sample.trace ∧
      sample.json.Unmarshal data = some m ∧
      (m.Type_ = types.MessageTypeAnnounce ∨ m.Type_ = types.MessageTypeResponse) ∧
      GoString.ofText m.StackID ≠ sample.daemonA.stackID ∧ m.StackID = "B" ∧
      "B" = m.StackID ∧ "192.168.1.20" = m.HostIP ∧ 100 = m.VNI :=
  ⟨rfl, by decide,
    peer_vni_is_message_vni sample.json sample.daemonA sample.trace rfl "B"
      { StackID := "B", HostIP := "192.168.1.20", VXLANEndpoint := "192.168.1.20:4789",
        VNI := 100, LastSeen := 20, Status := "active" } (by decide)⟩

/-- C24.  Active filter.  For every content of the discovery file that parses, as the
data `parsed`: `LoadDiscoveryData` and `Watcher.loadDiscoveryData` both return, without
error, the peers of `parsed` whose status is `active`; that list is a subsequence of the
peers in file order, every member of it is active, and every active peer of the file is a
member. -/
theorem load_keeps_active_peers (layout : time.Layout) (disk : os.FileSystem)
    (w : discovery.Watcher) (data : List UInt8) (parsed : discovery.DiscoveryData)
    (hread : disk w.discoveryFile = some data)
    (hparse : (json.parseDoc (utf8.decode data)).bind (discovery.DiscoveryData.fromJson layout) =
      some parsed) :
    discovery.LoadDiscoveryData layout disk w.discoveryFile =
      (parsed.Peers.filter (fun peer => peer.Status = "active"), none) ∧
    w.loadDiscoveryData layout disk =
      (parsed.Peers.filter (fun peer => peer.Status = "active"), none) ∧
    (w.loadDiscoveryData layout disk).1.Sublist parsed.Peers ∧
    (∀ peer ∈ (w.loadDiscoveryData layout disk).1, peer.Status = "active") ∧
    (∀ peer ∈ parsed.Peers, peer.Status = "active" →
      peer ∈ (w.loadDiscoveryData layout disk).1) := by
  have h₁ : discovery.LoadDiscoveryData layout disk w.discoveryFile =
      (parsed.Peers.filter (fun peer => peer.Status = "active"), none) := by
    simp only [discovery.LoadDiscoveryData, hread, hparse, discovery.activePeers_eq_filter]
  have h₂ : w.loadDiscoveryData layout disk =
      (parsed.Peers.filter (fun peer => peer.Status = "active"), none) := by
    simp only [discovery.Watcher.loadDiscoveryData, hread, hparse,
      discovery.activePeers_eq_filter]
  refine ⟨h₁, h₂, ?_, ?_, ?_⟩
  · rw [h₂]
    exact List.filter_sublist _
  · intro peer hpeer
    rw [h₂] at hpeer
    simpa using (List.mem_filter.mp hpeer).2
  · intro peer hpeer hactive
    rw [h₂]
    exact List.mem_filter.mpr ⟨hpeer, by simpa using hactive⟩

set_option maxRecDepth 100000 in
/-- C24, witness: of the peers `B` (active), `D` (stale), `E` (no status), `C` (active) of
`fileMixed`, the watcher returns `B` and `C`, in this order. -/
theorem load_keeps_active_peers_witness :
    (sample.watcher.loadDiscoveryData sample.layout sample.diskMixed).1.map
      (fun peer => (peer.StackID, peer.Status)) = [("B", "active"), ("C", "active")] ∧
    discovery.LoadDiscoveryData sample.layout sample.diskMixed sample.watcher.discoveryFile =
      (([discovery.Peer.ofTypes sample.layout sample.peerB,
         discovery.Peer.ofTypes sample.layout sample.peerStale,
         discovery.Peer.ofTypes sample.layout sample.peerNoStatus,
         discovery.Peer.ofTypes sample.layout sample.peerC] : List discovery.Peer).filter
        (fun peer => peer.Status = "active"), none) :=
  ⟨by decide,
    (load_keeps_active_peers sample.layout sample.diskMixed sample.watcher sample.fileMixed
      { Version := 1, LastUpdate := "5",
        Peers := [discovery.Peer.ofTypes sample.layout sample.peerB,
          discovery.Peer.ofTypes sample.layout sample.peerStale,
          discovery.Peer.ofTypes sample.layout sample.peerNoStatus,
          discovery.Peer.ofTypes sample.layout sample.peerC] }
      (by decide) (by decide)).1⟩

set_option maxRecDepth 100000 in
/-- C25, the code at the failing input.  The interface `vxlan100` exists and carries
`10.200.0.10/24` alone; the configured overlay IP `10.200.0.1` is not among the listed
addresses, but it occurs in the output as a piece of text (inside `10.200.0.10/24`), so
`CreateInterface` issues the address check and `ip link set vxlan100 up` and no
`ip addr add 10.200.0.1/24 dev vxlan100`.  The same holds for the manager built by the
discovery-side `NewManager`. -/
theorem CreateInterface_address_check_by_substring :
    vxlan.specListedAddresses sample.addrShow = ["10.200.0.10"] ∧
    sample.vxlanA.localIP ∉ vxlan.specListedAddresses sample.addrShow ∧
    strings.Contains sample.addrShow sample.vxlanA.localIP = true ∧
    sample.vxlanA.CreateInterface Kernel.allOk sample.printsAddrShow =
      ([(["ip", "link", "show", "vxlan100"], true),
        (["ip", "addr", "show", "dev", "vxlan100"], true),
        (["ip", "link", "set", "vxlan100", "up"], true)], none) ∧
    (sample.vxlanA.addrAddCmd, true) ∉
      (sample.vxlanA.CreateInterface Kernel.allOk sample.printsAddrShow).1 ∧
    sample.vxlanA₂.CreateInterface Kernel.allOk sample.printsAddrShow =
      ([(["ip", "link", "show", "vxlan100"], true),
        (["ip", "addr", "show", "dev", "vxlan100"], true),
        (["ip", "link", "set", "vxlan100", "up"], true)], none) := by
  decide

/-- C26.  Route-get parsing.  Let `ip route get` succeed and print lines of
single-space-separated fields (non-empty texts without white space).  Then `DetectHostIP`
returns, without error, the field that immediately follows the first field equal to `src`
on the first line that has such a field followed by another field, and it returns an error
exactly when no line has one; `DetectUnderlyingDevice` does the same with `dev`. -/
theorem route_get_parsing (k : Kernel) (out : Stdout) (destIP : String)
    (lines : List (List String))
    (hfields : ∀ fields ∈ lines, ∀ field ∈ fields, vxlan.specField field = true)
    (hrun : k [] ["ip", "route", "get", destIP] = true)
    (hout : out [] ["ip", "route", "get", destIP] = vxlan.specOutput lines) :
    (∀ value, vxlan.specScan "src" lines = some value →
      vxlan.DetectHostIP k out destIP = (value, none)) ∧
    ((vxlan.DetectHostIP k out destIP).2 ≠ none ↔ vxlan.specScan "src" lines = none) ∧
    (∀ value, vxlan.specScan "dev" lines = some value →
      vxlan.DetectUnderlyingDevice k out destIP = (value, none)) ∧
    ((vxlan.DetectUnderlyingDevice k out destIP).2 ≠ none ↔
      vxlan.specScan "dev" lines = none) := by
  have hsrc := vxlan.scanLines_specOutput "src" lines hfields
  have hdev := vxlan.scanLines_specOutput "dev" lines hfields
  unfold vxlan.DetectHostIP vxlan.DetectUnderlyingDevice
  simp only [hrun, hout, hsrc, hdev, Bool.not_true, Bool.false_eq_true, if_false]
  refine ⟨fun value hv => ?_, ?_, fun value hv => ?_, ?_⟩
  · rw [hv]
  · cases vxlan.specScan "src" lines <;> simp
  · rw [hv]
  · cases vxlan.specScan "dev" lines <;> simp

/-- C26, witness: `192.168.200.3 dev eth3 src 192.168.200.12 uid 1000` gives the host IP
`192.168.200.12` and the device `eth3`. -/
theorem route_get_parsing_witness :
    vxlan.specOutput sample.routeGet =
      "192.168.200.3 dev eth3 src 192.168.200.12 uid 1000\n" ∧
    vxlan.DetectHostIP Kernel.allOk sample.printsRouteGet "192.168.200.3" =
      ("192.168.200.12", none) ∧
    vxlan.DetectUnderlyingDevice Kernel.allOk sample.printsRouteGet "192.168.200.3" =
      ("eth3", none) :=
  ⟨by decide,
    (route_get_parsing Kernel.allOk sample.printsRouteGet "192.168.200.3" sample.routeGet
      (by decide) rfl rfl).1 "192.168.200.12" (by decide),
    (route_get_parsing Kernel.allOk sample.printsRouteGet "192.168.200.3" sample.routeGet
      (by decide) rfl rfl).2.2.1 "eth3" (by decide)⟩

/-- C27, the code at negative settings.  `readConfig` accepts `ANNOUNCE_INTERVAL=-5` and
`PEER_TIMEOUT=-90`; `main` guards the two setters with `!= 0` only, so the daemon is
started with an announce interval of -5 s and a peer timeout of -90 s, and both
`time.NewTicker(d.announceInterval)` and `time.NewTicker(d.peerTimeout / 3)` get a negative
period and panic.  With both variables `0` the defaults stay and both periods are 30 s. -/
theorem negative_periods_reach_NewTicker :
    discoverycmd.readConfig sample.envNegative =
      some { StackID := "A", VNI := 100, DataDir := "/var/lib/docker-router",
             MulticastGroup := "239.1.1.1", Port := 4790, AnnounceInterval := -5,
             PeerTimeout := -90 } ∧
    ((discoverycmd.readConfig sample.envNegative).map
      (fun config => (discoverycmd.newDiscovery config).announceInterval)) =
      some (-5000000000) ∧
    ((discoverycmd.readConfig sample.envNegative).map
      (fun config => (discoverycmd.newDiscovery config).peerTimeout.tdiv 3)) =
      some (-30000000000) ∧
    ((discoverycmd.readConfig sample.envNegative).map
      (fun config => (discoverycmd.newDiscovery config).announceTicker)) = some none ∧
    ((discoverycmd.readConfig sample.envNegative).map
      (fun config => (discoverycmd.newDiscovery config).cleanupTicker)) = some none ∧
    ((discoverycmd.readConfig sample.envZero).map
      (fun config => ((discoverycmd.newDiscovery config).announceTicker,
        (discoverycmd.newDiscovery config).cleanupTicker))) =
      some (some 30000000000, some 30000000000) := by
  decide

/-- C28.  Tracked routes never exceed the desired set.  For every prior tracked route map,
peer list, kernel (so every outcome of every command) and iteration order: after
`UpdateRoutes(peers)` every subnet of the tracked route map is the container subnet that
`stack_mappings` gives to some peer of the list that is not the local stack and has an
entry in `stack_mappings`; and `UpdateRoutes` returns `nil`. -/
theorem UpdateRoutes_tracked_within_desired (k : Kernel) (o₁ o₂ : RangeOrder)
    (m : routing.Manager) (peers : List discovery.Peer) :
    (∀ subnet, subnet ∈ (m.UpdateRoutes k o₁ o₂ peers).1.1.routes →
      ∃ p ∈ peers, p.StackID ≠ m.config.StackID ∧
        (m.config.GetStackConfig p.StackID).2 = true ∧
        (m.config.GetStackConfig p.StackID).1.ContainerSubnet = subnet) ∧
    (m.UpdateRoutes k o₁ o₂ peers).2 = none := by
  refine ⟨fun subnet hmem => ?_, rfl⟩
  have hnew := routing.Manager.UpdateRoutes_mem_newRoutes k o₁ o₂ m peers subnet hmem
  rw [← AList.lookup_isSome, Option.isSome_iff_exists] at hnew
  obtain ⟨h, hh⟩ := hnew
  rcases routing.Manager.newRoutes_sound m peers ∅ subnet h hh with hc | ⟨p, hp, hself, sc, hsc, hsub, _⟩
  · simp at hc
  · refine ⟨p, hp, hself, ?_, ?_⟩
    · simp [config.Config.GetStackConfig, hsc]
    · simp [config.Config.GetStackConfig, hsc, hsub]

/-- C28, witness: the manager that tracks the stale route `10.0.9.0/24`, peers `B` and `C`,
every command failing: nothing is tracked afterwards, and `nil` is returned. -/
theorem UpdateRoutes_tracked_within_desired_witness :
    (sample.routesOld.UpdateRoutes Kernel.allFail RangeOrder.stored RangeOrder.stored
      sample.peersBC).1.1.routes.keys = [] ∧
    (sample.routesOld.UpdateRoutes Kernel.allFail RangeOrder.stored RangeOrder.stored
      sample.peersBC).2 = none :=
  ⟨by decide,
    (UpdateRoutes_tracked_within_desired Kernel.allFail RangeOrder.stored RangeOrder.stored
      sample.routesOld sample.peersBC).2⟩
